import Mathlib

/-!
# Verification of the `config` configuration-tree / object-graph engine

A shallow embedding of `src/config.py`: the `Config` attribute-bag class, the
`ConfigList`/`ConfigDict` composites, the `get_config` capture function, and the
`configurable` registration machinery (`default_config`, `current_config`,
`from_config`, and the wrapped constructor `new__init__`).

Modelling conventions:
* Python values are terms of the inductive type `Val`.  Mutable Python objects
  (class instances, lists, dicts, `nn.ModuleList`, `nn.ModuleDict`) carry a
  numeric identity `id`; Python's `is` comparison is modelled by `Val.pyIs`,
  which compares identities.  Fresh identities are drawn from a counter that is
  threaded through every operation that allocates or deep-copies objects.
* `Config` objects are modelled structurally: a `Val.node` stores the `cls`
  attribute, the `isfrozen` flag and the remaining `__dict__` entries (the
  fields).  `ConfigList` / `ConfigDict` are `Val.clist` / `Val.cdict`, whose
  `cls` attribute is their own type tag and is left implicit.
* Python exceptions are `Err` values in an `Except` monad.
* Recursive operations take an explicit fuel argument (first argument) and are
  structurally recursive on it; running out of fuel yields `Err.fuel`.  All
  stated properties are conditional on a non-`fuel` outcome, which concrete
  witnesses discharge with explicit fuel.
-/

namespace PyConfig

/-- Python exception outcomes raised by the code under `src/config.py`
(plus `fuel`, the out-of-fuel marker of the embedding). -/
inductive Err where
  | fuel
  | unknownField        -- `Config.__setattr__` on a frozen node, new name
  | targetMismatch      -- the `assert cfg.cls is cls` in `from_config`
  | notReconstructible  -- `create_object`: target class has no `from_config`
  | elementType         -- `assert isinstance(c, Config)` in the composites
  | keyError            -- `args_default_value[k]` lookup in `new__init__`
  | typeError           -- bad call of `old__init__` (extra / missing argument)
  | indexError          -- more positional arguments than parameter names
  | valueError          -- `list.remove(x)` with no matching element
  | attributeError      -- attribute lookup failure (e.g. `save`)
  deriving DecidableEq, Repr

/-- Python immutable primitive values (identity is structural for these,
mirroring interning of small immutables). -/
inductive Prim where
  | pnone
  | pbool (b : Bool)
  | pint (n : Int)
  | pstr (s : String)
  deriving DecidableEq, Repr

/-- A Python runtime value as used by `config.py`.

* `prim` — an immutable primitive.
* `pycls c` — the class object named `c` (the value stored in a node's `cls`).
* `obj id cls attrs` — an instance of class `cls` with `__dict__ = attrs`.
* `node id cls isfrozen fields` — a `Config` instance: `cls` attribute,
  frozen flag, and the remaining `__dict__` entries.
* `clist id isfrozen configs` — a `ConfigList` (its `configs` list attribute).
* `cdict id isfrozen configs` — a `ConfigDict`.
* `vlist id elems` — a plain Python list.
* `vdict id entries` — a plain Python dict.
* `mlist id elems` — an `nn.ModuleList`.
* `mdict id entries` — an `nn.ModuleDict`. -/
inductive Val where
  | prim (p : Prim)
  | pycls (c : String)
  | obj (id : Nat) (cls : String) (attrs : List (String × Val))
  | node (id : Nat) (cls : Val) (isfrozen : Bool) (fields : List (String × Val))
  | clist (id : Nat) (isfrozen : Bool) (configs : List Val)
  | cdict (id : Nat) (isfrozen : Bool) (configs : List (String × Val))
  | vlist (id : Nat) (elems : List Val)
  | vdict (id : Nat) (entries : List (String × Val))
  | mlist (id : Nat) (elems : List Val)
  | mdict (id : Nat) (entries : List (String × Val))
  deriving Repr

namespace Val

/-- `isinstance(v, Config)` — `Config` and its two subclasses. -/
def isConfig : Val → Bool
  | node _ _ _ _ | clist _ _ _ | cdict _ _ _ => true
  | _ => false

/-- Python `is` (object identity).  Identity-carrying values compare by their
identity; immutables compare structurally (interning). -/
def pyIs : Val → Val → Bool
  | prim p, prim q => p == q
  | pycls a, pycls b => a == b
  | obj i _ _, obj j _ _ => i == j
  | node i _ _ _, node j _ _ _ => i == j
  | clist i _ _, clist j _ _ => i == j
  | cdict i _ _, cdict j _ _ => i == j
  | vlist i _, vlist j _ => i == j
  | vdict i _, vdict j _ => i == j
  | mlist i _, mlist j _ => i == j
  | mdict i _, mdict j _ => i == j
  | _, _ => false

/-- The frozen flag of a `Config`-shaped value. -/
def frozenOf : Val → Bool
  | node _ _ fr _ => fr
  | clist _ fr _ => fr
  | cdict _ fr _ => fr
  | _ => false

/-- The `cls` attribute of a `Config` node. -/
def clsOf : Val → Val
  | node _ cls _ _ => cls
  | v => v

/-- The non-builtin `__dict__` entries of a `Config` node. -/
def fieldsOf : Val → List (String × Val)
  | node _ _ _ fs => fs
  | _ => []

/-- The `configs` list of a `ConfigList`. -/
def configsOf : Val → List Val
  | clist _ _ cs => cs
  | _ => []

/-- Python truthiness (used for the `isfrozen` attribute). -/
def truthy : Val → Bool
  | prim .pnone => false
  | prim (.pbool b) => b
  | prim (.pint n) => n != 0
  | prim (.pstr s) => s != ""
  | vlist _ es | mlist _ es => !es.isEmpty
  | vdict _ es | mdict _ es => !es.isEmpty
  | _ => true

end Val

/-- Ordered-dict lookup (`d[k]` / `getattr`). -/
def lookupE : List (String × Val) → String → Option Val
  | [], _ => none
  | e :: rest, k => if e.1 = k then some e.2 else lookupE rest k

/-- Ordered-dict membership (`k in d` / `hasattr`). -/
def hasK (es : List (String × Val)) (k : String) : Bool :=
  (lookupE es k).isSome

/-- Ordered-dict write `d[k] = v`: updates an existing key in place (keeping
its position) or appends a new key at the end — Python dict semantics. -/
def updateE : List (String × Val) → String → Val → List (String × Val)
  | [], k, v => [(k, v)]
  | e :: rest, k, v =>
      if e.1 = k then (e.1, v) :: rest else e :: updateE rest k v

/-- Identity erasure: replaces every object identity with `0`.  Two values are
"field-for-field equal" in the sense of the specification iff their erasures
are equal: same structure, same class tags, same frozen flags, same field-name
sets and equal values, with the machine addresses of distinct-but-equal copies
ignored. -/
def Val.erase : Val → Val
  | .prim p => .prim p
  | .pycls c => .pycls c
  | .obj _ c attrs => .obj 0 c (attrs.attach.map fun x => (x.1.1, x.1.2.erase))
  | .node _ cls fr fs =>
      .node 0 cls.erase fr (fs.attach.map fun x => (x.1.1, x.1.2.erase))
  | .clist _ fr cs => .clist 0 fr (cs.attach.map fun x => x.1.erase)
  | .cdict _ fr cs => .cdict 0 fr (cs.attach.map fun x => (x.1.1, x.1.2.erase))
  | .vlist _ es => .vlist 0 (es.attach.map fun x => x.1.erase)
  | .vdict _ es => .vdict 0 (es.attach.map fun x => (x.1.1, x.1.2.erase))
  | .mlist _ es => .mlist 0 (es.attach.map fun x => x.1.erase)
  | .mdict _ es => .mdict 0 (es.attach.map fun x => (x.1.1, x.1.2.erase))
  termination_by v => sizeOf v
  decreasing_by all_goals first
    | (have h1 := List.sizeOf_lt_of_mem x.2; simp at h1 ⊢; omega)
    | (have h1 := List.sizeOf_lt_of_mem x.2;
       obtain ⟨⟨a, b⟩, hx⟩ := x; simp at h1 ⊢; omega)
    | (simp; omega)

/-- The erased-pair mapping function, abbreviated. -/
def eraseP (p : String × Val) : String × Val := (p.1, p.2.erase)


/-! ## `Config` attribute-bag operations (`src/config.py` lines 10–29) -/

/-- `Config.__init__(cls)` with no keyword arguments and `freeze=False`:
allocates a fresh object, sets the `cls` attribute, `isfrozen = False`,
and no further fields. -/
def mkConfig (cls : Val) (σ : Nat) : Val := .node σ cls false []

/-- The plain (non-underscore) attribute names `hasattr(self, key)` finds on
every `Config` instance beyond its `__dict__`: the methods `class Config`
itself defines — `setattrs`, `freeze`, `create_object`, `save` and the static
method `load`.  Python's underscore-leading special names (`__init__`,
`__str__`, `__class__`, …) are outside the modelled fragment: they never occur
as configuration field names, no stated property quantifies over them, and
assignment to several of them is restricted by `object.__setattr__` itself. -/
def configClassAttrs : List String :=
  ["setattrs", "freeze", "create_object", "save", "load"]

/-- `Config.__setattr__(key, value)`: on a frozen node a write to a name for
which `hasattr(self, key)` is false raises (`UnknownField` in the
specification's taxonomy); otherwise the write lands in `__dict__`.
`hasattr` is true for the built-in attributes `cls` and `isfrozen`, for every
existing field, and for the class-level attributes of `Config` (its methods,
see `configClassAttrs`) — so a frozen-node write to a name such as `freeze`
**succeeds** and shadows the method.  Only plain `Config` nodes are modelled
as attribute bags (no code path modelled here assigns attributes of the
composites). -/
def setattrPy (self : Val) (k : String) (v : Val) : Except Err Val :=
  match self with
  | .node i cls fr fs =>
      if fr = true ∧ ¬(k = "cls" ∨ k = "isfrozen" ∨ hasK fs k = true
          ∨ configClassAttrs.contains k = true) then
        .error .unknownField
      else if k = "cls" then .ok (.node i v fr fs)
      else if k = "isfrozen" then .ok (.node i cls v.truthy fs)
      else .ok (.node i cls fr (updateE fs k v))
  | _ => .error .attributeError

/-- `Config.setattrs(kwargs)`: applies `__setattr__` entry by entry in
mapping order. -/
def setattrsPy (self : Val) : List (String × Val) → Except Err Val
  | [] => .ok self
  | (k, v) :: rest =>
      match setattrPy self k v with
      | .error e => .error e
      | .ok self' => setattrsPy self' rest

/-- `Config.freeze(frozen)` — the body of the bound method: sets the frozen
flag (the flag always exists after construction, so the write never raises). -/
def freezePy (self : Val) (flag : Bool) : Val :=
  match self with
  | .node i cls _ fs => .node i cls flag fs
  | .clist i _ cs => .clist i flag cs
  | .cdict i _ cs => .cdict i flag cs
  | v => v

/-- The `cfg.freeze()` *call* at the end of `default_config` (source line
267): an attribute call, so an instance field named `freeze` shadows the
bound method and the shadowing value is called instead.  Every value this
code stores in a field is a data object — calling one raises `TypeError`
(class objects, the one callable `Val` shape, are never stored under
`freeze` by any modelled path or stated property).  Without a shadowing
field the bound method runs and sets `isfrozen = True`. -/
def freezeCall (self : Val) : Except Err Val :=
  match self with
  | .node i cls _ fs =>
      if hasK fs "freeze" then .error .typeError
      else .ok (.node i cls true fs)
  | v => .ok (freezePy v true)

/-! ## Registration environment

A `ClassDef` describes a decorated class as written in source: its name,
whether it subclasses `nn.Module`, its constructor parameters in declaration
order (each with an optional declared default value — the default expression
is evaluated once, so the stored `Val` carries the identity of the shared
default object), and the keyword overrides passed to `configurable(...)`.

`RegData` is the data the closure of `_configurable` captures for the class:
`init_arg_names`, `args_default_value`, `args_default_config`, and
`args_default_config_or_value` (the last is computed *before* the override
loop, as in source lines 229–234). -/

structure ClassDef where
  name : String
  isModule : Bool
  params : List (String × Option Val)
  overrides : List (String × Val)
  deriving Repr

structure RegData where
  argNames : List String
  argsDefaultValue : List (String × Val)
  argsDefaultConfig : List (String × Option Val)
  argsDefaultConfigOrValue : List (String × Val)
  deriving Repr

/-- A registered class: its definition plus the captured registration data. -/
structure RClass where
  cd : ClassDef
  rd : RegData
  deriving Repr

/-- The process-wide registration state: classes in registration order. -/
abbrev REnv := List RClass

def lookupCls (renv : REnv) (c : String) : Option RClass :=
  renv.find? (fun rc => rc.cd.name = c)

/-- Lookup in an `Option Val`-valued ordered dict (`args_default_config`). -/
def lookupO : List (String × Option Val) → String → Option (Option Val)
  | [], _ => none
  | e :: rest, k => if e.1 = k then some e.2 else lookupO rest k

/-- Write in an `Option Val`-valued ordered dict. -/
def updateO : List (String × Option Val) → String → Option Val →
    List (String × Option Val)
  | [], k, v => [(k, v)]
  | e :: rest, k, v =>
      if e.1 = k then (e.1, v) :: rest else e :: updateO rest k v

/-! ## `copy.deepcopy`

Deep copy allocates fresh identities for every identity-carrying value and
returns immutables unchanged.  (The memo-based sharing of `copy.deepcopy`
within one call is not modelled: the values copied by this code never alias
each other inside a single copied structure.) -/

mutual

def deepcopyF : Nat → Val → Nat → Except Err (Val × Nat)
  | 0, _, _ => .error .fuel
  | fuel + 1, v, σ =>
      match v with
      | .prim p => .ok (.prim p, σ)
      | .pycls c => .ok (.pycls c, σ)
      | .obj _ c attrs =>
          match deepcopyEntriesF fuel attrs (σ + 1) with
          | .error e => .error e
          | .ok (attrs', σ') => .ok (.obj σ c attrs', σ')
      | .node _ cls fr fs =>
          match deepcopyF fuel cls (σ + 1) with
          | .error e => .error e
          | .ok (cls', σ1) =>
              match deepcopyEntriesF fuel fs σ1 with
              | .error e => .error e
              | .ok (fs', σ2) => .ok (.node σ cls' fr fs', σ2)
      | .clist _ fr cs =>
          match deepcopyListF fuel cs (σ + 1) with
          | .error e => .error e
          | .ok (cs', σ') => .ok (.clist σ fr cs', σ')
      | .cdict _ fr cs =>
          match deepcopyEntriesF fuel cs (σ + 1) with
          | .error e => .error e
          | .ok (cs', σ') => .ok (.cdict σ fr cs', σ')
      | .vlist _ es =>
          match deepcopyListF fuel es (σ + 1) with
          | .error e => .error e
          | .ok (es', σ') => .ok (.vlist σ es', σ')
      | .vdict _ es =>
          match deepcopyEntriesF fuel es (σ + 1) with
          | .error e => .error e
          | .ok (es', σ') => .ok (.vdict σ es', σ')
      | .mlist _ es =>
          match deepcopyListF fuel es (σ + 1) with
          | .error e => .error e
          | .ok (es', σ') => .ok (.mlist σ es', σ')
      | .mdict _ es =>
          match deepcopyEntriesF fuel es (σ + 1) with
          | .error e => .error e
          | .ok (es', σ') => .ok (.mdict σ es', σ')
  termination_by structural fuel => fuel

def deepcopyListF : Nat → List Val → Nat → Except Err (List Val × Nat)
  | 0, _, _ => .error .fuel
  | _ + 1, [], σ => .ok ([], σ)
  | fuel + 1, v :: rest, σ =>
      match deepcopyF fuel v σ with
      | .error e => .error e
      | .ok (v', σ') =>
          match deepcopyListF fuel rest σ' with
          | .error e => .error e
          | .ok (rest', σ'') => .ok (v' :: rest', σ'')
  termination_by structural fuel => fuel

def deepcopyEntriesF : Nat → List (String × Val) → Nat →
    Except Err (List (String × Val) × Nat)
  | 0, _, _ => .error .fuel
  | _ + 1, [], σ => .ok ([], σ)
  | fuel + 1, (k, v) :: rest, σ =>
      match deepcopyF fuel v σ with
      | .error e => .error e
      | .ok (v', σ') =>
          match deepcopyEntriesF fuel rest σ' with
          | .error e => .error e
          | .ok (rest', σ'') => .ok ((k, v') :: rest', σ'')
  termination_by structural fuel => fuel

end

/-! ## Composite constructors (`ConfigList.__init__`, `ConfigDict.__init__`)

Both assert every element is a `Config`, deep-copy the input collection,
and freeze themselves (`self.freeze()` — so `isfrozen` is `true` after
construction). -/

def configListInit (fuel : Nat) (configs : List Val) (σ : Nat) :
    Except Err (Val × Nat) :=
  if configs.all Val.isConfig then
    match deepcopyListF fuel configs (σ + 1) with
    | .error e => .error e
    | .ok (cs', σ') => .ok (.clist σ true cs', σ')
  else .error .elementType

def configDictInit (fuel : Nat) (configs : List (String × Val)) (σ : Nat) :
    Except Err (Val × Nat) :=
  if (configs.map Prod.snd).all Val.isConfig then
    match deepcopyEntriesF fuel configs (σ + 1) with
    | .error e => .error e
    | .ok (cs', σ') => .ok (.cdict σ true cs', σ')
  else .error .elementType

/-! ## `default_config` (source lines 262–268)

`cfg = Config(cls); cfg.setattrs(copy.deepcopy(args_default_config_or_value));
cfg.setattrs(kwargs); cfg.freeze(); return cfg`. -/

def defaultCfg (fuel : Nat) (rc : RClass) (overrides : List (String × Val))
    (σ : Nat) : Except Err (Val × Nat) :=
  match deepcopyEntriesF fuel rc.rd.argsDefaultConfigOrValue (σ + 1) with
  | .error e => .error e
  | .ok (entries, σ1) =>
      match setattrsPy (mkConfig (.pycls rc.cd.name) σ) entries with
      | .error e => .error e
      | .ok c1 =>
          match setattrsPy c1 overrides with
          | .error e => .error e
          | .ok c2 =>
              match freezeCall c2 with
              | .error e => .error e
              | .ok c3 => .ok (c3, σ1)

/-! ## `get_config` and `current_config` (source lines 178–198 and 329–339)

`get_config(m)` returns `m.current_config()` when `m` exposes that
capability, recursively captures lists/tuples/`ModuleList` into a
`ConfigList` and dicts/`ModuleDict` into a `ConfigDict` (`None` as soon as
one element is not capturable), and returns `None` otherwise.

`current_config(self)` starts from `default_config()` as a scaffold and, for
every scaffold field present as an attribute of the instance, overlays the
captured config of that attribute (or the raw attribute when capture yields
`None`). -/

mutual

def getCfg : Nat → REnv → Val → Nat → Except Err (Option Val × Nat)
  | 0, _, _, _ => .error .fuel
  | fuel + 1, renv, m, σ =>
      match m with
      | .obj _ c attrs =>
          -- instance attribute named `current_config` would shadow the
          -- class method and is not callable in the model
          if hasK attrs "current_config" then .error .typeError
          else
            match lookupCls renv c with
            | some rc =>
                match currentCfg fuel renv rc attrs σ with
                | .error e => .error e
                | .ok (cfg, σ') => .ok (some cfg, σ')
            | none => .ok (none, σ)
      | .pycls c =>
          -- a registered class object has an (unbound) `current_config`
          -- attribute; calling it without a receiver raises TypeError
          if (lookupCls renv c).isSome then .error .typeError
          else .ok (none, σ)
      | .node _ _ _ fs =>
          if hasK fs "current_config" then .error .typeError
          else .ok (none, σ)
      | .vlist _ es | .mlist _ es =>
          match getCfgList fuel renv es σ with
          | .error e => .error e
          | .ok (none, σ') => .ok (none, σ')
          | .ok (some cs, σ') =>
              match configListInit fuel cs σ' with
              | .error e => .error e
              | .ok (c, σ'') => .ok (some c, σ'')
      | .vdict _ es | .mdict _ es =>
          match getCfgDict fuel renv es σ with
          | .error e => .error e
          | .ok (none, σ') => .ok (none, σ')
          | .ok (some cs, σ') =>
              match configDictInit fuel cs σ' with
              | .error e => .error e
              | .ok (c, σ'') => .ok (some c, σ'')
      | _ => .ok (none, σ)
  termination_by structural fuel => fuel

def getCfgList : Nat → REnv → List Val → Nat →
    Except Err (Option (List Val) × Nat)
  | 0, _, _, _ => .error .fuel
  | _ + 1, _, [], σ => .ok (some [], σ)
  | fuel + 1, renv, m :: rest, σ =>
      match getCfg fuel renv m σ with
      | .error e => .error e
      | .ok (none, σ') => .ok (none, σ')
      | .ok (some c, σ') =>
          match getCfgList fuel renv rest σ' with
          | .error e => .error e
          | .ok (none, σ'') => .ok (none, σ'')
          | .ok (some cs, σ'') => .ok (some (c :: cs), σ'')
  termination_by structural fuel => fuel

def getCfgDict : Nat → REnv → List (String × Val) → Nat →
    Except Err (Option (List (String × Val)) × Nat)
  | 0, _, _, _ => .error .fuel
  | _ + 1, _, [], σ => .ok (some [], σ)
  | fuel + 1, renv, (k, m) :: rest, σ =>
      match getCfg fuel renv m σ with
      | .error e => .error e
      | .ok (none, σ') => .ok (none, σ')
      | .ok (some c, σ') =>
          match getCfgDict fuel renv rest σ' with
          | .error e => .error e
          | .ok (none, σ'') => .ok (none, σ'')
          | .ok (some cs, σ'') => .ok (some ((k, c) :: cs), σ'')
  termination_by structural fuel => fuel

def currentCfg : Nat → REnv → RClass → List (String × Val) → Nat →
    Except Err (Val × Nat)
  | 0, _, _, _, _ => .error .fuel
  | fuel + 1, renv, rc, attrs, σ =>
      match defaultCfg fuel rc [] σ with
      | .error e => .error e
      | .ok (cfg, σ1) =>
          match cfg with
          | .node i cls fr fs =>
              overlayFields fuel renv attrs fs (.node i cls fr fs) σ1
          | _ => .error .attributeError  -- unreachable: default_config is a node
  termination_by structural fuel => fuel

def overlayFields : Nat → REnv → List (String × Val) → List (String × Val) →
    Val → Nat → Except Err (Val × Nat)
  | 0, _, _, _, _, _ => .error .fuel
  | _ + 1, _, _, [], cfg, σ => .ok (cfg, σ)
  | fuel + 1, renv, attrs, (k, _) :: rest, cfg, σ =>
      match lookupE attrs k with   -- `if hasattr(self, k)`
      | some m =>
          match getCfg fuel renv m σ with
          | .error e => .error e
          | .ok (copt, σ') =>
              match setattrPy cfg k (copt.getD m) with  -- `c = m if c is None else c`
              | .error e => .error e
              | .ok cfg' => overlayFields fuel renv attrs rest cfg' σ'
      | none => overlayFields fuel renv attrs rest cfg σ
  termination_by structural fuel => fuel

end

/-! ## Registration (`_configurable`, source lines 212–234)

Parameters without a declared default get `None` as their default value
(no exception is raised — source line 226); `args_default_config_or_value`
is computed before the decorator-override loop and is *not* updated by it. -/

def mkRegDataVals : Nat → REnv → List (String × Val) → Nat →
    Except Err (List (String × Option Val) × Nat)
  | 0, _, _, _ => .error .fuel
  | _ + 1, _, [], σ => .ok ([], σ)
  | fuel + 1, renv, (k, v) :: rest, σ =>
      match getCfg fuel renv v σ with
      | .error e => .error e
      | .ok (c, σ') =>
          match mkRegDataVals fuel renv rest σ' with
          | .error e => .error e
          | .ok (cs, σ'') => .ok ((k, c) :: cs, σ'')
  termination_by structural fuel => fuel

def applyOverrides : Nat → REnv → List (String × Val) →
    List (String × Val) → List (String × Option Val) → Nat →
    Except Err (List (String × Val) × List (String × Option Val) × Nat)
  | 0, _, _, _, _, _ => .error .fuel
  | _ + 1, _, [], dv, dc, σ => .ok (dv, dc, σ)
  | fuel + 1, renv, (k, v) :: rest, dv, dc, σ =>
      match getCfg fuel renv v σ with
      | .error e => .error e
      | .ok (c, σ') =>
          applyOverrides fuel renv rest (updateE dv k v) (updateO dc k c) σ'
  termination_by structural fuel => fuel

def mkRegData (fuel : Nat) (renv : REnv) (cd : ClassDef) (σ : Nat) :
    Except Err (RegData × Nat) :=
  let names := cd.params.map Prod.fst
  let dv0 : List (String × Val) :=
    cd.params.map (fun p => (p.1, p.2.getD (.prim .pnone)))
  match mkRegDataVals fuel renv dv0 σ with
  | .error e => .error e
  | .ok (dc0, σ1) =>
      let dcov : List (String × Val) :=
        dc0.map (fun p =>
          (p.1, match p.2 with
                | some c => c
                | none => ((lookupE dv0 p.1).getD (.prim .pnone))))
      match applyOverrides fuel renv cd.overrides dv0 dc0 σ1 with
      | .error e => .error e
      | .ok (dv, dc, σ2) =>
          .ok ({ argNames := names, argsDefaultValue := dv,
                 argsDefaultConfig := dc, argsDefaultConfigOrValue := dcov },
               σ2)

/-- Sequential registration: each class's `RegData` is computed against the
environment as it stands at that class's decoration time (earlier classes
only), because `cls.current_config` is assigned at the very end of
`_configurable`. -/
def registerAux : Nat → REnv → List ClassDef → Nat → Except Err (REnv × Nat)
  | 0, _, _, _ => .error .fuel
  | _ + 1, renv, [], σ => .ok (renv, σ)
  | fuel + 1, renv, cd :: rest, σ =>
      match mkRegData fuel renv cd σ with
      | .error e => .error e
      | .ok (rd, σ') => registerAux fuel (renv ++ [⟨cd, rd⟩]) rest σ'
  termination_by structural fuel => fuel

def register (fuel : Nat) (cds : List ClassDef) (σ : Nat) :
    Except Err (REnv × Nat) :=
  registerAux fuel [] cds σ

/-! ## `Config.save` (source lines 60–63)

`save` pickles `self.current_config()` — but class `Config` defines no
`current_config` method, so on any `Config` node the attribute lookup
fails (or, if a field of that name happens to exist, it is a plain value
and the call fails). -/

def savePy (self : Val) : Except Err Val :=
  match self with
  | .node _ _ _ fs =>
      if hasK fs "current_config" then .error .typeError
      else .error .attributeError
  | .clist _ _ _ | .cdict _ _ _ => .error .attributeError
  | _ => .error .attributeError

/-! ## `ConfigList` container protocol (source lines 93–111)

The mutators operate on the `configs` list attribute directly (plain
`list.append` / `insert` / `remove` / `pop`), so they never pass through
`Config.__setattr__` and are unaffected by the frozen flag.  `list.remove`
compares with `==`, which for `Config` elements (no `__eq__` defined) falls
back to object identity. -/

def clGetItem (self : Val) (i : Nat) : Except Err Val :=
  match self with
  | .clist _ _ cs =>
      match cs.get? i with
      | some c => .ok c
      | none => .error .indexError
  | _ => .error .attributeError

def clLen (self : Val) : Except Err Nat :=
  match self with
  | .clist _ _ cs => .ok cs.length
  | _ => .error .attributeError

def clAppend (self c : Val) : Except Err Val :=
  match self with
  | .clist i fr cs =>
      if c.isConfig then .ok (.clist i fr (cs ++ [c])) else .error .elementType
  | _ => .error .attributeError

/-- `list.insert(idx, c)` (non-negative index, clamped to the length). -/
def clInsert (self : Val) (idx : Nat) (c : Val) : Except Err Val :=
  match self with
  | .clist i fr cs =>
      if c.isConfig then
        .ok (.clist i fr (cs.take idx ++ c :: cs.drop idx))
      else .error .elementType
  | _ => .error .attributeError

def removeFirst (x : Val) : List Val → List Val
  | [] => []
  | c :: rest => if c.pyIs x then rest else c :: removeFirst x rest

def clRemove (self x : Val) : Except Err Val :=
  match self with
  | .clist i fr cs =>
      if cs.any (fun c => c.pyIs x) then .ok (.clist i fr (removeFirst x cs))
      else .error .valueError
  | _ => .error .attributeError

/-- `list.pop(idx)`: returns the removed element and the updated list. -/
def clPop (self : Val) (idx : Nat) : Except Err (Val × Val) :=
  match self with
  | .clist i fr cs =>
      match cs.get? idx with
      | some c => .ok (c, .clist i fr (cs.take idx ++ cs.drop (idx + 1)))
      | none => .error .indexError
  | _ => .error .attributeError

/-! ## Reconstruction: `create_object`, `from_config`, `new__init__`

The build direction.  Each function returns, besides its result and the
identity counter, the *post-state* of its input config tree: the value the
caller's reference still denotes after the call.  `from_config` copies
`cfg.__dict__` before popping and realizing (source line 344), so field
realization lands on the copy; the post-state of a node is therefore
reassembled from the unchanged raw fields and the post-states of the
recursively realized children. -/

/-- `isinstance(m, nn.Module)`.  Registered classes carry an explicit
`isModule` flag; `nn.ModuleList`/`nn.ModuleDict` are themselves modules;
instances of unregistered classes are modelled as non-modules. -/
def isModuleV (renv : REnv) : Val → Bool
  | .obj _ c _ =>
      match lookupCls renv c with
      | some rc => rc.cd.isModule
      | none => false
  | .mlist _ _ => true
  | .mdict _ _ => true
  | _ => false

/-- Merging positional arguments: `for i, v in enumerate(args):
k = init_arg_names[i]; _kwargs[k] = v` (IndexError when there are more
positional arguments than parameter names). -/
def mergePositional : List String → List Val → Except Err (List (String × Val))
  | _, [] => .ok []
  | [], _ :: _ => .error .indexError
  | k :: ks, v :: vs =>
      match mergePositional ks vs with
      | .error e => .error e
      | .ok rest => .ok ((k, v) :: rest)

/-- The original constructor of a decorated class, as the wrapper expects it
to behave (an external collaborator of the core): it binds every declared
parameter from the supplied keyword arguments or from its declared default
(the shared default object), assigns each binding as an instance attribute,
and raises `TypeError` on unexpected or missing arguments. -/
def bindParams : List (String × Option Val) → List (String × Val) →
    List (String × Val) → Except Err (List (String × Val))
  | [], _, attrs => .ok attrs
  | (k, d) :: rest, kwargs, attrs =>
      match lookupE kwargs k with
      | some v => bindParams rest kwargs (updateE attrs k v)
      | none =>
          match d with
          | some dv => bindParams rest kwargs (updateE attrs k dv)
          | none => .error .typeError

/-- `cls.old__init__(self, **_kwargs)` — see `bindParams`. -/
def oldInit (params : List (String × Option Val))
    (kwargs : List (String × Val)) (attrs : List (String × Val)) :
    Except Err (List (String × Val)) :=
  if kwargs.all (fun p => (params.map Prod.fst).contains p.1) then
    bindParams params kwargs attrs
  else .error .typeError

mutual

/-- `Config.create_object` / `ConfigList.create_object` /
`ConfigDict.create_object` (source lines 31–36, 113–123, 134–144). -/
def createObject : Nat → REnv → Val → Nat → Except Err (Val × Val × Nat)
  | 0, _, _, _ => .error .fuel
  | fuel + 1, renv, cfg, σ =>
      match cfg with
      | .node i cls fr fs =>
          -- `hasattr(self, 'cls')` always holds structurally;
          -- `hasattr(self.cls, 'from_config')` holds iff the target is a
          -- registered class
          match cls with
          | .pycls c =>
              match lookupCls renv c with
              | some rc => fromCfg fuel renv rc (.node i cls fr fs) σ
              | none => .error .notReconstructible
          | _ => .error .notReconstructible
      | .clist i fr cs =>
          -- `models = []` is allocated before the loop; `nn.ModuleList(models)`
          -- allocates a fresh object after it
          match buildChildren fuel renv cs (σ + 1) with
          | .error e => .error e
          | .ok (ms, posts, σ') =>
              if ms.all (isModuleV renv) = true ∧ 0 < cs.length then
                .ok (.mlist σ' ms, .clist i fr posts, σ' + 1)
              else
                .ok (.vlist σ ms, .clist i fr posts, σ')
      | .cdict i fr cs =>
          match buildChildrenD fuel renv cs (σ + 1) with
          | .error e => .error e
          | .ok (ms, posts, σ') =>
              if (ms.map Prod.snd).all (isModuleV renv) = true ∧ 0 < cs.length then
                .ok (.mdict σ' ms, .cdict i fr posts, σ' + 1)
              else
                .ok (.vdict σ ms, .cdict i fr posts, σ')
      | _ => .error .attributeError  -- only Config values expose create_object
  termination_by structural fuel => fuel

def buildChildren : Nat → REnv → List Val → Nat →
    Except Err (List Val × List Val × Nat)
  | 0, _, _, _ => .error .fuel
  | _ + 1, _, [], σ => .ok ([], [], σ)
  | fuel + 1, renv, c :: rest, σ =>
      match createObject fuel renv c σ with
      | .error e => .error e
      | .ok (m, post, σ') =>
          match buildChildren fuel renv rest σ' with
          | .error e => .error e
          | .ok (ms, posts, σ'') => .ok (m :: ms, post :: posts, σ'')
  termination_by structural fuel => fuel

def buildChildrenD : Nat → REnv → List (String × Val) → Nat →
    Except Err (List (String × Val) × List (String × Val) × Nat)
  | 0, _, _, _ => .error .fuel
  | _ + 1, _, [], σ => .ok ([], [], σ)
  | fuel + 1, renv, (k, c) :: rest, σ =>
      match createObject fuel renv c σ with
      | .error e => .error e
      | .ok (m, post, σ') =>
          match buildChildrenD fuel renv rest σ' with
          | .error e => .error e
          | .ok (ms, posts, σ'') => .ok ((k, m) :: ms, (k, post) :: posts, σ'')
  termination_by structural fuel => fuel

/-- `from_config` (source lines 341–351): asserts `cfg.cls is cls`, copies
`cfg.__dict__` (minus `cls` and `isfrozen`), realizes every `Config`-valued
entry via `create_object`, and calls the (wrapped) constructor with the
resolved keyword arguments. -/
def fromCfg : Nat → REnv → RClass → Val → Nat → Except Err (Val × Val × Nat)
  | 0, _, _, _, _ => .error .fuel
  | fuel + 1, renv, rc, cfg, σ =>
      match cfg with
      | .node i cls fr fs =>
          if cls.pyIs (.pycls rc.cd.name) = true then
            match realizeFields fuel renv fs σ with
            | .error e => .error e
            | .ok (kwargs, posts, σ') =>
                match newInit fuel renv rc [] kwargs σ' with
                | .error e => .error e
                | .ok (o, σ'') => .ok (o, .node i cls fr posts, σ'')
          else .error .targetMismatch
      | .clist _ _ _ | .cdict _ _ _ => .error .targetMismatch
          -- a composite's `cls` is its own type, never the registered class
      | _ => .error .attributeError  -- `cfg.cls` fails on non-Config values
  termination_by structural fuel => fuel

def realizeFields : Nat → REnv → List (String × Val) → Nat →
    Except Err (List (String × Val) × List (String × Val) × Nat)
  | 0, _, _, _ => .error .fuel
  | _ + 1, _, [], σ => .ok ([], [], σ)
  | fuel + 1, renv, (k, v) :: rest, σ =>
      if v.isConfig then
        match createObject fuel renv v σ with
        | .error e => .error e
        | .ok (r, post, σ') =>
            match realizeFields fuel renv rest σ' with
            | .error e => .error e
            | .ok (kw, ps, σ'') => .ok ((k, r) :: kw, (k, post) :: ps, σ'')
      else
        match realizeFields fuel renv rest σ with
        | .error e => .error e
        | .ok (kw, ps, σ') => .ok ((k, v) :: kw, (k, v) :: ps, σ')
  termination_by structural fuel => fuel

/-- The replacement loop of `new__init__` (source lines 246–248): a call-site
value that *is* (object identity) the declared default of its parameter, and
whose default was captured as a config, is replaced by a freshly built
component from that captured default config.  `args_default_value[k]` is
looked up first (KeyError for a non-parameter name); `args_default_config[k]`
is only consulted when the identity test succeeds (`and` short-circuits). -/
def replaceDefaults : Nat → REnv → RClass → List (String × Val) → Nat →
    Except Err (List (String × Val) × Nat)
  | 0, _, _, _, _ => .error .fuel
  | _ + 1, _, _, [], σ => .ok ([], σ)
  | fuel + 1, renv, rc, (k, v) :: rest, σ =>
      match lookupE rc.rd.argsDefaultValue k with
      | none => .error .keyError
      | some d =>
          if v.pyIs d = true then
            match lookupO rc.rd.argsDefaultConfig k with
            | none => .error .keyError
            | some (some c) =>
                match createObject fuel renv c σ with
                | .error e => .error e
                | .ok (r, _, σ') =>
                    match replaceDefaults fuel renv rc rest σ' with
                    | .error e => .error e
                    | .ok (rest', σ'') => .ok ((k, r) :: rest', σ'')
            | some none =>
                match replaceDefaults fuel renv rc rest σ with
                | .error e => .error e
                | .ok (rest', σ') => .ok ((k, v) :: rest', σ')
          else
            match replaceDefaults fuel renv rc rest σ with
            | .error e => .error e
            | .ok (rest', σ') => .ok ((k, v) :: rest', σ')
  termination_by structural fuel => fuel

/-- `new__init__` (source lines 237–259): merge positional and keyword
arguments, replace identity-matching capturable defaults with fresh builds,
pre-register every resolved argument as an instance attribute (writes in the
model always succeed — the try/except around native-module attribute
assignment is collapsed to success), run the original constructor, then
retry registration for anything still unbound. -/
def newInit : Nat → REnv → RClass → List Val → List (String × Val) → Nat →
    Except Err (Val × Nat)
  | 0, _, _, _, _, _ => .error .fuel
  | fuel + 1, renv, rc, args, kwargs, σ =>
      match mergePositional rc.rd.argNames args with
      | .error e => .error e
      | .ok kw0 =>
          let kw1 := kwargs.foldl (fun acc p => updateE acc p.1 p.2) kw0
          -- `self` is allocated (by `__new__`) before the body runs
          match replaceDefaults fuel renv rc kw1 (σ + 1) with
          | .error e => .error e
          | .ok (kw2, σ2) =>
              let attrs0 := kw2.foldl
                (fun acc p => if hasK acc p.1 then acc else acc ++ [(p.1, p.2)])
                []
              match oldInit rc.cd.params kw2 attrs0 with
              | .error e => .error e
              | .ok attrs1 =>
                  let attrs2 := kw2.foldl
                    (fun acc p =>
                      if hasK acc p.1 then acc else updateE acc p.1 p.2)
                    attrs1
                  .ok (.obj σ rc.cd.name attrs2, σ2)
  termination_by structural fuel => fuel

end


/-! ## Identity-erased mirror of the snapshot direction

The functions below mirror `get_config` / `current_config` /
`default_config` on identity-erased values: `copy.deepcopy` becomes the
per-entry erasure (a deep copy differs from its source only in the fresh
identities) and no identity counter is threaded.  They exist to state and
prove the round-trip property: the erased snapshot of a reconstructed
instance is a function of the erased config it was built from. -/

/-- `default_config` on erased values: the deep copy of
`args_default_config_or_value` is replaced by its erasure. -/
def defaultCfgE (rc : RClass) (overrides : List (String × Val)) :
    Except Err Val :=
  match setattrsPy (mkConfig (.pycls rc.cd.name) 0)
      (rc.rd.argsDefaultConfigOrValue.map eraseP) with
  | .error e => .error e
  | .ok c1 =>
      match setattrsPy c1 overrides with
      | .error e => .error e
      | .ok c2 => freezeCall c2

mutual

def getCfgE : Nat → REnv → Val → Except Err (Option Val)
  | 0, _, _ => .error .fuel
  | fuel + 1, renv, m =>
      match m with
      | .obj _ c attrs =>
          if hasK attrs "current_config" then .error .typeError
          else
            match lookupCls renv c with
            | some rc =>
                match currentCfgE fuel renv rc attrs with
                | .error e => .error e
                | .ok cfg => .ok (some cfg)
            | none => .ok none
      | .pycls c =>
          if (lookupCls renv c).isSome then .error .typeError
          else .ok none
      | .node _ _ _ fs =>
          if hasK fs "current_config" then .error .typeError
          else .ok none
      | .vlist _ es | .mlist _ es =>
          match getCfgListE fuel renv es with
          | .error e => .error e
          | .ok none => .ok none
          | .ok (some cs) =>
              if cs.all Val.isConfig then .ok (some (.clist 0 true cs))
              else .error .elementType
      | .vdict _ es | .mdict _ es =>
          match getCfgDictE fuel renv es with
          | .error e => .error e
          | .ok none => .ok none
          | .ok (some cs) =>
              if (cs.map Prod.snd).all Val.isConfig then
                .ok (some (.cdict 0 true cs))
              else .error .elementType
      | _ => .ok none
  termination_by structural fuel => fuel

def getCfgListE : Nat → REnv → List Val → Except Err (Option (List Val))
  | 0, _, _ => .error .fuel
  | _ + 1, _, [] => .ok (some [])
  | fuel + 1, renv, m :: rest =>
      match getCfgE fuel renv m with
      | .error e => .error e
      | .ok none => .ok none
      | .ok (some c) =>
          match getCfgListE fuel renv rest with
          | .error e => .error e
          | .ok none => .ok none
          | .ok (some cs) => .ok (some (c :: cs))
  termination_by structural fuel => fuel

def getCfgDictE : Nat → REnv → List (String × Val) →
    Except Err (Option (List (String × Val)))
  | 0, _, _ => .error .fuel
  | _ + 1, _, [] => .ok (some [])
  | fuel + 1, renv, (k, m) :: rest =>
      match getCfgE fuel renv m with
      | .error e => .error e
      | .ok none => .ok none
      | .ok (some c) =>
          match getCfgDictE fuel renv rest with
          | .error e => .error e
          | .ok none => .ok none
          | .ok (some cs) => .ok (some ((k, c) :: cs))
  termination_by structural fuel => fuel

def currentCfgE : Nat → REnv → RClass → List (String × Val) → Except Err Val
  | 0, _, _, _ => .error .fuel
  | fuel + 1, renv, rc, attrs =>
      match defaultCfgE rc [] with
      | .error e => .error e
      | .ok cfg =>
          match cfg with
          | .node i cls fr fs => overlayFieldsE fuel renv attrs fs (.node i cls fr fs)
          | _ => .error .attributeError
  termination_by structural fuel => fuel

def overlayFieldsE : Nat → REnv → List (String × Val) → List (String × Val) →
    Val → Except Err Val
  | 0, _, _, _, _ => .error .fuel
  | _ + 1, _, _, [], cfg => .ok cfg
  | fuel + 1, renv, attrs, (k, _) :: rest, cfg =>
      match lookupE attrs k with
      | some m =>
          match getCfgE fuel renv m with
          | .error e => .error e
          | .ok copt =>
              match setattrPy cfg k (copt.getD m) with
              | .error e => .error e
              | .ok cfg' => overlayFieldsE fuel renv attrs rest cfg'
      | none => overlayFieldsE fuel renv attrs rest cfg
  termination_by structural fuel => fuel

end

/-! ## Well-formedness of captured configuration trees

`WfCfg renv cfg` characterizes the config trees for which reconstruction
round-trips: frozen nodes whose target is registered, whose field names are
exactly the target's captured parameter names, and whose fields are either
recursively well-formed captured configs or raw values that are not
capturable under the *current* (full) environment and are never
identity-equal to a parameter default whose capture succeeded. -/

/-- The value shapes that carry an object identity at the top. -/
def isIdShape : Val → Bool
  | .obj _ _ _ | .vlist _ _ | .vdict _ _ | .mlist _ _ | .mdict _ _ => true
  | _ => false

/-- The top identity of an identity-carrying value. -/
def topId : Val → Nat
  | .obj i _ _ => i
  | .node i _ _ _ => i
  | .clist i _ _ => i
  | .cdict i _ _ => i
  | .vlist i _ => i
  | .vdict i _ => i
  | .mlist i _ => i
  | .mdict i _ => i
  | _ => 0

/-- "This value is not capturable": every successful erased capture returns
`None`. -/
def NotCap (renv : REnv) (v : Val) : Prop :=
  ∀ fuel r, getCfgE fuel renv v.erase = .ok r → r = none

/-- "The erased capture of `m` is exactly the erasure of `cfg`": whatever the
fuel, a successful erased capture of `m` returns `some cfg.erase`.  This is
the round-trip invariant tying a reconstructed object to the configuration it
was built from. -/
def CapturesTo (renv : REnv) (m cfg : Val) : Prop :=
  ∀ f r, getCfgE f renv m.erase = .ok r → r = some cfg.erase

inductive WfCfg (renv : REnv) : Val → Prop where
  | node (i : Nat) (c : String) (fs : List (String × Val)) (rc : RClass)
      (hrc : lookupCls renv c = some rc)
      (hkeys : fs.map Prod.fst = rc.rd.argNames)
      (hwf : ∀ k v, (k, v) ∈ fs → v.isConfig = true → WfCfg renv v)
      (hraw : ∀ k v, (k, v) ∈ fs → v.isConfig = false →
          NotCap renv v
          ∧ (∀ d c2, lookupE rc.rd.argsDefaultValue k = some d →
              lookupO rc.rd.argsDefaultConfig k = some (some c2) →
              v.pyIs d = false)) :
      WfCfg renv (.node i (.pycls c) true fs)
  | clist (i : Nat) (cs : List Val)
      (hcfg : ∀ c ∈ cs, Val.isConfig c = true)
      (h : ∀ c ∈ cs, WfCfg renv c) :
      WfCfg renv (.clist i true cs)
  | cdict (i : Nat) (cs : List (String × Val))
      (hcfg : ∀ p ∈ cs, Val.isConfig p.2 = true)
      (h : ∀ p ∈ cs, WfCfg renv p.2) :
      WfCfg renv (.cdict i true cs)

/-- Environment sanity plus registration-time/snapshot-time stability: the
captured registration data of every registered class is internally
consistent, its identities lie below `N`, every parameter default captured
as a config is well-formed under the full environment, and every parameter
default *not* captured as a config is (still) not capturable under the full
environment.  The last point is exactly what breaks when a default's class
is registered after the class that uses it. -/
def EnvStable (renv : REnv) (N : Nat) : Prop :=
  ∀ c rc, lookupCls renv c = some rc →
    rc.rd.argNames = rc.cd.params.map Prod.fst
    ∧ rc.rd.argsDefaultValue.map Prod.fst = rc.rd.argNames
    ∧ rc.rd.argsDefaultConfig.map Prod.fst = rc.rd.argNames
    ∧ rc.rd.argsDefaultConfigOrValue.map Prod.fst = rc.rd.argNames
    ∧ rc.rd.argNames.Nodup
    ∧ (∀ k ∈ rc.rd.argNames,
        ¬ k = "cls" ∧ ¬ k = "isfrozen" ∧ ¬ k = "current_config")
    ∧ (∀ k d, lookupE rc.rd.argsDefaultValue k = some d →
        topId d < N
        ∧ (∀ c2, lookupO rc.rd.argsDefaultConfig k = some (some c2) →
            isIdShape d = true))
    ∧ (∀ k c2, lookupO rc.rd.argsDefaultConfig k = some (some c2) →
        WfCfg renv c2)
    ∧ (∀ p ∈ rc.rd.argsDefaultConfigOrValue,
        (Val.isConfig p.2 = true → WfCfg renv p.2)
        ∧ (Val.isConfig p.2 = false →
            NotCap renv p.2
            ∧ (isIdShape p.2 = false → ∀ d c2,
                lookupE rc.rd.argsDefaultValue p.1 = some d →
                lookupO rc.rd.argsDefaultConfig p.1 = some (some c2) →
                (p.2.erase).pyIs d = false)))

/-- The per-value contract of `copy.deepcopy` used to propagate
well-formedness: the copy is identity-erasure-equal to the original, the copy
of an identity-carrying value has a fresh identity (at or above the bound
`N`), immutables are returned unchanged, and well-formedness of configuration
trees is preserved. -/
def CopyGood (renv : REnv) (N : Nat) (v v' : Val) : Prop :=
  v'.erase = v.erase
  ∧ (isIdShape v = true → N ≤ topId v')
  ∧ (isIdShape v = false ∧ v.isConfig = false → v' = v)
  ∧ (WfCfg renv v → WfCfg renv v')

/-! ## Concrete environments used by witnesses and counterexamples -/

/-- `@configurable() class Sub: def __init__(self): ...` — no parameters. -/
def subCD : ClassDef := ⟨"Sub", false, [], []⟩

/-- `@configurable() class Layer: def __init__(self, sub=SUB): ...` where
`SUB` is a pre-existing `Sub` instance (identity 7). -/
def layerCD : ClassDef := ⟨"Layer", false, [("sub", some (.obj 7 "Sub" [])), ("width", some (.prim (.pint 10)))], []⟩

/-- An `nn.Module` subclass with no parameters. -/
def modCD : ClassDef := ⟨"MSub", true, [], []⟩

/-- A class with a parameter that has no declared default. -/
def needyCD : ClassDef := ⟨"Needy", false, [("x", none)], []⟩

/-- The registration state after decorating `Sub`, then `Layer`, then
`MSub`, then `Needy`, with the identity counter starting at 100. -/
def envW : REnv :=
  match register 20 [subCD, layerCD, modCD, needyCD] 100 with
  | .ok (renv, _) => renv
  | .error _ => []

def rcSub : RClass :=
  match lookupCls envW "Sub" with
  | some rc => rc
  | none => ⟨subCD, ⟨[], [], [], []⟩⟩

def rcLayer : RClass :=
  match lookupCls envW "Layer" with
  | some rc => rc
  | none => ⟨subCD, ⟨[], [], [], []⟩⟩

def rcMod : RClass :=
  match lookupCls envW "MSub" with
  | some rc => rc
  | none => ⟨subCD, ⟨[], [], [], []⟩⟩

def rcNeedy : RClass :=
  match lookupCls envW "Needy" with
  | some rc => rc
  | none => ⟨subCD, ⟨[], [], [], []⟩⟩

/-- `@configurable() class A: def __init__(self, p=b0)` where `b0` is an
instance (identity 3) of a plain class `B` that is **not yet** decorated when
`A` is registered: the default is not capturable at `A`'s decoration time and
is stored raw in `args_default_config_or_value`. -/
def earlyCD : ClassDef := ⟨"A", false, [("p", some (.obj 3 "B" []))], []⟩

/-- `B = configurable()(B)` executed **after** `A`'s decoration: from then on
every pre-existing `B` instance exposes `current_config` and becomes
capturable. -/
def lateCD : ClassDef := ⟨"B", false, [], []⟩

/-- The registration state after decorating `A` (whose default `p` holds a
`B` instance) and only then `B`. -/
def envA : REnv :=
  match register 20 [earlyCD, lateCD] 100 with
  | .ok (renv, _) => renv
  | .error _ => []

def rcA : RClass :=
  match lookupCls envA "A" with
  | some rc => rc
  | none => ⟨subCD, ⟨[], [], [], []⟩⟩

/-! # Theorems

Helper lemmas first, then one theorem (with witness / counterexample where
required) per specification claim. -/

/-- Generic helper for cleaning `attach`-based recursion into plain `map`. -/
theorem map_attach_eq {α γ : Type _} (l : List α) (g : α → γ) :
    (l.attach.map fun x => g x.1) = l.map g := by simp

theorem lookupE_updateE_self (es : List (String × Val)) (k : String) (v : Val) :
    lookupE (updateE es k v) k = some v := by
  induction es with
  | nil => simp [updateE, lookupE]
  | cons h t ih =>
      by_cases hk : h.1 = k
      · simp [updateE, lookupE, hk]
      · simp [updateE, lookupE, hk, ih]

theorem lookupE_updateE_other (es : List (String × Val)) (k k' : String)
    (v : Val) (h : ¬ k' = k) :
    lookupE (updateE es k v) k' = lookupE es k' := by
  have h' : ¬ k = k' := fun hh => h hh.symm
  induction es with
  | nil => simp [updateE, lookupE, h']
  | cons hd t ih =>
      by_cases hk : hd.1 = k
      · subst hk
        simp [updateE, lookupE, h']
      · simp only [updateE, if_neg hk]
        by_cases hk' : hd.1 = k'
        · simp [lookupE, hk']
        · simp [lookupE, hk', ih]

theorem updateE_keys_of_hasK (es : List (String × Val)) (k : String) (v : Val)
    (h : hasK es k = true) :
    (updateE es k v).map Prod.fst = es.map Prod.fst := by
  induction es with
  | nil => simp [hasK, lookupE] at h
  | cons hd t ih =>
      by_cases hk : hd.1 = k
      · simp [updateE, hk]
      · simp [hasK, lookupE, hk] at h
        simp [updateE, hk]
        exact ih h


theorem sizeOf_snd_lt_of_mem {α β : Type _} [SizeOf α] [SizeOf β]
    {l : List (α × β)} {p : α × β} (h : p ∈ l) : sizeOf p.2 < sizeOf l := by
  have h1 := List.sizeOf_lt_of_mem h
  obtain ⟨a, b⟩ := p
  simp at h1 ⊢
  omega

namespace Val

theorem erase_prim (p : Prim) : (Val.prim p).erase = .prim p := by
  rw [Val.erase]

theorem erase_pycls (c : String) : (Val.pycls c).erase = .pycls c := by
  rw [Val.erase]

theorem erase_obj (i : Nat) (c : String) (attrs : List (String × Val)) :
    (Val.obj i c attrs).erase = .obj 0 c (attrs.map eraseP) := by
  rw [Val.erase]
  exact congrArg _ (map_attach_eq attrs eraseP)

theorem erase_node (i : Nat) (cls : Val) (fr : Bool) (fs : List (String × Val)) :
    (Val.node i cls fr fs).erase = .node 0 cls.erase fr (fs.map eraseP) := by
  rw [Val.erase]
  exact congrArg _ (map_attach_eq fs eraseP)

theorem erase_clist (i : Nat) (fr : Bool) (cs : List Val) :
    (Val.clist i fr cs).erase = .clist 0 fr (cs.map Val.erase) := by
  rw [Val.erase]
  exact congrArg _ (map_attach_eq cs Val.erase)

theorem erase_cdict (i : Nat) (fr : Bool) (cs : List (String × Val)) :
    (Val.cdict i fr cs).erase = .cdict 0 fr (cs.map eraseP) := by
  rw [Val.erase]
  exact congrArg _ (map_attach_eq cs eraseP)

theorem erase_vlist (i : Nat) (es : List Val) :
    (Val.vlist i es).erase = .vlist 0 (es.map Val.erase) := by
  rw [Val.erase]
  exact congrArg _ (map_attach_eq es Val.erase)

theorem erase_vdict (i : Nat) (es : List (String × Val)) :
    (Val.vdict i es).erase = .vdict 0 (es.map eraseP) := by
  rw [Val.erase]
  exact congrArg _ (map_attach_eq es eraseP)

theorem erase_mlist (i : Nat) (es : List Val) :
    (Val.mlist i es).erase = .mlist 0 (es.map Val.erase) := by
  rw [Val.erase]
  exact congrArg _ (map_attach_eq es Val.erase)

theorem erase_mdict (i : Nat) (es : List (String × Val)) :
    (Val.mdict i es).erase = .mdict 0 (es.map eraseP) := by
  rw [Val.erase]
  exact congrArg _ (map_attach_eq es eraseP)

end Val


theorem lookupE_mem : ∀ (es : List (String × Val)) (k : String) (v : Val),
    lookupE es k = some v → (k, v) ∈ es := by
  intro es
  induction es with
  | nil => intro k v h; simp [lookupE] at h
  | cons a t ih =>
      intro k v h
      by_cases hk : a.1 = k
      · simp only [lookupE, if_pos hk] at h
        cases h
        rw [← hk]
        exact List.mem_cons_self _ _
      · simp only [lookupE, if_neg hk] at h
        exact List.mem_cons_of_mem a (ih k v h)

theorem lookupE_of_mem_keys : ∀ (es : List (String × Val)) (k : String),
    k ∈ es.map Prod.fst → ∃ v, lookupE es k = some v := by
  intro es
  induction es with
  | nil => intro k h; simp at h
  | cons a t ih =>
      intro k h
      by_cases hk : a.1 = k
      · exact ⟨a.2, by simp [lookupE, hk]⟩
      · simp only [List.map_cons, List.mem_cons] at h
        rcases h with h | h
        · exact absurd h.symm hk
        · obtain ⟨v, hv⟩ := ih k h
          exact ⟨v, by simp [lookupE, hk, hv]⟩

theorem hasK_iff_mem (es : List (String × Val)) (k : String) :
    hasK es k = true ↔ k ∈ es.map Prod.fst := by
  constructor
  · intro h
    rw [hasK] at h
    cases hl : lookupE es k with
    | none => rw [hl] at h; simp at h
    | some v => exact List.mem_map_of_mem Prod.fst (lookupE_mem es k v hl)
  · intro h
    obtain ⟨v, hv⟩ := lookupE_of_mem_keys es k h
    simp [hasK, hv]

theorem freezeCall_node_red (i : Nat) (cls : Val) (fr : Bool)
    (fs : List (String × Val)) :
    freezeCall (.node i cls fr fs)
      = (if hasK fs "freeze" then .error .typeError
         else .ok (.node i cls true fs)) := rfl

/-! ## Claim C4 — freeze discipline of `Config.__setattr__` -/

/-- **C4 (counterexample).**  On a frozen node, writing the name `freeze` —
not a present field — does **not** fail with `UnknownField`: `hasattr(self,
'freeze')` finds the bound method `Config.freeze`, so the guard of
`__setattr__` passes and the write succeeds, silently shadowing the method
with a data field. -/
theorem c4_counterexample :
    setattrPy (.node 0 (.pycls "A") true [("x", .prim (.pint 1))])
        "freeze" (.prim (.pint 5))
      = .ok (.node 0 (.pycls "A") true
          [("x", .prim (.pint 1)), ("freeze", .prim (.pint 5))]) := rfl

/-- **C4 (amended).**  On a frozen `Config` node, writing a field name that
is already present succeeds and changes only that field's value (identity,
target and frozen flag unchanged, every other field unchanged); writing one
of `Config`'s own method names (`setattrs`, `freeze`, `create_object`,
`save`, `load`) also succeeds even when it is not a present field, because
`hasattr` is true via the class attribute — the write shadows the method;
writing a plain name that is neither a field nor a class attribute fails
with `UnknownField` (no node is produced, so the node is unchanged); on an
unfrozen node any plain-name write succeeds.  `cls` and `isfrozen` are the
built-in attributes, not fields. -/
theorem c4_amended (i : Nat) (cls : Val) (fs : List (String × Val))
    (k : String) (v : Val) (hc : ¬ k = "cls") (hf : ¬ k = "isfrozen") :
    (hasK fs k = true →
      setattrPy (.node i cls true fs) k v
          = .ok (.node i cls true (updateE fs k v))
        ∧ lookupE (updateE fs k v) k = some v
        ∧ (∀ k', ¬ k' = k → lookupE (updateE fs k v) k' = lookupE fs k'))
    ∧ (configClassAttrs.contains k = true →
        setattrPy (.node i cls true fs) k v
          = .ok (.node i cls true (updateE fs k v)))
    ∧ (hasK fs k = false → configClassAttrs.contains k = false →
        setattrPy (.node i cls true fs) k v = .error .unknownField)
    ∧ setattrPy (.node i cls false fs) k v
        = .ok (.node i cls false (updateE fs k v)) := by
  refine ⟨fun h => ⟨?_, lookupE_updateE_self fs k v,
      fun k' hk' => lookupE_updateE_other fs k k' v hk'⟩,
    fun h => ?_, fun h1 h2 => ?_, ?_⟩
  · simp [setattrPy, hc, hf, h]
  · simp [setattrPy, hc, hf, h]
    intro _
    exact List.elem_iff.mp h
  · simp [setattrPy, hc, hf, h1, h2]
    intro hm
    have h3 : configClassAttrs.contains k = true := List.elem_iff.mpr hm
    rw [h3] at h2
    simp at h2
  · simp [setattrPy, hc, hf]

/-- Witness for C4 (amended): a frozen-field update, a frozen write to the
method name `save` (succeeds, shadowing), a frozen write to a genuinely new
plain name (raises), and an unfrozen write. -/
theorem c4_amended_witness :
    setattrPy (.node 0 (.pycls "A") true
        [("x", .prim (.pint 1)), ("y", .prim (.pint 2))]) "x" (.prim (.pint 9))
      = .ok (.node 0 (.pycls "A") true
        [("x", .prim (.pint 9)), ("y", .prim (.pint 2))])
    ∧ setattrPy (.node 0 (.pycls "A") true [("x", .prim (.pint 1))])
        "save" (.prim (.pint 7))
      = .ok (.node 0 (.pycls "A") true
        [("x", .prim (.pint 1)), ("save", .prim (.pint 7))])
    ∧ setattrPy (.node 0 (.pycls "A") true
        [("x", .prim (.pint 1)), ("y", .prim (.pint 2))]) "z" (.prim (.pint 9))
      = .error .unknownField
    ∧ setattrPy (.node 0 (.pycls "A") false
        [("x", .prim (.pint 1))]) "z" (.prim (.pint 9))
      = .ok (.node 0 (.pycls "A") false
        [("x", .prim (.pint 1)), ("z", .prim (.pint 9))]) := by
  refine ⟨?_, ?_, ?_, ?_⟩
  · exact ((c4_amended 0 (.pycls "A")
      [("x", .prim (.pint 1)), ("y", .prim (.pint 2))] "x" (.prim (.pint 9))
      (by decide) (by decide)).1 (by decide)).1
  · exact (c4_amended 0 (.pycls "A")
      [("x", .prim (.pint 1))] "save" (.prim (.pint 7))
      (by decide) (by decide)).2.1 (by decide)
  · exact (c4_amended 0 (.pycls "A")
      [("x", .prim (.pint 1)), ("y", .prim (.pint 2))] "z" (.prim (.pint 9))
      (by decide) (by decide)).2.2.1 (by decide) (by decide)
  · exact (c4_amended 0 (.pycls "A")
      [("x", .prim (.pint 1))] "z" (.prim (.pint 9))
      (by decide) (by decide)).2.2.2

/-! ## Claim C6 — target mismatch guard of `from_config` -/

/-- **C6.**  Invoking class `B`'s `from_config` on a node whose target is a
class `A ≠ B` fails with `TargetMismatch` before any construction happens
(the error is the whole result: no instance is produced). -/
theorem c6_target_mismatch (fuel : Nat) (renv : REnv) (rcB : RClass)
    (i : Nat) (a : String) (fr : Bool) (fs : List (String × Val)) (σ : Nat)
    (hne : ¬ a = rcB.cd.name) :
    fromCfg (fuel + 1) renv rcB (.node i (.pycls a) fr fs) σ
      = .error .targetMismatch := by
  simp [fromCfg, Val.pyIs, hne]

/-- Witness for C6: reconstructing a `Sub`-targeted node through `Layer`'s
`from_config`. -/
theorem c6_target_mismatch_witness :
    fromCfg 10 envW rcLayer (.node 0 (.pycls "Sub") true []) 0
      = .error .targetMismatch :=
  c6_target_mismatch 9 envW rcLayer 0 "Sub" true [] 0 (by decide)

/-! ## Claim C8 — `Config.save` cannot serialize any node -/

/-- **C8 (code bug).**  `Config.save` pickles `self.current_config()`, but
class `Config` defines no `current_config` method, so saving a plain node —
here a frozen node with one field — raises `AttributeError` instead of
serializing the tree; the serialize/deserialize round-trip claimed by the
specification is unreachable. -/
theorem c8_save_raises :
    savePy (.node 0 (.pycls "A") true [("x", .prim (.pint 1))])
      = .error .attributeError := by rfl

/-! ## Claim C2 — the mutable-default hazard is not neutralized -/

/-- **C2 (code bug).**  Direct construction with no arguments leaves
`_kwargs` empty, so the replacement loop of `new__init__` never runs and the
original constructor binds the shared declared default: two `Layer()`
instances both end up with the *same* `Sub` instance (identity 7) as their
`sub` attribute, not two distinct fresh instances. -/
theorem c2_default_alias_bug :
    newInit 10 envW rcLayer [] [] 300
        = .ok (.obj 300 "Layer"
            [("sub", .obj 7 "Sub" []), ("width", .prim (.pint 10))], 301)
      ∧ newInit 10 envW rcLayer [] [] 301
        = .ok (.obj 301 "Layer"
            [("sub", .obj 7 "Sub" []), ("width", .prim (.pint 10))], 302) := by
  exact ⟨rfl, rfl⟩



/-! ## Claim C7 — composites are frozen yet list-mutable -/

theorem pyIs_refl_of_isConfig (x : Val) (h : x.isConfig = true) :
    x.pyIs x = true := by
  cases x <;> simp [Val.isConfig] at h <;> simp [Val.pyIs]

/-- **C7 (counterexample).**  `ConfigList.__init__` ends with `self.freeze()`:
the constructed (empty) composite has `isfrozen = true`, refuting "is not
frozen after construction". -/
theorem c7_counterexample :
    configListInit 10 [] 50 = .ok (.clist 50 true [], 51)
    ∧ Val.frozenOf (.clist 50 true []) = true := by
  exact ⟨rfl, rfl⟩

/-- **C7 (amended).**  Every successfully constructed `ConfigList` *is*
frozen (`isfrozen = true`), yet the mutators `append`, `insert`, `remove`
and `pop` still succeed on it, because they mutate the `configs` list
directly and never pass through the frozen-field discipline of
`Config.__setattr__`. -/
theorem c7_amended :
    (∀ fuel cs σ self σ2,
      configListInit fuel cs σ = .ok (self, σ2) → self.frozenOf = true)
    ∧ (∀ idx elems c, Val.isConfig c = true →
        clAppend (.clist idx true elems) c
          = .ok (.clist idx true (elems ++ [c])))
    ∧ (∀ idx elems pos c, Val.isConfig c = true →
        clInsert (.clist idx true elems) pos c
          = .ok (.clist idx true (elems.take pos ++ c :: elems.drop pos)))
    ∧ (∀ idx elems pos x, elems.get? pos = some x →
        clPop (.clist idx true elems) pos
          = .ok (x, .clist idx true (elems.take pos ++ elems.drop (pos + 1))))
    ∧ (∀ idx elems pos x, elems.get? pos = some x → Val.isConfig x = true →
        clRemove (.clist idx true elems) x
          = .ok (.clist idx true (removeFirst x elems))) := by
  refine ⟨?_, ?_, ?_, ?_, ?_⟩
  · intro fuel cs σ self σ2 h
    unfold configListInit at h
    by_cases hall : cs.all Val.isConfig = true
    · rw [if_pos hall] at h
      cases hd : deepcopyListF fuel cs (σ + 1) with
      | error e => rw [hd] at h; exact absurd h (by simp)
      | ok p =>
          rw [hd] at h
          cases h
          rfl
    · rw [if_neg hall] at h
      exact absurd h (by simp)
  · intro idx elems c hc
    simp [clAppend, hc]
  · intro idx elems pos c hc
    simp [clInsert, hc]
  · intro idx elems pos x h
    rw [List.get?_eq_getElem?] at h
    simp [clPop, h]
  · intro idx elems pos x h hx
    have hmem : x ∈ elems := List.get?_mem h
    have hany : elems.any (fun c => c.pyIs x) = true :=
      List.any_eq_true.2 ⟨x, hmem, pyIs_refl_of_isConfig x hx⟩
    simp [clRemove, hany]

/-- Witness for C7 (amended) on a one-element composite. -/
theorem c7_amended_witness :
    configListInit 10 [.node 5 (.pycls "Sub") true []] 50
      = .ok (.clist 50 true [.node 51 (.pycls "Sub") true []], 52)
    ∧ Val.frozenOf (.clist 50 true [.node 51 (.pycls "Sub") true []]) = true
    ∧ clAppend (.clist 50 true [.node 51 (.pycls "Sub") true []])
        (.node 9 (.pycls "Sub") true [])
      = .ok (.clist 50 true
          [.node 51 (.pycls "Sub") true [], .node 9 (.pycls "Sub") true []])
    ∧ clPop (.clist 50 true [.node 51 (.pycls "Sub") true []]) 0
      = .ok (.node 51 (.pycls "Sub") true [], .clist 50 true [])
    ∧ clRemove (.clist 50 true [.node 51 (.pycls "Sub") true []])
        (.node 51 (.pycls "Sub") true [])
      = .ok (.clist 50 true []) := by
  refine ⟨rfl, ?_, ?_, ?_, ?_⟩
  · exact c7_amended.1 10 [.node 5 (.pycls "Sub") true []] 50
      (.clist 50 true [.node 51 (.pycls "Sub") true []]) 52 rfl
  · exact c7_amended.2.1 50 [.node 51 (.pycls "Sub") true []]
      (.node 9 (.pycls "Sub") true []) (by decide)
  · exact c7_amended.2.2.2.1 50 [.node 51 (.pycls "Sub") true []] 0
      (.node 51 (.pycls "Sub") true []) rfl
  · exact c7_amended.2.2.2.2 50 [.node 51 (.pycls "Sub") true []] 0
      (.node 51 (.pycls "Sub") true []) rfl (by decide)



/-! ## Claim C3 — parameters without defaults do not raise -/

/-- **C3 (counterexample).**  Registering `Needy` (one parameter `x` with no
declared default and no decorator override) succeeds — no
`MissingRequiredParameter` is raised — and the default template maps `x` to
`None` (source line 226 substitutes `None`; the `raise` is only present in
the commented-out draft). -/
theorem c3_counterexample :
    register 10 [needyCD] 100
      = .ok ([⟨needyCD, ⟨["x"], [("x", .prim .pnone)], [("x", none)],
          [("x", .prim .pnone)]⟩⟩], 100)
    ∧ defaultCfg 10 rcNeedy [] 200
      = .ok (.node 200 (.pycls "Needy") true [("x", .prim .pnone)], 201) := by
  exact ⟨rfl, rfl⟩

theorem lookupO_updateO_other (es : List (String × Option Val)) (k k' : String)
    (v : Option Val) (h : ¬ k' = k) :
    lookupO (updateO es k v) k' = lookupO es k' := by
  have h' : ¬ k = k' := fun hh => h hh.symm
  induction es with
  | nil => simp [updateO, lookupO, h']
  | cons hd t ih =>
      by_cases hk : hd.1 = k
      · subst hk
        simp [updateO, lookupO, h']
      · simp only [updateO, if_neg hk]
        by_cases hk' : hd.1 = k'
        · simp [lookupO, hk']
        · simp [lookupO, hk', ih]

theorem lookupE_params_map (params : List (String × Option Val)) (k : String)
    (d : Option Val) (h : lookupO params k = some d) :
    lookupE (params.map (fun p => (p.1, p.2.getD (.prim .pnone)))) k
      = some (d.getD (.prim .pnone)) := by
  induction params with
  | nil => simp [lookupO] at h
  | cons hd t ih =>
      by_cases hk : hd.1 = k
      · simp [lookupO, hk] at h
        simp [lookupE, hk, h]
      · simp [lookupO, hk] at h
        simp [lookupE, hk, ih h]

theorem mkRegDataVals_lookup_pnone (k : String) (es : List (String × Val)) :
    ∀ fuel renv σ cs σ', mkRegDataVals fuel renv es σ = .ok (cs, σ') →
      lookupE es k = some (.prim .pnone) → lookupO cs k = some none := by
  induction es with
  | nil => intro fuel renv σ cs σ' hok h; simp [lookupE] at h
  | cons hd t ih =>
      intro fuel renv σ cs σ' hok h
      match fuel with
      | 0 => exact absurd hok (by simp [mkRegDataVals])
      | n + 1 =>
          obtain ⟨k0, v0⟩ := hd
          rw [mkRegDataVals] at hok
          cases hg : getCfg n renv v0 σ with
          | error e => simp [hg] at hok
          | ok p =>
              obtain ⟨c0, σ2⟩ := p
              simp only [hg] at hok
              cases hr : mkRegDataVals n renv t σ2 with
              | error e => simp [hr] at hok
              | ok q =>
                  obtain ⟨cs2, σ3⟩ := q
                  simp only [hr] at hok
                  cases hok
                  by_cases hk : k0 = k
                  · simp [lookupE, hk] at h
                    subst h
                    match n, hg with
                    | m + 1, hg =>
                        simp only [getCfg] at hg
                        cases hg
                        simp [lookupO, hk]
                  · simp [lookupE, hk] at h
                    simp [lookupO, hk]
                    exact ih n renv σ2 cs2 σ' hr h

theorem lookupE_dcov_of_none (dv0 : List (String × Val)) (k : String)
    (dc0 : List (String × Option Val)) (h : lookupO dc0 k = some none) :
    lookupE (dc0.map (fun p =>
        (p.1, match p.2 with
              | some c => c
              | none => ((lookupE dv0 p.1).getD (.prim .pnone))))) k
      = some ((lookupE dv0 k).getD (.prim .pnone)) := by
  induction dc0 with
  | nil => simp [lookupO] at h
  | cons hd t ih =>
      by_cases hk : hd.1 = k
      · simp [lookupO, hk] at h
        simp [lookupE, hk, h]
      · simp [lookupO, hk] at h
        simp [lookupE, hk, ih h]

theorem applyOverrides_preserves (k : String) (ovs : List (String × Val)) :
    ∀ fuel renv dv dc σ dv' dc' σ',
      applyOverrides fuel renv ovs dv dc σ = .ok (dv', dc', σ') →
      (∀ p ∈ ovs, ¬ p.1 = k) →
      lookupE dv' k = lookupE dv k ∧ lookupO dc' k = lookupO dc k := by
  induction ovs with
  | nil =>
      intro fuel renv dv dc σ dv' dc' σ' hok _
      match fuel with
      | 0 => exact absurd hok (by simp [applyOverrides])
      | n + 1 =>
          rw [applyOverrides] at hok
          cases hok
          exact ⟨rfl, rfl⟩
  | cons hd t ih =>
      intro fuel renv dv dc σ dv' dc' σ' hok hno
      match fuel with
      | 0 => exact absurd hok (by simp [applyOverrides])
      | n + 1 =>
          obtain ⟨k0, v0⟩ := hd
          rw [applyOverrides] at hok
          cases hg : getCfg n renv v0 σ with
          | error e => simp [hg] at hok
          | ok p =>
              obtain ⟨c0, σ2⟩ := p
              simp only [hg] at hok
              have hk0 : ¬ k0 = k := hno (k0, v0) (List.mem_cons_self _ _)
              have hk : ¬ k = k0 := fun hh => hk0 hh.symm
              have := ih n renv (updateE dv k0 v0) (updateO dc k0 c0) σ2
                dv' dc' σ' hok (fun q hq => hno q (List.mem_cons_of_mem _ hq))
              rw [lookupE_updateE_other dv k0 k v0 hk,
                  lookupO_updateO_other dc k0 k c0 hk] at this
              exact this

/-- **C3 (amended).**  During registration, a constructor parameter with no
declared default and no decorator override does not raise: `_configurable`
assigns it the default value `None`, captures no config for it
(`args_default_config[k] = None`), and the template source
`args_default_config_or_value` maps it to `None`. -/
theorem c3_amended (fuel : Nat) (renv : REnv) (cd : ClassDef) (σ : Nat)
    (rd : RegData) (σ' : Nat) (k : String)
    (hparam : lookupO cd.params k = some none)
    (hnoov : ∀ p ∈ cd.overrides, ¬ p.1 = k)
    (hok : mkRegData fuel renv cd σ = .ok (rd, σ')) :
    lookupE rd.argsDefaultValue k = some (.prim .pnone)
    ∧ lookupO rd.argsDefaultConfig k = some none
    ∧ lookupE rd.argsDefaultConfigOrValue k = some (.prim .pnone) := by
  unfold mkRegData at hok
  cases hv : mkRegDataVals fuel renv
      (cd.params.map (fun p => (p.1, p.2.getD (.prim .pnone)))) σ with
  | error e => simp [hv] at hok
  | ok p =>
      obtain ⟨dc0, σ1⟩ := p
      simp only [hv] at hok
      cases ha : applyOverrides fuel renv cd.overrides
          (cd.params.map (fun q => (q.1, q.2.getD (.prim .pnone)))) dc0 σ1 with
      | error e => simp [ha] at hok
      | ok q =>
          obtain ⟨dv2, dc2, σ2⟩ := q
          simp only [ha] at hok
          cases hok
          have hdv0 := lookupE_params_map cd.params k none hparam
          simp only [Option.getD_none] at hdv0
          have hdc0 := mkRegDataVals_lookup_pnone k _ fuel renv σ dc0 σ1 hv hdv0
          have hpres := applyOverrides_preserves k cd.overrides fuel renv _ _
            σ1 dv2 dc2 σ' ha hnoov
          refine ⟨?_, ?_, ?_⟩
          · rw [hpres.1, hdv0]
          · rw [hpres.2, hdc0]
          · have h3 := lookupE_dcov_of_none
              (cd.params.map (fun q => (q.1, q.2.getD (.prim .pnone)))) k dc0 hdc0
            rw [hdv0] at h3
            simp only [Option.getD_some] at h3
            exact h3

/-- Witness for C3 (amended): the `Needy` class in the concrete
environment. -/
theorem c3_amended_witness :
    lookupE rcNeedy.rd.argsDefaultValue "x" = some (.prim .pnone)
    ∧ lookupO rcNeedy.rd.argsDefaultConfig "x" = some none
    ∧ lookupE rcNeedy.rd.argsDefaultConfigOrValue "x"
        = some (.prim .pnone) := by
  exact c3_amended 19 [⟨subCD, ⟨[], [], [], []⟩⟩,
      ⟨layerCD, ⟨["sub", "width"],
        [("sub", .obj 7 "Sub" []), ("width", .prim (.pint 10))],
        [("sub", some (.node 100 (.pycls "Sub") true [])), ("width", none)],
        [("sub", .node 100 (.pycls "Sub") true []), ("width", .prim (.pint 10))]⟩⟩,
      ⟨modCD, ⟨[], [], [], []⟩⟩]
    needyCD 101 rcNeedy.rd 101 "x" rfl (by simp [needyCD]) rfl



/-! ## Claim C10 — extra override names in `default_config` -/

theorem updateE_append_of_not_hasK (fs : List (String × Val)) (k : String)
    (v : Val) (h : hasK fs k = false) : updateE fs k v = fs ++ [(k, v)] := by
  induction fs with
  | nil => simp [updateE]
  | cons hd t ih =>
      by_cases hk : hd.1 = k
      · simp [hasK, lookupE, hk] at h
      · simp [hasK, lookupE, hk] at h
        simp [updateE, hk, ih (by simp [hasK, h])]

theorem hasK_append (a b : List (String × Val)) (k : String) :
    hasK (a ++ b) k = (hasK a k || hasK b k) := by
  induction a with
  | nil => simp [hasK, lookupE]
  | cons hd t ih =>
      by_cases hk : hd.1 = k
      · simp [hasK, lookupE, hk]
      · simp [hasK, lookupE, hk] at ih ⊢
        exact ih

theorem hasK_eq_of_keys : ∀ es1 es2 : List (String × Val),
    es1.map Prod.fst = es2.map Prod.fst → ∀ k, hasK es1 k = hasK es2 k := by
  intro es1
  induction es1 with
  | nil =>
      intro es2 h k
      cases es2 with
      | nil => rfl
      | cons b t => simp at h
  | cons a t ih =>
      intro es2 h k
      cases es2 with
      | nil => simp at h
      | cons b t2 =>
          simp at h
          obtain ⟨h1, h2⟩ := h
          by_cases hk : a.1 = k
          · simp [hasK, lookupE, hk, h1 ▸ hk]
          · have hbk : ¬ b.1 = k := h1 ▸ hk
            simp [hasK, lookupE, hk, hbk]
            have := ih t2 h2 k
            simp [hasK] at this
            exact this

theorem foldl_updateE_append : ∀ (entries fs : List (String × Val)),
    (∀ p ∈ entries, hasK fs p.1 = false) →
    (entries.map Prod.fst).Nodup →
    entries.foldl (fun acc p => updateE acc p.1 p.2) fs = fs ++ entries := by
  intro entries
  induction entries with
  | nil => intro fs _ _; simp
  | cons a t ih =>
      intro fs hfresh hnodup
      obtain ⟨k0, v0⟩ := a
      simp only [List.foldl_cons]
      rw [updateE_append_of_not_hasK fs k0 v0
        (hfresh (k0, v0) (List.mem_cons_self _ _))]
      simp only [List.map_cons, List.nodup_cons] at hnodup
      rw [ih (fs ++ [(k0, v0)]) ?_ hnodup.2]
      · simp
      · intro p hp
        rw [hasK_append]
        have h1 := hfresh p (by simp [hp])
        have h2 : ¬ k0 = p.1 := by
          intro hh
          exact hnodup.1 (hh ▸ List.mem_map_of_mem Prod.fst hp)
        simp [hasK, lookupE, h2]
        simpa [hasK] using h1

theorem setattrsPy_unfrozen : ∀ (entries : List (String × Val)) (i : Nat)
    (cls : Val) (fs : List (String × Val)),
    (∀ x ∈ entries.map Prod.fst, ¬ x = "cls" ∧ ¬ x = "isfrozen") →
    setattrsPy (.node i cls false fs) entries
      = .ok (.node i cls false
          (entries.foldl (fun acc p => updateE acc p.1 p.2) fs)) := by
  intro entries
  induction entries with
  | nil => intro i cls fs _; simp [setattrsPy]
  | cons a t ih =>
      intro i cls fs h
      obtain ⟨k0, v0⟩ := a
      have ha := h k0 (by simp)
      have hstep : setattrPy (.node i cls false fs) k0 v0
          = .ok (.node i cls false (updateE fs k0 v0)) := by
        simp [setattrPy, ha.1, ha.2]
      simp only [setattrsPy, hstep]
      exact ih i cls (updateE fs k0 v0) (fun x hx => h x (by simp at hx ⊢; exact Or.inr hx))

theorem deepcopyEntriesF_keys : ∀ (es : List (String × Val)) (fuel σ : Nat)
    (es' : List (String × Val)) (σ' : Nat),
    deepcopyEntriesF fuel es σ = .ok (es', σ') →
    es'.map Prod.fst = es.map Prod.fst := by
  intro es
  induction es with
  | nil =>
      intro fuel σ es' σ' h
      match fuel with
      | 0 => exact absurd h (by simp [deepcopyEntriesF])
      | n + 1 =>
          rw [deepcopyEntriesF] at h
          cases h
          rfl
  | cons a t ih =>
      intro fuel σ es' σ' h
      match fuel with
      | 0 => exact absurd h (by simp [deepcopyEntriesF])
      | n + 1 =>
          obtain ⟨k0, v0⟩ := a
          rw [deepcopyEntriesF] at h
          cases hv : deepcopyF n v0 σ with
          | error e => simp [hv] at h
          | ok p =>
              obtain ⟨v1, σ1⟩ := p
              simp only [hv] at h
              cases hr : deepcopyEntriesF n t σ1 with
              | error e => simp [hr] at h
              | ok q =>
                  obtain ⟨t1, σ2⟩ := q
                  simp only [hr] at h
                  cases h
                  simp [ih n σ1 t1 σ' hr]

/-- **C10 (counterexample).**  `default_config(freeze=5)` on the registered
`Layer` class does **not** succeed: the override is applied while the node is
still unfrozen (shadowing the bound `freeze` method with the integer `5`),
and the final `cfg.freeze()` call of `default_config` then calls the
shadowing value and raises `TypeError` — no frozen node is returned. -/
theorem c10_counterexample :
    defaultCfg 10 rcLayer [("freeze", .prim (.pint 5))] 200
      = .error .typeError := rfl

/-- **C10 (amended).**  For a registered class and an override name `k` that
is not a constructor parameter and does not collide with the `Config`
attribute names `cls`, `isfrozen` or, in particular, the method name
`freeze` (for a class whose parameters avoid the same names),
`default_config(k=v)` does not fail: the override is applied while the node
is still unfrozen, so the call returns a frozen node whose fields are the
(copied) parameter defaults followed by the extra entry `k = v`.  At
`k = "freeze"` the claimed success fails — see the counterexample. -/
theorem c10_amended (fuel : Nat) (rc : RClass) (k : String) (v : Val)
    (σ : Nat) (entries : List (String × Val)) (σ1 : Nat)
    (hd : deepcopyEntriesF fuel rc.rd.argsDefaultConfigOrValue (σ + 1)
        = .ok (entries, σ1))
    (hclean : ∀ x ∈ rc.rd.argsDefaultConfigOrValue.map Prod.fst,
        ¬ x = "cls" ∧ ¬ x = "isfrozen" ∧ ¬ x = "freeze")
    (hnodup : (rc.rd.argsDefaultConfigOrValue.map Prod.fst).Nodup)
    (hk1 : ¬ k = "cls") (hk2 : ¬ k = "isfrozen") (hk3 : ¬ k = "freeze")
    (hnew : hasK rc.rd.argsDefaultConfigOrValue k = false) :
    defaultCfg fuel rc [(k, v)] σ
      = .ok (.node σ (.pycls rc.cd.name) true (entries ++ [(k, v)]), σ1) := by
  have hkeys := deepcopyEntriesF_keys rc.rd.argsDefaultConfigOrValue fuel
    (σ + 1) entries σ1 hd
  have hclean' : ∀ x ∈ entries.map Prod.fst, ¬ x = "cls" ∧ ¬ x = "isfrozen" :=
    fun x hx => ⟨(hclean x (hkeys ▸ hx)).1, (hclean x (hkeys ▸ hx)).2.1⟩
  have hnew' : hasK entries k = false := by
    rw [hasK_eq_of_keys entries rc.rd.argsDefaultConfigOrValue hkeys k]
    exact hnew
  unfold defaultCfg
  simp only [hd]
  have h1 : setattrsPy (mkConfig (.pycls rc.cd.name) σ) entries
      = .ok (.node σ (.pycls rc.cd.name) false ([] ++ entries)) := by
    rw [show mkConfig (.pycls rc.cd.name) σ
          = Val.node σ (.pycls rc.cd.name) false [] from rfl,
        setattrsPy_unfrozen entries σ (.pycls rc.cd.name) [] hclean',
        foldl_updateE_append entries [] (fun p _ => by simp [hasK, lookupE])
          (by rw [hkeys]; exact hnodup)]
  simp only [h1]
  have hstep : setattrPy (.node σ (.pycls rc.cd.name) false ([] ++ entries)) k v
      = .ok (.node σ (.pycls rc.cd.name) false (updateE ([] ++ entries) k v)) := by
    simp [setattrPy, hk1, hk2]
  have h2 : setattrsPy (.node σ (.pycls rc.cd.name) false ([] ++ entries)) [(k, v)]
      = .ok (.node σ (.pycls rc.cd.name) false (entries ++ [(k, v)])) := by
    simp only [setattrsPy, hstep]
    rw [show updateE ([] ++ entries) k v = updateE entries k v from by simp,
        updateE_append_of_not_hasK entries k v hnew']
  simp only [h2]
  have hfz : hasK (entries ++ [(k, v)]) "freeze" = false := by
    rw [hasK_append]
    have hfe : hasK entries "freeze" = false := by
      cases hh : hasK entries "freeze" with
      | false => rfl
      | true =>
          have hm := (hasK_iff_mem entries "freeze").mp hh
          exact absurd rfl (hclean "freeze" (hkeys ▸ hm)).2.2
    have hfk : hasK [(k, v)] "freeze" = false := by
      simp [hasK, lookupE, hk3]
    rw [hfe, hfk]
    rfl
  have h3 : freezeCall (.node σ (.pycls rc.cd.name) false (entries ++ [(k, v)]))
      = .ok (.node σ (.pycls rc.cd.name) true (entries ++ [(k, v)])) := by
    rw [freezeCall_node_red, if_neg (by rw [hfz]; simp)]
  simp only [h3]

/-- Witness for C10 (amended): `Layer.default_config(extra=5)` carries the
extra field after `sub` and `width`, frozen. -/
theorem c10_amended_witness :
    defaultCfg 10 rcLayer [("extra", .prim (.pint 5))] 200
      = .ok (.node 200 (.pycls "Layer") true
          [("sub", .node 201 (.pycls "Sub") true []),
           ("width", .prim (.pint 10)),
           ("extra", .prim (.pint 5))], 202) := by
  exact c10_amended 10 rcLayer "extra" (.prim (.pint 5)) 200
    [("sub", .node 201 (.pycls "Sub") true []), ("width", .prim (.pint 10))]
    202 rfl (by decide) (by decide) (by decide) (by decide) (by decide) rfl



/-! ## Claim C5 — composite type promotion in `create_object` -/

/-- **C5.**  A composite's `create_object` realizes every child; when the
composite is non-empty and every realized child is a native framework
component (`nn.Module`), the results are wrapped in the native homogeneous
collection (`nn.ModuleList` / `nn.ModuleDict`); otherwise — some child
non-native, or the composite empty — the plain list/dict of results is
returned (so an empty composite always yields the empty plain collection,
never the native wrapper). -/
theorem c5_composite_promotion :
    (∀ fuel renv i fr cs σ ms posts σ',
      buildChildren fuel renv cs (σ + 1) = .ok (ms, posts, σ') →
        (ms.all (isModuleV renv) = true ∧ 0 < cs.length →
          createObject (fuel + 1) renv (.clist i fr cs) σ
            = .ok (.mlist σ' ms, .clist i fr posts, σ' + 1))
        ∧ (¬(ms.all (isModuleV renv) = true ∧ 0 < cs.length) →
          createObject (fuel + 1) renv (.clist i fr cs) σ
            = .ok (.vlist σ ms, .clist i fr posts, σ')))
    ∧ (∀ fuel renv i fr cs σ ms posts σ',
      buildChildrenD fuel renv cs (σ + 1) = .ok (ms, posts, σ') →
        ((ms.map Prod.snd).all (isModuleV renv) = true ∧ 0 < cs.length →
          createObject (fuel + 1) renv (.cdict i fr cs) σ
            = .ok (.mdict σ' ms, .cdict i fr posts, σ' + 1))
        ∧ (¬((ms.map Prod.snd).all (isModuleV renv) = true ∧ 0 < cs.length) →
          createObject (fuel + 1) renv (.cdict i fr cs) σ
            = .ok (.vdict σ ms, .cdict i fr posts, σ'))) := by
  constructor
  · intro fuel renv i fr cs σ ms posts σ' hb
    constructor
    · intro hc
      rw [createObject]
      simp only [hb]
      rw [if_pos hc]
    · intro hc
      rw [createObject]
      simp only [hb]
      rw [if_neg hc]
  · intro fuel renv i fr cs σ ms posts σ' hb
    constructor
    · intro hc
      rw [createObject]
      simp only [hb]
      rw [if_pos hc]
    · intro hc
      rw [createObject]
      simp only [hb]
      rw [if_neg hc]



/-- Witness for C5: two native children are wrapped in `ModuleList`, a mixed
pair yields a plain list, the empty composite yields the empty plain list,
and one native child in the keyed variant is wrapped in `ModuleDict`. -/
theorem c5_composite_promotion_witness :
    createObject 10 envW (.clist 5 true
        [.node 60 (.pycls "MSub") true [], .node 61 (.pycls "MSub") true []]) 400
      = .ok (.mlist 403 [.obj 401 "MSub" [], .obj 402 "MSub" []],
          .clist 5 true [.node 60 (.pycls "MSub") true [],
                         .node 61 (.pycls "MSub") true []], 404)
    ∧ createObject 10 envW (.clist 5 true
        [.node 60 (.pycls "Sub") true [], .node 61 (.pycls "MSub") true []]) 400
      = .ok (.vlist 400 [.obj 401 "Sub" [], .obj 402 "MSub" []],
          .clist 5 true [.node 60 (.pycls "Sub") true [],
                         .node 61 (.pycls "MSub") true []], 403)
    ∧ createObject 10 envW (.clist 5 true []) 400
      = .ok (.vlist 400 [], .clist 5 true [], 401)
    ∧ createObject 10 envW (.cdict 5 true
        [("a", .node 60 (.pycls "MSub") true [])]) 400
      = .ok (.mdict 402 [("a", .obj 401 "MSub" [])],
          .cdict 5 true [("a", .node 60 (.pycls "MSub") true [])], 403) := by
  refine ⟨?_, ?_, ?_, ?_⟩
  · exact (c5_composite_promotion.1 9 envW 5 true
      [.node 60 (.pycls "MSub") true [], .node 61 (.pycls "MSub") true []] 400
      [.obj 401 "MSub" [], .obj 402 "MSub" []]
      [.node 60 (.pycls "MSub") true [], .node 61 (.pycls "MSub") true []]
      403 rfl).1 (by refine ⟨by rfl, by decide⟩)
  · exact (c5_composite_promotion.1 9 envW 5 true
      [.node 60 (.pycls "Sub") true [], .node 61 (.pycls "MSub") true []] 400
      [.obj 401 "Sub" [], .obj 402 "MSub" []]
      [.node 60 (.pycls "Sub") true [], .node 61 (.pycls "MSub") true []]
      403 rfl).2 (by intro hc; exact absurd hc.1 (by decide))
  · exact (c5_composite_promotion.1 9 envW 5 true [] 400 [] [] 401 rfl).2
      (by intro hc; exact absurd hc.2 (by decide))
  · exact (c5_composite_promotion.2 9 envW 5 true
      [("a", .node 60 (.pycls "MSub") true [])] 400
      [("a", .obj 401 "MSub" [])]
      [("a", .node 60 (.pycls "MSub") true [])]
      402 rfl).1 (by refine ⟨by rfl, by decide⟩)


/-! ## Definitional reduction lemmas for the build direction

The nested matches of `create_object`/`from_config` are flattened by the
equation compiler, so their automatically generated equations carry splitter
hypotheses; these plain `rfl` lemmas give the reductions per constructor
shape. -/

theorem createObject_node_cls (n : Nat) (renv : REnv) (i : Nat) (c : String)
    (fr : Bool) (fs : List (String × Val)) (σ : Nat) :
    createObject (n + 1) renv (.node i (.pycls c) fr fs) σ
      = (match lookupCls renv c with
         | some rc => fromCfg n renv rc (.node i (.pycls c) fr fs) σ
         | none => .error .notReconstructible) := rfl

theorem createObject_clist_red (n : Nat) (renv : REnv) (i : Nat) (fr : Bool)
    (cs : List Val) (σ : Nat) :
    createObject (n + 1) renv (.clist i fr cs) σ
      = (match buildChildren n renv cs (σ + 1) with
         | .error e => .error e
         | .ok (ms, posts, σ') =>
             if ms.all (isModuleV renv) = true ∧ 0 < cs.length then
               .ok (.mlist σ' ms, .clist i fr posts, σ' + 1)
             else .ok (.vlist σ ms, .clist i fr posts, σ')) := rfl

theorem createObject_cdict_red (n : Nat) (renv : REnv) (i : Nat) (fr : Bool)
    (cs : List (String × Val)) (σ : Nat) :
    createObject (n + 1) renv (.cdict i fr cs) σ
      = (match buildChildrenD n renv cs (σ + 1) with
         | .error e => .error e
         | .ok (ms, posts, σ') =>
             if (ms.map Prod.snd).all (isModuleV renv) = true ∧ 0 < cs.length then
               .ok (.mdict σ' ms, .cdict i fr posts, σ' + 1)
             else .ok (.vdict σ ms, .cdict i fr posts, σ')) := rfl

theorem fromCfg_node (n : Nat) (renv : REnv) (rc : RClass) (i : Nat)
    (cls : Val) (fr : Bool) (fs : List (String × Val)) (σ : Nat) :
    fromCfg (n + 1) renv rc (.node i cls fr fs) σ
      = (if cls.pyIs (.pycls rc.cd.name) = true then
           match realizeFields n renv fs σ with
           | .error e => .error e
           | .ok (kwargs, posts, σ') =>
               match newInit n renv rc [] kwargs σ' with
               | .error e => .error e
               | .ok (o, σ'') => .ok (o, .node i cls fr posts, σ'')
         else .error .targetMismatch) := rfl

/-! ## Claim C9 — reconstruction never mutates its input tree -/

/-- One induction over the build direction: every function of the
reconstruction mutual block returns its input configuration (tree) as the
post-state. -/
theorem buildPostAux : ∀ fuel : Nat,
    (∀ renv cfg σ v post σ2,
      createObject fuel renv cfg σ = .ok (v, post, σ2) → post = cfg)
    ∧ (∀ renv cs σ ms posts σ2,
      buildChildren fuel renv cs σ = .ok (ms, posts, σ2) → posts = cs)
    ∧ (∀ renv cs σ ms posts σ2,
      buildChildrenD fuel renv cs σ = .ok (ms, posts, σ2) → posts = cs)
    ∧ (∀ renv rc cfg σ v post σ2,
      fromCfg fuel renv rc cfg σ = .ok (v, post, σ2) → post = cfg)
    ∧ (∀ renv fs σ kw posts σ2,
      realizeFields fuel renv fs σ = .ok (kw, posts, σ2) → posts = fs) := by
  intro fuel
  induction fuel with
  | zero =>
      refine ⟨?_, ?_, ?_, ?_, ?_⟩
      · intro renv cfg σ v post σ2 h
        exact absurd h (by simp [createObject])
      · intro renv cs σ ms posts σ2 h
        exact absurd h (by simp [buildChildren])
      · intro renv cs σ ms posts σ2 h
        exact absurd h (by simp [buildChildrenD])
      · intro renv rc cfg σ v post σ2 h
        exact absurd h (by simp [fromCfg])
      · intro renv fs σ kw posts σ2 h
        exact absurd h (by simp [realizeFields])
  | succ n ih =>
      obtain ⟨ihC, ihL, ihD, ihF, ihR⟩ := ih
      refine ⟨?_, ?_, ?_, ?_, ?_⟩
      · intro renv cfg σ v post σ2 h
        cases cfg with
        | node i cls fr fs =>
            cases cls with
            | pycls c =>
                rw [createObject_node_cls] at h
                cases hl : lookupCls renv c with
                | some rc =>
                    simp only [hl] at h
                    exact ihF renv rc _ σ v post σ2 h
                | none => simp [hl] at h
            | prim p => exact absurd h (by rw [show createObject (n+1) renv
                (.node i (.prim p) fr fs) σ = (.error .notReconstructible :
                Except Err (Val × Val × Nat)) from rfl]; simp)
            | obj a b c => exact absurd h (by rw [show createObject (n+1) renv
                (.node i (.obj a b c) fr fs) σ = (.error .notReconstructible :
                Except Err (Val × Val × Nat)) from rfl]; simp)
            | node a b c d => exact absurd h (by rw [show createObject (n+1) renv
                (.node i (.node a b c d) fr fs) σ = (.error .notReconstructible :
                Except Err (Val × Val × Nat)) from rfl]; simp)
            | clist a b c => exact absurd h (by rw [show createObject (n+1) renv
                (.node i (.clist a b c) fr fs) σ = (.error .notReconstructible :
                Except Err (Val × Val × Nat)) from rfl]; simp)
            | cdict a b c => exact absurd h (by rw [show createObject (n+1) renv
                (.node i (.cdict a b c) fr fs) σ = (.error .notReconstructible :
                Except Err (Val × Val × Nat)) from rfl]; simp)
            | vlist a b => exact absurd h (by rw [show createObject (n+1) renv
                (.node i (.vlist a b) fr fs) σ = (.error .notReconstructible :
                Except Err (Val × Val × Nat)) from rfl]; simp)
            | vdict a b => exact absurd h (by rw [show createObject (n+1) renv
                (.node i (.vdict a b) fr fs) σ = (.error .notReconstructible :
                Except Err (Val × Val × Nat)) from rfl]; simp)
            | mlist a b => exact absurd h (by rw [show createObject (n+1) renv
                (.node i (.mlist a b) fr fs) σ = (.error .notReconstructible :
                Except Err (Val × Val × Nat)) from rfl]; simp)
            | mdict a b => exact absurd h (by rw [show createObject (n+1) renv
                (.node i (.mdict a b) fr fs) σ = (.error .notReconstructible :
                Except Err (Val × Val × Nat)) from rfl]; simp)
        | clist i fr cs =>
            rw [createObject_clist_red] at h
            cases hb : buildChildren n renv cs (σ + 1) with
            | error e => simp [hb] at h
            | ok p =>
                obtain ⟨ms, posts2, σ3⟩ := p
                simp only [hb] at h
                by_cases hcond : ms.all (isModuleV renv) = true ∧ 0 < cs.length
                · rw [if_pos hcond] at h
                  cases h
                  rw [ihL renv cs (σ + 1) ms posts2 _ hb]
                · rw [if_neg hcond] at h
                  cases h
                  rw [ihL renv cs (σ + 1) ms posts2 _ hb]
        | cdict i fr cs =>
            rw [createObject_cdict_red] at h
            cases hb : buildChildrenD n renv cs (σ + 1) with
            | error e => simp [hb] at h
            | ok p =>
                obtain ⟨ms, posts2, σ3⟩ := p
                simp only [hb] at h
                by_cases hcond :
                    (ms.map Prod.snd).all (isModuleV renv) = true ∧ 0 < cs.length
                · rw [if_pos hcond] at h
                  cases h
                  rw [ihD renv cs (σ + 1) ms posts2 _ hb]
                · rw [if_neg hcond] at h
                  cases h
                  rw [ihD renv cs (σ + 1) ms posts2 _ hb]
        | prim p => exact absurd h (by rw [show createObject (n+1) renv
            (.prim p) σ = (.error .attributeError :
            Except Err (Val × Val × Nat)) from rfl]; simp)
        | pycls c => exact absurd h (by rw [show createObject (n+1) renv
            (.pycls c) σ = (.error .attributeError :
            Except Err (Val × Val × Nat)) from rfl]; simp)
        | obj a b c => exact absurd h (by rw [show createObject (n+1) renv
            (.obj a b c) σ = (.error .attributeError :
            Except Err (Val × Val × Nat)) from rfl]; simp)
        | vlist a b => exact absurd h (by rw [show createObject (n+1) renv
            (.vlist a b) σ = (.error .attributeError :
            Except Err (Val × Val × Nat)) from rfl]; simp)
        | vdict a b => exact absurd h (by rw [show createObject (n+1) renv
            (.vdict a b) σ = (.error .attributeError :
            Except Err (Val × Val × Nat)) from rfl]; simp)
        | mlist a b => exact absurd h (by rw [show createObject (n+1) renv
            (.mlist a b) σ = (.error .attributeError :
            Except Err (Val × Val × Nat)) from rfl]; simp)
        | mdict a b => exact absurd h (by rw [show createObject (n+1) renv
            (.mdict a b) σ = (.error .attributeError :
            Except Err (Val × Val × Nat)) from rfl]; simp)
      · intro renv cs σ ms posts σ2 h
        cases cs with
        | nil => rw [buildChildren] at h; cases h; rfl
        | cons c rest =>
            rw [buildChildren] at h
            cases hc : createObject n renv c σ with
            | error e => simp [hc] at h
            | ok p =>
                obtain ⟨m, post1, σ3⟩ := p
                simp only [hc] at h
                cases hr : buildChildren n renv rest σ3 with
                | error e => simp [hr] at h
                | ok q =>
                    obtain ⟨ms2, posts2, σ4⟩ := q
                    simp only [hr] at h
                    cases h
                    rw [ihC renv c σ m post1 _ hc,
                        ihL renv rest _ ms2 posts2 _ hr]
      · intro renv cs σ ms posts σ2 h
        cases cs with
        | nil => rw [buildChildrenD] at h; cases h; rfl
        | cons e rest =>
            obtain ⟨k, c⟩ := e
            rw [buildChildrenD] at h
            cases hc : createObject n renv c σ with
            | error e => simp [hc] at h
            | ok p =>
                obtain ⟨m, post1, σ3⟩ := p
                simp only [hc] at h
                cases hr : buildChildrenD n renv rest σ3 with
                | error e => simp [hr] at h
                | ok q =>
                    obtain ⟨ms2, posts2, σ4⟩ := q
                    simp only [hr] at h
                    cases h
                    rw [ihC renv c σ m post1 _ hc,
                        ihD renv rest _ ms2 posts2 _ hr]
      · intro renv rc cfg σ v post σ2 h
        cases cfg with
        | node i cls fr fs =>
            rw [fromCfg_node] at h
            by_cases hpy : cls.pyIs (.pycls rc.cd.name) = true
            · rw [if_pos hpy] at h
              cases hr : realizeFields n renv fs σ with
              | error e => simp [hr] at h
              | ok p =>
                  obtain ⟨kw, posts2, σ3⟩ := p
                  simp only [hr] at h
                  cases hn : newInit n renv rc [] kw σ3 with
                  | error e => simp [hn] at h
                  | ok q =>
                      obtain ⟨o, σ4⟩ := q
                      simp only [hn] at h
                      cases h
                      rw [ihR renv fs σ kw posts2 _ hr]
            · rw [if_neg hpy] at h
              simp at h
        | clist a b c => exact absurd h (by rw [show fromCfg (n+1) renv rc
            (.clist a b c) σ = (.error .targetMismatch :
            Except Err (Val × Val × Nat)) from rfl]; simp)
        | cdict a b c => exact absurd h (by rw [show fromCfg (n+1) renv rc
            (.cdict a b c) σ = (.error .targetMismatch :
            Except Err (Val × Val × Nat)) from rfl]; simp)
        | prim p => exact absurd h (by rw [show fromCfg (n+1) renv rc
            (.prim p) σ = (.error .attributeError :
            Except Err (Val × Val × Nat)) from rfl]; simp)
        | pycls c => exact absurd h (by rw [show fromCfg (n+1) renv rc
            (.pycls c) σ = (.error .attributeError :
            Except Err (Val × Val × Nat)) from rfl]; simp)
        | obj a b c => exact absurd h (by rw [show fromCfg (n+1) renv rc
            (.obj a b c) σ = (.error .attributeError :
            Except Err (Val × Val × Nat)) from rfl]; simp)
        | vlist a b => exact absurd h (by rw [show fromCfg (n+1) renv rc
            (.vlist a b) σ = (.error .attributeError :
            Except Err (Val × Val × Nat)) from rfl]; simp)
        | vdict a b => exact absurd h (by rw [show fromCfg (n+1) renv rc
            (.vdict a b) σ = (.error .attributeError :
            Except Err (Val × Val × Nat)) from rfl]; simp)
        | mlist a b => exact absurd h (by rw [show fromCfg (n+1) renv rc
            (.mlist a b) σ = (.error .attributeError :
            Except Err (Val × Val × Nat)) from rfl]; simp)
        | mdict a b => exact absurd h (by rw [show fromCfg (n+1) renv rc
            (.mdict a b) σ = (.error .attributeError :
            Except Err (Val × Val × Nat)) from rfl]; simp)
      · intro renv fs σ kw posts σ2 h
        cases fs with
        | nil => rw [realizeFields] at h; cases h; rfl
        | cons e rest =>
            obtain ⟨k, v0⟩ := e
            rw [realizeFields] at h
            cases hv : v0.isConfig with
            | true =>
                simp only [hv, if_true] at h
                cases hc : createObject n renv v0 σ with
                | error e => simp [hc] at h
                | ok p =>
                    obtain ⟨r, post1, σ3⟩ := p
                    simp only [hc] at h
                    cases hr : realizeFields n renv rest σ3 with
                    | error e => simp [hr] at h
                    | ok q =>
                        obtain ⟨kw2, posts2, σ4⟩ := q
                        simp only [hr] at h
                        cases h
                        rw [ihC renv v0 σ r post1 _ hc,
                            ihR renv rest _ kw2 posts2 _ hr]
            | false =>
                simp only [hv, if_false] at h
                cases hr : realizeFields n renv rest σ with
                | error e => simp [hr] at h
                | ok q =>
                    obtain ⟨kw2, posts2, σ4⟩ := q
                    simp only [hr] at h
                    cases h
                    rw [ihR renv rest σ kw2 posts2 _ hr]

/-- **C9.**  Reconstruction is read-only on its input: whenever
`create_object` succeeds on a config tree, the tree the caller still holds
afterwards (the post-state threaded through the embedding) is exactly the
input tree — every target, frozen flag, field set, field value and child
collection unchanged. -/
theorem c9_build_preserves_input (fuel : Nat) (renv : REnv) (cfg : Val)
    (σ : Nat) (v post : Val) (σ2 : Nat)
    (h : createObject fuel renv cfg σ = .ok (v, post, σ2)) : post = cfg :=
  (buildPostAux fuel).1 renv cfg σ v post σ2 h

/-- Witness for C9 at the `Layer` template node. -/
theorem c9_build_preserves_input_witness :
    createObject 10 envW (.node 0 (.pycls "Layer") true
        [("sub", .node 1 (.pycls "Sub") true []),
         ("width", .prim (.pint 10))]) 500
      = .ok (.obj 501 "Layer" [("sub", .obj 500 "Sub" []),
             ("width", .prim (.pint 10))],
          .node 0 (.pycls "Layer") true
            [("sub", .node 1 (.pycls "Sub") true []),
             ("width", .prim (.pint 10))], 502)
    ∧ (.node 0 (.pycls "Layer") true
        [("sub", .node 1 (.pycls "Sub") true []),
         ("width", .prim (.pint 10))] : Val)
      = .node 0 (.pycls "Layer") true
          [("sub", .node 1 (.pycls "Sub") true []),
           ("width", .prim (.pint 10))] := by
  refine ⟨by rfl, ?_⟩
  exact c9_build_preserves_input 10 envW _ 500
    (.obj 501 "Layer" [("sub", .obj 500 "Sub" []), ("width", .prim (.pint 10))])
    _ 502 (by rfl)



/-! ## Claim C1 — helper lemmas: erasure structure -/

theorem eraseP_keys (fs : List (String × Val)) :
    (fs.map eraseP).map Prod.fst = fs.map Prod.fst := by
  induction fs with
  | nil => rfl
  | cons a t ih => simp [eraseP, ih]

theorem hasK_eraseP (fs : List (String × Val)) (k : String) :
    hasK (fs.map eraseP) k = hasK fs k :=
  hasK_eq_of_keys (fs.map eraseP) fs (eraseP_keys fs) k

theorem lookupE_eraseP (fs : List (String × Val)) (k : String) :
    lookupE (fs.map eraseP) k = (lookupE fs k).map Val.erase := by
  induction fs with
  | nil => simp [lookupE]
  | cons a t ih =>
      by_cases hk : a.1 = k
      · simp [lookupE, eraseP, hk]
      · simp [lookupE, eraseP, hk, ih]

theorem updateE_eraseP (fs : List (String × Val)) (k : String) (v : Val) :
    (updateE fs k v).map eraseP = updateE (fs.map eraseP) k v.erase := by
  induction fs with
  | nil => simp [updateE, eraseP]
  | cons a t ih =>
      by_cases hk : a.1 = k
      · simp [updateE, eraseP, hk]
      · simp [updateE, eraseP, hk, ih]

theorem isConfig_erase (v : Val) : v.erase.isConfig = v.isConfig := by
  cases v <;> simp [Val.erase_prim, Val.erase_pycls, Val.erase_obj,
    Val.erase_node, Val.erase_clist, Val.erase_cdict, Val.erase_vlist,
    Val.erase_vdict, Val.erase_mlist, Val.erase_mdict, Val.isConfig]

theorem truthy_erase (v : Val) : v.erase.truthy = v.truthy := by
  cases v with
  | prim p => rw [Val.erase_prim]
  | pycls c => rw [Val.erase_pycls]
  | obj a b c => rw [Val.erase_obj]; rfl
  | node a b c d => rw [Val.erase_node]; rfl
  | clist a b c => rw [Val.erase_clist]; rfl
  | cdict a b c => rw [Val.erase_cdict]; rfl
  | vlist a b => rw [Val.erase_vlist]; cases b <;> rfl
  | vdict a b => rw [Val.erase_vdict]; cases b <;> rfl
  | mlist a b => rw [Val.erase_mlist]; cases b <;> rfl
  | mdict a b => rw [Val.erase_mdict]; cases b <;> rfl

theorem setattrPy_node_red (i : Nat) (cls : Val) (fr : Bool)
    (fs : List (String × Val)) (k : String) (v : Val) :
    setattrPy (.node i cls fr fs) k v
      = (if fr = true ∧ ¬(k = "cls" ∨ k = "isfrozen" ∨ hasK fs k = true
             ∨ configClassAttrs.contains k = true) then
           .error .unknownField
         else if k = "cls" then .ok (.node i v fr fs)
         else if k = "isfrozen" then .ok (.node i cls v.truthy fs)
         else .ok (.node i cls fr (updateE fs k v))) := rfl

theorem setattrPy_erase (cfg : Val) (k : String) (v : Val) (cfg2 : Val)
    (h : setattrPy cfg k v = .ok cfg2) :
    setattrPy cfg.erase k v.erase = .ok cfg2.erase := by
  cases cfg with
  | node i cls fr fs =>
      rw [Val.erase_node]
      rw [setattrPy_node_red] at h
      rw [setattrPy_node_red]
      rw [hasK_eraseP]
      by_cases hfr : fr = true ∧ ¬(k = "cls" ∨ k = "isfrozen" ∨ hasK fs k = true
          ∨ configClassAttrs.contains k = true)
      · rw [if_pos hfr] at h; exact absurd h (by simp)
      · rw [if_neg hfr] at h
        rw [if_neg hfr]
        by_cases hc : k = "cls"
        · rw [if_pos hc] at h
          rw [if_pos hc]
          cases h
          rw [Val.erase_node]
        · rw [if_neg hc] at h
          rw [if_neg hc]
          by_cases hfz : k = "isfrozen"
          · rw [if_pos hfz] at h
            rw [if_pos hfz]
            cases h
            rw [Val.erase_node, truthy_erase]
          · rw [if_neg hfz] at h
            rw [if_neg hfz]
            cases h
            rw [Val.erase_node, updateE_eraseP]
  | prim p => exact absurd h (by simp [setattrPy])
  | pycls c => exact absurd h (by simp [setattrPy])
  | obj a b c => exact absurd h (by simp [setattrPy])
  | clist a b c => exact absurd h (by simp [setattrPy])
  | cdict a b c => exact absurd h (by simp [setattrPy])
  | vlist a b => exact absurd h (by simp [setattrPy])
  | vdict a b => exact absurd h (by simp [setattrPy])
  | mlist a b => exact absurd h (by simp [setattrPy])
  | mdict a b => exact absurd h (by simp [setattrPy])

theorem setattrsPy_erase : ∀ (entries : List (String × Val)) (cfg cfg2 : Val),
    setattrsPy cfg entries = .ok cfg2 →
    setattrsPy cfg.erase (entries.map eraseP) = .ok cfg2.erase := by
  intro entries
  induction entries with
  | nil =>
      intro cfg cfg2 h
      cases h
      rfl
  | cons a t ih =>
      intro cfg cfg2 h
      obtain ⟨k, v⟩ := a
      rw [setattrsPy] at h
      cases hs : setattrPy cfg k v with
      | error e => simp [hs] at h
      | ok cfg1 =>
          simp only [hs] at h
          simp only [List.map_cons, eraseP, setattrsPy,
            setattrPy_erase cfg k v cfg1 hs]
          exact ih cfg1 cfg2 h

theorem freezePy_erase (cfg : Val) (b : Bool) :
    (freezePy cfg b).erase = freezePy cfg.erase b := by
  cases cfg <;>
    simp [freezePy, Val.erase_prim, Val.erase_pycls, Val.erase_obj,
      Val.erase_node, Val.erase_clist, Val.erase_cdict, Val.erase_vlist,
      Val.erase_vdict, Val.erase_mlist, Val.erase_mdict]

theorem freezeCall_erase (cfg cfg2 : Val) (h : freezeCall cfg = .ok cfg2) :
    freezeCall cfg.erase = .ok cfg2.erase := by
  cases cfg with
  | node i cls fr fs =>
      rw [freezeCall_node_red] at h
      by_cases hfz : hasK fs "freeze" = true
      · rw [if_pos hfz] at h
        exact absurd h (by simp)
      · rw [if_neg hfz] at h
        cases h
        rw [Val.erase_node, freezeCall_node_red,
          if_neg (by rw [hasK_eraseP]; exact hfz), Val.erase_node]
  | prim p =>
      cases h
      rw [show freezePy (.prim p) true = .prim p from rfl, Val.erase_prim]
      rfl
  | pycls c =>
      cases h
      rw [show freezePy (.pycls c) true = .pycls c from rfl, Val.erase_pycls]
      rfl
  | obj a b c =>
      cases h
      rw [show freezePy (.obj a b c) true = .obj a b c from rfl, Val.erase_obj]
      rfl
  | clist a b c =>
      cases h
      rw [show freezePy (.clist a b c) true = .clist a true c from rfl,
        Val.erase_clist, Val.erase_clist]
      rfl
  | cdict a b c =>
      cases h
      rw [show freezePy (.cdict a b c) true = .cdict a true c from rfl,
        Val.erase_cdict, Val.erase_cdict]
      rfl
  | vlist a b =>
      cases h
      rw [show freezePy (.vlist a b) true = .vlist a b from rfl, Val.erase_vlist]
      rfl
  | vdict a b =>
      cases h
      rw [show freezePy (.vdict a b) true = .vdict a b from rfl, Val.erase_vdict]
      rfl
  | mlist a b =>
      cases h
      rw [show freezePy (.mlist a b) true = .mlist a b from rfl, Val.erase_mlist]
      rfl
  | mdict a b =>
      cases h
      rw [show freezePy (.mdict a b) true = .mdict a b from rfl, Val.erase_mdict]
      rfl


/-! ## Claim C1 — helper lemmas: deep copy only refreshes identities -/

theorem deepcopyF_obj_red (n : Nat) (i : Nat) (c : String)
    (attrs : List (String × Val)) (σ : Nat) :
    deepcopyF (n + 1) (.obj i c attrs) σ
      = (match deepcopyEntriesF n attrs (σ + 1) with
         | .error e => .error e
         | .ok (attrs', σ') => .ok (.obj σ c attrs', σ')) := rfl

theorem deepcopyF_node_red (n : Nat) (i : Nat) (cls : Val) (fr : Bool)
    (fs : List (String × Val)) (σ : Nat) :
    deepcopyF (n + 1) (.node i cls fr fs) σ
      = (match deepcopyF n cls (σ + 1) with
         | .error e => .error e
         | .ok (cls', σ1) =>
             match deepcopyEntriesF n fs σ1 with
             | .error e => .error e
             | .ok (fs', σ2) => .ok (.node σ cls' fr fs', σ2)) := rfl

theorem deepcopyF_clist_red (n : Nat) (i : Nat) (fr : Bool) (cs : List Val)
    (σ : Nat) :
    deepcopyF (n + 1) (.clist i fr cs) σ
      = (match deepcopyListF n cs (σ + 1) with
         | .error e => .error e
         | .ok (cs', σ') => .ok (.clist σ fr cs', σ')) := rfl

theorem deepcopyF_cdict_red (n : Nat) (i : Nat) (fr : Bool)
    (cs : List (String × Val)) (σ : Nat) :
    deepcopyF (n + 1) (.cdict i fr cs) σ
      = (match deepcopyEntriesF n cs (σ + 1) with
         | .error e => .error e
         | .ok (cs', σ') => .ok (.cdict σ fr cs', σ')) := rfl

theorem deepcopyF_vlist_red (n : Nat) (i : Nat) (es : List Val) (σ : Nat) :
    deepcopyF (n + 1) (.vlist i es) σ
      = (match deepcopyListF n es (σ + 1) with
         | .error e => .error e
         | .ok (es', σ') => .ok (.vlist σ es', σ')) := rfl

theorem deepcopyF_vdict_red (n : Nat) (i : Nat) (es : List (String × Val))
    (σ : Nat) :
    deepcopyF (n + 1) (.vdict i es) σ
      = (match deepcopyEntriesF n es (σ + 1) with
         | .error e => .error e
         | .ok (es', σ') => .ok (.vdict σ es', σ')) := rfl

theorem deepcopyF_mlist_red (n : Nat) (i : Nat) (es : List Val) (σ : Nat) :
    deepcopyF (n + 1) (.mlist i es) σ
      = (match deepcopyListF n es (σ + 1) with
         | .error e => .error e
         | .ok (es', σ') => .ok (.mlist σ es', σ')) := rfl

theorem deepcopyF_mdict_red (n : Nat) (i : Nat) (es : List (String × Val))
    (σ : Nat) :
    deepcopyF (n + 1) (.mdict i es) σ
      = (match deepcopyEntriesF n es (σ + 1) with
         | .error e => .error e
         | .ok (es', σ') => .ok (.mdict σ es', σ')) := rfl

theorem deepcopy_erase : ∀ fuel : Nat,
    (∀ v σ v' σ2, deepcopyF fuel v σ = .ok (v', σ2) → v'.erase = v.erase)
    ∧ (∀ vs σ vs' σ2, deepcopyListF fuel vs σ = .ok (vs', σ2) →
        vs'.map Val.erase = vs.map Val.erase)
    ∧ (∀ es σ es' σ2, deepcopyEntriesF fuel es σ = .ok (es', σ2) →
        es'.map eraseP = es.map eraseP) := by
  intro fuel
  induction fuel with
  | zero =>
      refine ⟨?_, ?_, ?_⟩
      · intro v σ v' σ2 h
        exact absurd h (by simp [deepcopyF])
      · intro vs σ vs' σ2 h
        exact absurd h (by simp [deepcopyListF])
      · intro es σ es' σ2 h
        exact absurd h (by simp [deepcopyEntriesF])
  | succ n ih =>
      obtain ⟨ih1, ih2, ih3⟩ := ih
      refine ⟨?_, ?_, ?_⟩
      · intro v σ v' σ2 h
        cases v with
        | prim p => cases h; rfl
        | pycls c => cases h; rfl
        | obj i c attrs =>
            rw [deepcopyF_obj_red] at h
            cases hd : deepcopyEntriesF n attrs (σ + 1) with
            | error e => simp [hd] at h
            | ok p =>
                obtain ⟨attrs', σ3⟩ := p
                simp only [hd] at h
                cases h
                rw [Val.erase_obj, Val.erase_obj, ih3 attrs (σ + 1) attrs' _ hd]
        | node i cls fr fs =>
            rw [deepcopyF_node_red] at h
            cases hc : deepcopyF n cls (σ + 1) with
            | error e => simp [hc] at h
            | ok p =>
                obtain ⟨cls', σ3⟩ := p
                simp only [hc] at h
                cases hd : deepcopyEntriesF n fs σ3 with
                | error e => simp [hd] at h
                | ok q =>
                    obtain ⟨fs', σ4⟩ := q
                    simp only [hd] at h
                    cases h
                    rw [Val.erase_node, Val.erase_node,
                        ih1 cls (σ + 1) cls' _ hc, ih3 fs σ3 fs' _ hd]
        | clist i fr cs =>
            rw [deepcopyF_clist_red] at h
            cases hd : deepcopyListF n cs (σ + 1) with
            | error e => simp [hd] at h
            | ok p =>
                obtain ⟨cs', σ3⟩ := p
                simp only [hd] at h
                cases h
                rw [Val.erase_clist, Val.erase_clist, ih2 cs (σ + 1) cs' _ hd]
        | cdict i fr cs =>
            rw [deepcopyF_cdict_red] at h
            cases hd : deepcopyEntriesF n cs (σ + 1) with
            | error e => simp [hd] at h
            | ok p =>
                obtain ⟨cs', σ3⟩ := p
                simp only [hd] at h
                cases h
                rw [Val.erase_cdict, Val.erase_cdict, ih3 cs (σ + 1) cs' _ hd]
        | vlist i es =>
            rw [deepcopyF_vlist_red] at h
            cases hd : deepcopyListF n es (σ + 1) with
            | error e => simp [hd] at h
            | ok p =>
                obtain ⟨es', σ3⟩ := p
                simp only [hd] at h
                cases h
                rw [Val.erase_vlist, Val.erase_vlist, ih2 es (σ + 1) es' _ hd]
        | vdict i es =>
            rw [deepcopyF_vdict_red] at h
            cases hd : deepcopyEntriesF n es (σ + 1) with
            | error e => simp [hd] at h
            | ok p =>
                obtain ⟨es', σ3⟩ := p
                simp only [hd] at h
                cases h
                rw [Val.erase_vdict, Val.erase_vdict, ih3 es (σ + 1) es' _ hd]
        | mlist i es =>
            rw [deepcopyF_mlist_red] at h
            cases hd : deepcopyListF n es (σ + 1) with
            | error e => simp [hd] at h
            | ok p =>
                obtain ⟨es', σ3⟩ := p
                simp only [hd] at h
                cases h
                rw [Val.erase_mlist, Val.erase_mlist, ih2 es (σ + 1) es' _ hd]
        | mdict i es =>
            rw [deepcopyF_mdict_red] at h
            cases hd : deepcopyEntriesF n es (σ + 1) with
            | error e => simp [hd] at h
            | ok p =>
                obtain ⟨es', σ3⟩ := p
                simp only [hd] at h
                cases h
                rw [Val.erase_mdict, Val.erase_mdict, ih3 es (σ + 1) es' _ hd]
      · intro vs σ vs' σ2 h
        cases vs with
        | nil => rw [deepcopyListF] at h; cases h; rfl
        | cons a t =>
            rw [deepcopyListF] at h
            cases ha : deepcopyF n a σ with
            | error e => simp [ha] at h
            | ok p =>
                obtain ⟨a', σ3⟩ := p
                simp only [ha] at h
                cases ht : deepcopyListF n t σ3 with
                | error e => simp [ht] at h
                | ok q =>
                    obtain ⟨t', σ4⟩ := q
                    simp only [ht] at h
                    cases h
                    simp [ih1 a σ a' _ ha, ih2 t σ3 t' _ ht]
      · intro es σ es' σ2 h
        cases es with
        | nil => rw [deepcopyEntriesF] at h; cases h; rfl
        | cons a t =>
            obtain ⟨k, v⟩ := a
            rw [deepcopyEntriesF] at h
            cases ha : deepcopyF n v σ with
            | error e => simp [ha] at h
            | ok p =>
                obtain ⟨v', σ3⟩ := p
                simp only [ha] at h
                cases ht : deepcopyEntriesF n t σ3 with
                | error e => simp [ht] at h
                | ok q =>
                    obtain ⟨t', σ4⟩ := q
                    simp only [ht] at h
                    cases h
                    simp [eraseP, ih1 v σ v' _ ha, ih3 t σ3 t' _ ht]



/-! ## Claim C1 — helper lemmas: snapshot reductions and commutation -/

theorem getCfg_obj_red (n : Nat) (renv : REnv) (i : Nat) (c : String)
    (attrs : List (String × Val)) (σ : Nat) :
    getCfg (n + 1) renv (.obj i c attrs) σ
      = (if hasK attrs "current_config" then .error .typeError
         else
           match lookupCls renv c with
           | some rc =>
               (match currentCfg n renv rc attrs σ with
                | .error e => .error e
                | .ok (cfg, σ') => .ok (some cfg, σ'))
           | none => .ok (none, σ)) := rfl

theorem getCfg_pycls_red (n : Nat) (renv : REnv) (c : String) (σ : Nat) :
    getCfg (n + 1) renv (.pycls c) σ
      = (if (lookupCls renv c).isSome then .error .typeError
         else .ok (none, σ)) := rfl

theorem getCfg_node_red (n : Nat) (renv : REnv) (i : Nat) (cls : Val)
    (fr : Bool) (fs : List (String × Val)) (σ : Nat) :
    getCfg (n + 1) renv (.node i cls fr fs) σ
      = (if hasK fs "current_config" then .error .typeError
         else .ok (none, σ)) := rfl

theorem getCfg_vlist_red (n : Nat) (renv : REnv) (i : Nat) (es : List Val)
    (σ : Nat) :
    getCfg (n + 1) renv (.vlist i es) σ
      = (match getCfgList n renv es σ with
         | .error e => .error e
         | .ok (none, σ') => .ok (none, σ')
         | .ok (some cs, σ') =>
             match configListInit n cs σ' with
             | .error e => .error e
             | .ok (c, σ'') => .ok (some c, σ'')) := rfl

theorem getCfg_mlist_red (n : Nat) (renv : REnv) (i : Nat) (es : List Val)
    (σ : Nat) :
    getCfg (n + 1) renv (.mlist i es) σ
      = (match getCfgList n renv es σ with
         | .error e => .error e
         | .ok (none, σ') => .ok (none, σ')
         | .ok (some cs, σ') =>
             match configListInit n cs σ' with
             | .error e => .error e
             | .ok (c, σ'') => .ok (some c, σ'')) := rfl

theorem getCfg_vdict_red (n : Nat) (renv : REnv) (i : Nat)
    (es : List (String × Val)) (σ : Nat) :
    getCfg (n + 1) renv (.vdict i es) σ
      = (match getCfgDict n renv es σ with
         | .error e => .error e
         | .ok (none, σ') => .ok (none, σ')
         | .ok (some cs, σ') =>
             match configDictInit n cs σ' with
             | .error e => .error e
             | .ok (c, σ'') => .ok (some c, σ'')) := rfl

theorem getCfg_mdict_red (n : Nat) (renv : REnv) (i : Nat)
    (es : List (String × Val)) (σ : Nat) :
    getCfg (n + 1) renv (.mdict i es) σ
      = (match getCfgDict n renv es σ with
         | .error e => .error e
         | .ok (none, σ') => .ok (none, σ')
         | .ok (some cs, σ') =>
             match configDictInit n cs σ' with
             | .error e => .error e
             | .ok (c, σ'') => .ok (some c, σ'')) := rfl

theorem currentCfg_red (n : Nat) (renv : REnv) (rc : RClass)
    (attrs : List (String × Val)) (σ : Nat) :
    currentCfg (n + 1) renv rc attrs σ
      = (match defaultCfg n rc [] σ with
         | .error e => .error e
         | .ok (cfg, σ1) =>
             match cfg with
             | .node i cls fr fs =>
                 overlayFields n renv attrs fs (.node i cls fr fs) σ1
             | _ => .error .attributeError) := rfl

theorem overlayFields_cons_red (n : Nat) (renv : REnv)
    (attrs : List (String × Val)) (k : String) (w : Val)
    (rest : List (String × Val)) (cfg : Val) (σ : Nat) :
    overlayFields (n + 1) renv attrs ((k, w) :: rest) cfg σ
      = (match lookupE attrs k with
         | some m =>
             match getCfg n renv m σ with
             | .error e => .error e
             | .ok (copt, σ') =>
                 match setattrPy cfg k (copt.getD m) with
                 | .error e => .error e
                 | .ok cfg' => overlayFields n renv attrs rest cfg' σ'
         | none => overlayFields n renv attrs rest cfg σ) := rfl

theorem getCfgE_obj_red (n : Nat) (renv : REnv) (i : Nat) (c : String)
    (attrs : List (String × Val)) :
    getCfgE (n + 1) renv (.obj i c attrs)
      = (if hasK attrs "current_config" then .error .typeError
         else
           match lookupCls renv c with
           | some rc =>
               (match currentCfgE n renv rc attrs with
                | .error e => .error e
                | .ok cfg => .ok (some cfg))
           | none => .ok none) := rfl

theorem getCfgE_node_red (n : Nat) (renv : REnv) (i : Nat) (cls : Val)
    (fr : Bool) (fs : List (String × Val)) :
    getCfgE (n + 1) renv (.node i cls fr fs)
      = (if hasK fs "current_config" then .error .typeError
         else .ok none) := rfl

theorem getCfgE_vlist_red (n : Nat) (renv : REnv) (i : Nat) (es : List Val) :
    getCfgE (n + 1) renv (.vlist i es)
      = (match getCfgListE n renv es with
         | .error e => .error e
         | .ok none => .ok none
         | .ok (some cs) =>
             if cs.all Val.isConfig then .ok (some (.clist 0 true cs))
             else .error .elementType) := rfl

theorem getCfgE_vdict_red (n : Nat) (renv : REnv) (i : Nat)
    (es : List (String × Val)) :
    getCfgE (n + 1) renv (.vdict i es)
      = (match getCfgDictE n renv es with
         | .error e => .error e
         | .ok none => .ok none
         | .ok (some cs) =>
             if (cs.map Prod.snd).all Val.isConfig then
               .ok (some (.cdict 0 true cs))
             else .error .elementType) := rfl

theorem getCfgE_mlist_red (n : Nat) (renv : REnv) (i : Nat) (es : List Val) :
    getCfgE (n + 1) renv (.mlist i es)
      = (match getCfgListE n renv es with
         | .error e => .error e
         | .ok none => .ok none
         | .ok (some cs) =>
             if cs.all Val.isConfig then .ok (some (.clist 0 true cs))
             else .error .elementType) := rfl

theorem getCfgE_mdict_red (n : Nat) (renv : REnv) (i : Nat)
    (es : List (String × Val)) :
    getCfgE (n + 1) renv (.mdict i es)
      = (match getCfgDictE n renv es with
         | .error e => .error e
         | .ok none => .ok none
         | .ok (some cs) =>
             if (cs.map Prod.snd).all Val.isConfig then
               .ok (some (.cdict 0 true cs))
             else .error .elementType) := rfl

theorem currentCfgE_red (n : Nat) (renv : REnv) (rc : RClass)
    (attrs : List (String × Val)) :
    currentCfgE (n + 1) renv rc attrs
      = (match defaultCfgE rc [] with
         | .error e => .error e
         | .ok cfg =>
             match cfg with
             | .node i cls fr fs => overlayFieldsE n renv attrs fs (.node i cls fr fs)
             | _ => .error .attributeError) := rfl

theorem overlayFieldsE_cons_red (n : Nat) (renv : REnv)
    (attrs : List (String × Val)) (k : String) (w : Val)
    (rest : List (String × Val)) (cfg : Val) :
    overlayFieldsE (n + 1) renv attrs ((k, w) :: rest) cfg
      = (match lookupE attrs k with
         | some m =>
             match getCfgE n renv m with
             | .error e => .error e
             | .ok copt =>
                 match setattrPy cfg k (copt.getD m) with
                 | .error e => .error e
                 | .ok cfg' => overlayFieldsE n renv attrs rest cfg'
         | none => overlayFieldsE n renv attrs rest cfg) := rfl

theorem all_isConfig_map_erase (cs : List Val) :
    (cs.map Val.erase).all Val.isConfig = cs.all Val.isConfig := by
  induction cs with
  | nil => rfl
  | cons a t ih => simp [List.all_cons, isConfig_erase, ih]

theorem all_isConfig_map_eraseP (cs : List (String × Val)) :
    ((cs.map eraseP).map Prod.snd).all Val.isConfig
      = (cs.map Prod.snd).all Val.isConfig := by
  induction cs with
  | nil => rfl
  | cons a t ih =>
      simp only [List.map_cons, List.all_cons]
      rw [show (eraseP a).2 = a.2.erase from rfl, isConfig_erase, ih]

theorem configListInit_ok (fuel : Nat) (cs : List Val) (σ : Nat) (v : Val)
    (σ2 : Nat) (h : configListInit fuel cs σ = .ok (v, σ2)) :
    cs.all Val.isConfig = true
    ∧ ∃ cs', deepcopyListF fuel cs (σ + 1) = .ok (cs', σ2)
        ∧ v = .clist σ true cs' := by
  unfold configListInit at h
  by_cases hall : cs.all Val.isConfig = true
  · rw [if_pos hall] at h
    cases hd : deepcopyListF fuel cs (σ + 1) with
    | error e => simp [hd] at h
    | ok p =>
        obtain ⟨cs', σ3⟩ := p
        simp only [hd] at h
        cases h
        refine ⟨hall, cs', rfl, rfl⟩
  · rw [if_neg hall] at h
    exact absurd h (by simp)

theorem configDictInit_ok (fuel : Nat) (cs : List (String × Val)) (σ : Nat)
    (v : Val) (σ2 : Nat) (h : configDictInit fuel cs σ = .ok (v, σ2)) :
    (cs.map Prod.snd).all Val.isConfig = true
    ∧ ∃ cs', deepcopyEntriesF fuel cs (σ + 1) = .ok (cs', σ2)
        ∧ v = .cdict σ true cs' := by
  unfold configDictInit at h
  by_cases hall : (cs.map Prod.snd).all Val.isConfig = true
  · rw [if_pos hall] at h
    cases hd : deepcopyEntriesF fuel cs (σ + 1) with
    | error e => simp [hd] at h
    | ok p =>
        obtain ⟨cs', σ3⟩ := p
        simp only [hd] at h
        cases h
        refine ⟨hall, cs', rfl, rfl⟩
  · rw [if_neg hall] at h
    exact absurd h (by simp)

/-- `default_config()` commutes with identity erasure. -/
theorem defaultCfg_commute (fuel : Nat) (rc : RClass) (σ : Nat) (cfg : Val)
    (σ2 : Nat) (h : defaultCfg fuel rc [] σ = .ok (cfg, σ2)) :
    defaultCfgE rc [] = .ok cfg.erase := by
  unfold defaultCfg at h
  cases hd : deepcopyEntriesF fuel rc.rd.argsDefaultConfigOrValue (σ + 1) with
  | error e => simp [hd] at h
  | ok p =>
      obtain ⟨entries, σ1⟩ := p
      simp only [hd] at h
      cases hs : setattrsPy (mkConfig (.pycls rc.cd.name) σ) entries with
      | error e => simp [hs] at h
      | ok c1 =>
          simp only [hs] at h
          simp only [setattrsPy] at h
          cases hfc : freezeCall c1 with
          | error e => simp [hfc] at h
          | ok c3 =>
              simp only [hfc] at h
              cases h
              have he := setattrsPy_erase entries
                (mkConfig (.pycls rc.cd.name) σ) c1 hs
              have hkeys := (deepcopy_erase fuel).2.2
                rc.rd.argsDefaultConfigOrValue (σ + 1) entries _ hd
              unfold defaultCfgE
              have hmk : (mkConfig (.pycls rc.cd.name) σ).erase
                  = mkConfig (.pycls rc.cd.name) 0 := by
                unfold mkConfig
                rw [Val.erase_node, Val.erase_pycls]
                rfl
              rw [hmk] at he
              rw [hkeys] at he
              simp only [he]
              simp only [setattrsPy]
              exact freezeCall_erase c1 _ hfc



theorem getD_map_erase (o : Option Val) (m : Val) :
    (o.map Val.erase).getD m.erase = (o.getD m).erase := by
  cases o <;> rfl

/-- The snapshot direction commutes with identity erasure: a successful
concrete capture determines the capture of the erased value. -/
theorem snapCommute : ∀ fuel : Nat,
    (∀ renv v σ r σ2, getCfg fuel renv v σ = .ok (r, σ2) →
      getCfgE fuel renv v.erase = .ok (r.map Val.erase))
    ∧ (∀ renv vs σ r σ2, getCfgList fuel renv vs σ = .ok (r, σ2) →
      getCfgListE fuel renv (vs.map Val.erase) = .ok (r.map (List.map Val.erase)))
    ∧ (∀ renv es σ r σ2, getCfgDict fuel renv es σ = .ok (r, σ2) →
      getCfgDictE fuel renv (es.map eraseP) = .ok (r.map (List.map eraseP)))
    ∧ (∀ renv rc attrs σ snap σ2, currentCfg fuel renv rc attrs σ = .ok (snap, σ2) →
      currentCfgE fuel renv rc (attrs.map eraseP) = .ok snap.erase)
    ∧ (∀ renv attrs fields cfg σ cfg2 σ2,
      overlayFields fuel renv attrs fields cfg σ = .ok (cfg2, σ2) →
      overlayFieldsE fuel renv (attrs.map eraseP) (fields.map eraseP) cfg.erase
        = .ok cfg2.erase) := by
  intro fuel
  induction fuel with
  | zero =>
      refine ⟨?_, ?_, ?_, ?_, ?_⟩
      · intro renv v σ r σ2 h
        exact absurd h (by simp [getCfg])
      · intro renv vs σ r σ2 h
        exact absurd h (by simp [getCfgList])
      · intro renv es σ r σ2 h
        exact absurd h (by simp [getCfgDict])
      · intro renv rc attrs σ snap σ2 h
        exact absurd h (by simp [currentCfg])
      · intro renv attrs fields cfg σ cfg2 σ2 h
        exact absurd h (by simp [overlayFields])
  | succ n ih =>
      obtain ⟨ih1, ih2, ih3, ih4, ih5⟩ := ih
      refine ⟨?_, ?_, ?_, ?_, ?_⟩
      · intro renv v σ r σ2 h
        cases v with
        | obj i c attrs =>
            rw [getCfg_obj_red] at h
            rw [Val.erase_obj, getCfgE_obj_red, hasK_eraseP]
            by_cases hcc : hasK attrs "current_config" = true
            · rw [if_pos hcc] at h
              exact absurd h (by simp)
            · rw [if_neg (by simpa using hcc)] at h
              rw [if_neg (by simpa using hcc)]
              cases hl : lookupCls renv c with
              | some rc =>
                  simp only [hl] at h ⊢
                  cases hc : currentCfg n renv rc attrs σ with
                  | error e => simp [hc] at h
                  | ok p =>
                      obtain ⟨cfg1, σ3⟩ := p
                      simp only [hc] at h
                      cases h
                      simp only [ih4 renv rc attrs σ cfg1 _ hc]
                      rfl
              | none =>
                  simp only [hl] at h ⊢
                  cases h
                  rfl
        | pycls c =>
            rw [getCfg_pycls_red] at h
            rw [Val.erase_pycls]
            by_cases hp : (lookupCls renv c).isSome = true
            · rw [if_pos hp] at h
              exact absurd h (by simp)
            · rw [if_neg (by simpa using hp)] at h
              cases h
              rw [show getCfgE (n + 1) renv (.pycls c)
                  = (if (lookupCls renv c).isSome then .error .typeError
                     else .ok none) from rfl]
              rw [if_neg (by simpa using hp)]
              rfl
        | node i cls fr fs =>
            rw [getCfg_node_red] at h
            rw [Val.erase_node, getCfgE_node_red, hasK_eraseP]
            by_cases hcc : hasK fs "current_config" = true
            · rw [if_pos hcc] at h
              exact absurd h (by simp)
            · rw [if_neg (by simpa using hcc)] at h
              rw [if_neg (by simpa using hcc)]
              cases h
              rfl
        | prim p =>
            rw [show getCfg (n + 1) renv (.prim p) σ
                = (.ok (none, σ) : Except Err (Option Val × Nat)) from rfl] at h
            cases h
            rw [Val.erase_prim]
            rfl
        | clist a b c =>
            rw [show getCfg (n + 1) renv (.clist a b c) σ
                = (.ok (none, σ) : Except Err (Option Val × Nat)) from rfl] at h
            cases h
            rw [Val.erase_clist]
            rfl
        | cdict a b c =>
            rw [show getCfg (n + 1) renv (.cdict a b c) σ
                = (.ok (none, σ) : Except Err (Option Val × Nat)) from rfl] at h
            cases h
            rw [Val.erase_cdict]
            rfl
        | vlist i es =>
            rw [getCfg_vlist_red] at h
            rw [Val.erase_vlist, getCfgE_vlist_red]
            cases hg : getCfgList n renv es σ with
            | error e => simp [hg] at h
            | ok p =>
                obtain ⟨ropt, σ3⟩ := p
                simp only [hg] at h
                cases ropt with
                | none =>
                    cases h
                    simp only [ih2 renv es σ none _ hg, Option.map_none']
                | some cs =>
                    cases hci : configListInit n cs σ3 with
                    | error e => simp [hci] at h
                    | ok q =>
                        obtain ⟨cv, σ4⟩ := q
                        simp only [hci] at h
                        cases h
                        obtain ⟨hall, cs', hdeep, hcv⟩ :=
                          configListInit_ok n cs σ3 cv _ hci
                        simp only [ih2 renv es σ (some cs) _ hg, Option.map_some']
                        rw [if_pos (by rw [all_isConfig_map_erase]; exact hall)]
                        subst hcv
                        rw [Val.erase_clist,
                            (deepcopy_erase n).2.1 cs (σ3 + 1) cs' _ hdeep]
        | mlist i es =>
            rw [getCfg_mlist_red] at h
            rw [Val.erase_mlist, getCfgE_mlist_red]
            cases hg : getCfgList n renv es σ with
            | error e => simp [hg] at h
            | ok p =>
                obtain ⟨ropt, σ3⟩ := p
                simp only [hg] at h
                cases ropt with
                | none =>
                    cases h
                    simp only [ih2 renv es σ none _ hg, Option.map_none']
                | some cs =>
                    cases hci : configListInit n cs σ3 with
                    | error e => simp [hci] at h
                    | ok q =>
                        obtain ⟨cv, σ4⟩ := q
                        simp only [hci] at h
                        cases h
                        obtain ⟨hall, cs', hdeep, hcv⟩ :=
                          configListInit_ok n cs σ3 cv _ hci
                        simp only [ih2 renv es σ (some cs) _ hg, Option.map_some']
                        rw [if_pos (by rw [all_isConfig_map_erase]; exact hall)]
                        subst hcv
                        rw [Val.erase_clist,
                            (deepcopy_erase n).2.1 cs (σ3 + 1) cs' _ hdeep]
        | vdict i es =>
            rw [getCfg_vdict_red] at h
            rw [Val.erase_vdict, getCfgE_vdict_red]
            cases hg : getCfgDict n renv es σ with
            | error e => simp [hg] at h
            | ok p =>
                obtain ⟨ropt, σ3⟩ := p
                simp only [hg] at h
                cases ropt with
                | none =>
                    cases h
                    simp only [ih3 renv es σ none _ hg, Option.map_none']
                | some cs =>
                    cases hci : configDictInit n cs σ3 with
                    | error e => simp [hci] at h
                    | ok q =>
                        obtain ⟨cv, σ4⟩ := q
                        simp only [hci] at h
                        cases h
                        obtain ⟨hall, cs', hdeep, hcv⟩ :=
                          configDictInit_ok n cs σ3 cv _ hci
                        simp only [ih3 renv es σ (some cs) _ hg, Option.map_some']
                        rw [if_pos (by rw [all_isConfig_map_eraseP]; exact hall)]
                        subst hcv
                        rw [Val.erase_cdict,
                            (deepcopy_erase n).2.2 cs (σ3 + 1) cs' _ hdeep]
        | mdict i es =>
            rw [getCfg_mdict_red] at h
            rw [Val.erase_mdict, getCfgE_mdict_red]
            cases hg : getCfgDict n renv es σ with
            | error e => simp [hg] at h
            | ok p =>
                obtain ⟨ropt, σ3⟩ := p
                simp only [hg] at h
                cases ropt with
                | none =>
                    cases h
                    simp only [ih3 renv es σ none _ hg, Option.map_none']
                | some cs =>
                    cases hci : configDictInit n cs σ3 with
                    | error e => simp [hci] at h
                    | ok q =>
                        obtain ⟨cv, σ4⟩ := q
                        simp only [hci] at h
                        cases h
                        obtain ⟨hall, cs', hdeep, hcv⟩ :=
                          configDictInit_ok n cs σ3 cv _ hci
                        simp only [ih3 renv es σ (some cs) _ hg, Option.map_some']
                        rw [if_pos (by rw [all_isConfig_map_eraseP]; exact hall)]
                        subst hcv
                        rw [Val.erase_cdict,
                            (deepcopy_erase n).2.2 cs (σ3 + 1) cs' _ hdeep]
      · intro renv vs σ r σ2 h
        cases vs with
        | nil =>
            rw [getCfgList] at h
            cases h
            rfl
        | cons m rest =>
            rw [getCfgList] at h
            rw [List.map_cons, getCfgListE]
            cases hg : getCfg n renv m σ with
            | error e => simp [hg] at h
            | ok p =>
                obtain ⟨copt, σ3⟩ := p
                simp only [hg] at h
                cases copt with
                | none =>
                    cases h
                    simp only [ih1 renv m σ none _ hg, Option.map_none']
                | some c =>
                    simp only [ih1 renv m σ (some c) _ hg, Option.map_some']
                    cases hr : getCfgList n renv rest σ3 with
                    | error e => simp [hr] at h
                    | ok q =>
                        obtain ⟨ropt, σ4⟩ := q
                        simp only [hr] at h
                        cases ropt with
                        | none =>
                            cases h
                            simp only [ih2 renv rest σ3 none _ hr, Option.map_none']
                        | some cs =>
                            cases h
                            simp only [ih2 renv rest σ3 (some cs) _ hr, Option.map_some']
                            rw [List.map_cons]
      · intro renv es σ r σ2 h
        cases es with
        | nil =>
            rw [getCfgDict] at h
            cases h
            rfl
        | cons e rest =>
            obtain ⟨k, m⟩ := e
            rw [getCfgDict] at h
            rw [List.map_cons, show eraseP (k, m) = (k, m.erase) from rfl,
                getCfgDictE]
            cases hg : getCfg n renv m σ with
            | error e => simp [hg] at h
            | ok p =>
                obtain ⟨copt, σ3⟩ := p
                simp only [hg] at h
                cases copt with
                | none =>
                    cases h
                    simp only [ih1 renv m σ none _ hg, Option.map_none']
                | some c =>
                    simp only [ih1 renv m σ (some c) _ hg, Option.map_some']
                    cases hr : getCfgDict n renv rest σ3 with
                    | error e => simp [hr] at h
                    | ok q =>
                        obtain ⟨ropt, σ4⟩ := q
                        simp only [hr] at h
                        cases ropt with
                        | none =>
                            cases h
                            simp only [ih3 renv rest σ3 none _ hr, Option.map_none']
                        | some cs =>
                            cases h
                            simp only [ih3 renv rest σ3 (some cs) _ hr, Option.map_some']
                            rw [List.map_cons]
                            rfl
      · intro renv rc attrs σ snap σ2 h
        rw [currentCfg_red] at h
        rw [currentCfgE_red]
        cases hd : defaultCfg n rc [] σ with
        | error e => simp [hd] at h
        | ok p =>
            obtain ⟨cfg0, σ1⟩ := p
            simp only [hd] at h
            have hcom := defaultCfg_commute n rc σ cfg0 _ hd
            cases cfg0 with
            | node i cls fr fs =>
                rw [Val.erase_node] at hcom
                simp only [hcom]
                have := ih5 renv attrs fs (.node i cls fr fs) σ1 snap _ h
                rw [Val.erase_node] at this
                exact this
            | prim pp => simp at h
            | pycls c => simp at h
            | obj a b c => simp at h
            | clist a b c => simp at h
            | cdict a b c => simp at h
            | vlist a b => simp at h
            | vdict a b => simp at h
            | mlist a b => simp at h
            | mdict a b => simp at h
      · intro renv attrs fields cfg σ cfg2 σ2 h
        cases fields with
        | nil =>
            rw [overlayFields] at h
            cases h
            rfl
        | cons e rest =>
            obtain ⟨k, w⟩ := e
            rw [overlayFields_cons_red] at h
            rw [List.map_cons, show eraseP (k, w) = (k, w.erase) from rfl,
                overlayFieldsE_cons_red, lookupE_eraseP]
            cases hlo : lookupE attrs k with
            | none =>
                simp only [hlo] at h
                simp only [Option.map_none']
                exact ih5 renv attrs rest cfg σ cfg2 _ h
            | some m =>
                simp only [hlo] at h
                simp only [Option.map_some']
                cases hg : getCfg n renv m σ with
                | error e => simp [hg] at h
                | ok p =>
                    obtain ⟨copt, σ3⟩ := p
                    simp only [hg] at h
                    simp only [ih1 renv m σ copt _ hg]
                    cases hs : setattrPy cfg k (copt.getD m) with
                    | error e => simp [hs] at h
                    | ok cfg1 =>
                        simp only [hs] at h
                        have hse := setattrPy_erase cfg k (copt.getD m) cfg1 hs
                        rw [getD_map_erase]
                        simp only [hse]
                        exact ih5 renv attrs rest cfg1 σ3 cfg2 _ h


/-! ## Claim C1 — structural helper lemmas -/

theorem isIdShape_erase (v : Val) : isIdShape v.erase = isIdShape v := by
  cases v <;> simp [Val.erase_prim, Val.erase_pycls, Val.erase_obj,
    Val.erase_node, Val.erase_clist, Val.erase_cdict, Val.erase_vlist,
    Val.erase_vdict, Val.erase_mlist, Val.erase_mdict, isIdShape]

theorem lookupCls_name (renv : REnv) (c : String) (rc : RClass)
    (h : lookupCls renv c = some rc) : rc.cd.name = c := by
  have := List.find?_some h
  exact of_decide_eq_true this

theorem updateE_self_noop : ∀ (es : List (String × Val)) (k : String) (v : Val),
    lookupE es k = some v → updateE es k v = es := by
  intro es
  induction es with
  | nil => intro k v h; simp [lookupE] at h
  | cons a t ih =>
      intro k v h
      by_cases hk : a.1 = k
      · simp only [lookupE, if_pos hk] at h
        cases h
        simp only [updateE, if_pos hk]
      · simp only [lookupE, if_neg hk] at h
        simp [updateE, hk, ih k v h]

theorem assoc_ext : ∀ (a b : List (String × Val)),
    a.map Prod.fst = b.map Prod.fst → (a.map Prod.fst).Nodup →
    (∀ k, lookupE a k = lookupE b k) → a = b := by
  intro a
  induction a with
  | nil =>
      intro b hk _ _
      cases b with
      | nil => rfl
      | cons x t => simp at hk
  | cons x t ih =>
      intro b hk hnd hl
      cases b with
      | nil => simp at hk
      | cons y s =>
          obtain ⟨x1, x2⟩ := x
          obtain ⟨y1, y2⟩ := y
          simp only [List.map_cons, List.cons.injEq] at hk
          obtain ⟨h1, h2⟩ := hk
          subst h1
          have hval := hl x1
          simp only [lookupE, if_pos rfl] at hval
          cases hval
          simp only [List.map_cons, List.nodup_cons] at hnd
          have htail : ∀ k, lookupE t k = lookupE s k := by
            intro k
            by_cases hkx : k = x1
            · subst hkx
              have hxnt : lookupE t k = none := by
                cases hlt : lookupE t k with
                | none => rfl
                | some w =>
                    exact absurd (List.mem_map_of_mem Prod.fst
                      (lookupE_mem t k w hlt)) hnd.1
              have hxns : lookupE s k = none := by
                cases hls : lookupE s k with
                | none => rfl
                | some w =>
                    have hm : k ∈ s.map Prod.fst :=
                      List.mem_map_of_mem Prod.fst (lookupE_mem s k w hls)
                    rw [← h2] at hm
                    exact absurd hm hnd.1
              rw [hxnt, hxns]
            · have hx := hl k
              have hxk : ¬ x1 = k := fun hh => hkx hh.symm
              simpa [lookupE, if_neg hxk] using hx
          rw [ih s h2 hnd.2 htail]

theorem pyIs_false_of_idShape (a b : Val) (ha : isIdShape a = true)
    (hid : isIdShape b = true → topId a ≠ topId b) : a.pyIs b = false := by
  cases a <;> simp [isIdShape] at ha <;> cases b <;>
    first
      | rfl
      | (simp [isIdShape, topId] at hid
         simp [Val.pyIs]
         omega)

theorem foldl_hasK_noop : ∀ (l : List (String × Val)) (acc : List (String × Val)),
    (∀ p ∈ l, hasK acc p.1 = true) →
    l.foldl (fun acc p => if hasK acc p.1 then acc else updateE acc p.1 p.2) acc
      = acc := by
  intro l
  induction l with
  | nil => intro acc _; rfl
  | cons a t ih =>
      intro acc h
      simp only [List.foldl_cons, if_pos (h a (List.mem_cons_self _ _))]
      exact ih acc (fun p hp => h p (List.mem_cons_of_mem a hp))

theorem foldl_consK_append : ∀ (l : List (String × Val)) (acc : List (String × Val)),
    (l.map Prod.fst).Nodup →
    (∀ p ∈ l, hasK acc p.1 = false) →
    l.foldl (fun acc p => if hasK acc p.1 then acc else acc ++ [(p.1, p.2)]) acc
      = acc ++ l := by
  intro l
  induction l with
  | nil => intro acc _ _; simp
  | cons a t ih =>
      intro acc hnd hfr
      simp only [List.map_cons, List.nodup_cons] at hnd
      have hif : ¬ hasK acc a.1 = true := by
        rw [hfr a (List.mem_cons_self _ _)]
        simp
      simp only [List.foldl_cons, if_neg hif]
      rw [ih (acc ++ [(a.1, a.2)]) hnd.2 ?_]
      · simp
      · intro p hp
        rw [hasK_append]
        have h1 := hfr p (List.mem_cons_of_mem a hp)
        have h2 : ¬ a.1 = p.1 := by
          intro hh
          exact hnd.1 (hh ▸ List.mem_map_of_mem Prod.fst hp)
        simp [hasK, lookupE, h2]
        simpa [hasK] using h1

theorem bindParams_noop : ∀ (params : List (String × Option Val))
    (kwargs attrs : List (String × Val)),
    (∀ p ∈ params, ∃ v, lookupE kwargs p.1 = some v ∧ lookupE attrs p.1 = some v) →
    bindParams params kwargs attrs = .ok attrs := by
  intro params
  induction params with
  | nil => intro kwargs attrs _; rfl
  | cons a t ih =>
      intro kwargs attrs h
      obtain ⟨v, hv1, hv2⟩ := h a (List.mem_cons_self _ _)
      obtain ⟨k, d⟩ := a
      simp only [bindParams, hv1]
      rw [updateE_self_noop attrs k v hv2]
      exact ih kwargs attrs (fun p hp => h p (List.mem_cons_of_mem _ hp))

theorem replaceDefaults_cons_red (n : Nat) (renv : REnv) (rc : RClass)
    (k : String) (v : Val) (rest : List (String × Val)) (σ : Nat) :
    replaceDefaults (n + 1) renv rc ((k, v) :: rest) σ
      = (match lookupE rc.rd.argsDefaultValue k with
         | none => .error .keyError
         | some d =>
             if v.pyIs d = true then
               match lookupO rc.rd.argsDefaultConfig k with
               | none => .error .keyError
               | some (some c) =>
                   match createObject n renv c σ with
                   | .error e => .error e
                   | .ok (r, _, σ2) =>
                       match replaceDefaults n renv rc rest σ2 with
                       | .error e => .error e
                       | .ok (rest2, σ3) => .ok ((k, r) :: rest2, σ3)
               | some none =>
                   match replaceDefaults n renv rc rest σ with
                   | .error e => .error e
                   | .ok (rest2, σ2) => .ok ((k, v) :: rest2, σ2)
             else
               match replaceDefaults n renv rc rest σ with
               | .error e => .error e
               | .ok (rest2, σ2) => .ok ((k, v) :: rest2, σ2)) := rfl

theorem replaceDefaults_noop : ∀ (kwargs : List (String × Val)) (fuel : Nat)
    (renv : REnv) (rc : RClass) (σ : Nat) (r : List (String × Val)) (σ2 : Nat),
    (∀ p ∈ kwargs, ∃ d, lookupE rc.rd.argsDefaultValue p.1 = some d
      ∧ (p.2.pyIs d = false ∨ lookupO rc.rd.argsDefaultConfig p.1 = some none)) →
    replaceDefaults fuel renv rc kwargs σ = .ok (r, σ2) →
    r = kwargs ∧ σ2 = σ := by
  intro kwargs
  induction kwargs with
  | nil =>
      intro fuel renv rc σ r σ2 _ h
      match fuel with
      | 0 => exact absurd h (by simp [replaceDefaults])
      | n + 1 =>
          rw [show replaceDefaults (n + 1) renv rc [] σ = .ok ([], σ) from rfl] at h
          cases h
          exact ⟨rfl, rfl⟩
  | cons a t ih =>
      intro fuel renv rc σ r σ2 hcond h
      match fuel with
      | 0 => exact absurd h (by simp [replaceDefaults])
      | n + 1 =>
          obtain ⟨k, v⟩ := a
          obtain ⟨d, hd, hdisj⟩ := hcond (k, v) (List.mem_cons_self _ _)
          rw [replaceDefaults_cons_red] at h
          simp only [hd] at h
          have htail : ∀ p ∈ t, ∃ d, lookupE rc.rd.argsDefaultValue p.1 = some d
              ∧ (p.2.pyIs d = false ∨ lookupO rc.rd.argsDefaultConfig p.1 = some none) :=
            fun p hp => hcond p (List.mem_cons_of_mem _ hp)
          by_cases his : Val.pyIs v d = true
          · rw [if_pos his] at h
            rcases hdisj with hno | hnone
            · rw [his] at hno; exact absurd hno (by simp)
            · rw [hnone] at h
              cases hr : replaceDefaults n renv rc t σ with
              | error e => simp [hr] at h
              | ok q =>
                  obtain ⟨rest2, σ3⟩ := q
                  simp only [hr] at h
                  cases h
                  obtain ⟨he1, he2⟩ := ih n renv rc σ rest2 _ htail hr
                  exact ⟨by rw [he1], he2⟩
          · rw [if_neg his] at h
            cases hr : replaceDefaults n renv rc t σ with
            | error e => simp [hr] at h
            | ok q =>
                obtain ⟨rest2, σ3⟩ := q
                simp only [hr] at h
                cases h
                obtain ⟨he1, he2⟩ := ih n renv rc σ rest2 _ htail hr
                exact ⟨by rw [he1], he2⟩

theorem forall2_mem_left {α β : Type _} (R : α → β → Prop) :
    ∀ (a : List α) (b : List β), List.Forall₂ R a b →
    ∀ x ∈ a, ∃ y ∈ b, R x y := by
  intro a
  induction a with
  | nil => intro b _ x hx; simp at hx
  | cons p t ih =>
      intro b hf x hx
      cases hf with
      | cons hR hrest =>
          rcases List.mem_cons.mp hx with hx | hx
          · exact ⟨_, List.mem_cons_self _ _, hx ▸ hR⟩
          · obtain ⟨y, hy, hRy⟩ := ih _ hrest x hx
            exact ⟨y, List.mem_cons_of_mem _ hy, hRy⟩

theorem forall2_keys {β : Type _} (R : (String × β) → (String × β) → Prop) :
    ∀ (a b : List (String × β)), List.Forall₂ R a b →
    (∀ p q, R p q → p.1 = q.1) → a.map Prod.fst = b.map Prod.fst := by
  intro a
  induction a with
  | nil => intro b hf _; cases hf; rfl
  | cons p t ih =>
      intro b hf hfst
      cases hf with
      | cons hR hrest =>
          simp only [List.map_cons]
          rw [hfst _ _ hR, ih _ hrest hfst]

theorem forall2_lookup (R : (String × Val) → (String × Val) → Prop) :
    ∀ (kw fs : List (String × Val)), List.Forall₂ R kw fs →
    (∀ p q, R p q → p.1 = q.1) →
    ∀ k v, lookupE fs k = some v → ∃ w, lookupE kw k = some w ∧ R (k, w) (k, v) := by
  intro kw
  induction kw with
  | nil =>
      intro fs hf _ k v hl
      cases hf
      simp [lookupE] at hl
  | cons p t ih =>
      intro fs hf hfst k v hl
      cases hf with
      | cons hR hrest =>
          rename_i q fs'
          obtain ⟨p1, p2⟩ := p
          obtain ⟨q1, q2⟩ := q
          have hq : p1 = q1 := hfst _ _ hR
          subst hq
          by_cases hk : p1 = k
          · subst hk
            simp only [lookupE, if_pos rfl] at hl ⊢
            cases hl
            exact ⟨p2, rfl, hR⟩
          · simp only [lookupE, if_neg hk] at hl ⊢
            exact ih fs' hrest hfst k v hl

theorem getCfgListE_nil_red (n : Nat) (renv : REnv) :
    getCfgListE (n + 1) renv [] = .ok (some []) := rfl

theorem getCfgListE_cons_red (n : Nat) (renv : REnv) (m : Val) (rest : List Val) :
    getCfgListE (n + 1) renv (m :: rest)
      = (match getCfgE n renv m with
         | .error e => .error e
         | .ok none => .ok none
         | .ok (some c) =>
             match getCfgListE n renv rest with
             | .error e => .error e
             | .ok none => .ok none
             | .ok (some cs) => .ok (some (c :: cs))) := rfl

theorem getCfgDictE_nil_red (n : Nat) (renv : REnv) :
    getCfgDictE (n + 1) renv [] = .ok (some []) := rfl

theorem getCfgDictE_cons_red (n : Nat) (renv : REnv) (k : String) (m : Val)
    (rest : List (String × Val)) :
    getCfgDictE (n + 1) renv ((k, m) :: rest)
      = (match getCfgE n renv m with
         | .error e => .error e
         | .ok none => .ok none
         | .ok (some c) =>
             match getCfgDictE n renv rest with
             | .error e => .error e
             | .ok none => .ok none
             | .ok (some cs) => .ok (some ((k, c) :: cs))) := rfl

theorem capList (renv : REnv) : ∀ (f2 : Nat) (ms cs : List Val),
    List.Forall₂ (fun m c => CapturesTo renv m c) ms cs →
    ∀ r, getCfgListE f2 renv (ms.map Val.erase) = .ok r →
    r = some (cs.map Val.erase) := by
  intro f2
  induction f2 with
  | zero =>
      intro ms cs _ r h
      exact absurd h (by simp [getCfgListE])
  | succ n ih =>
      intro ms cs hf r h
      cases hf with
      | nil =>
          rw [show (([] : List Val).map Val.erase) = [] from rfl,
            getCfgListE_nil_red] at h
          cases h
          rfl
      | cons hR hrest =>
          rename_i m c ms' cs'
          simp only [List.map_cons, getCfgListE_cons_red] at h
          cases hg : getCfgE n renv m.erase with
          | error e => simp [hg] at h
          | ok copt =>
              have hc := hR n copt hg
              subst hc
              simp only [hg] at h
              cases hr : getCfgListE n renv (ms'.map Val.erase) with
              | error e => simp [hr] at h
              | ok ropt =>
                  have := ih ms' cs' hrest ropt hr
                  subst this
                  simp only [hr] at h
                  cases h
                  rfl

theorem capDict (renv : REnv) : ∀ (f2 : Nat) (ms cs : List (String × Val)),
    List.Forall₂ (fun p q => p.1 = q.1 ∧ CapturesTo renv p.2 q.2) ms cs →
    ∀ r, getCfgDictE f2 renv (ms.map eraseP) = .ok r →
    r = some (cs.map eraseP) := by
  intro f2
  induction f2 with
  | zero =>
      intro ms cs _ r h
      exact absurd h (by simp [getCfgDictE])
  | succ n ih =>
      intro ms cs hf r h
      cases hf with
      | nil =>
          rw [show (([] : List (String × Val)).map eraseP) = [] from rfl,
            getCfgDictE_nil_red] at h
          cases h
          rfl
      | cons hR hrest =>
          rename_i p q ms' cs'
          obtain ⟨hk, hcap⟩ := hR
          obtain ⟨k1, m⟩ := p
          obtain ⟨k2, c⟩ := q
          simp only at hk
          subst hk
          simp only [List.map_cons, eraseP, getCfgDictE_cons_red] at h
          cases hg : getCfgE n renv m.erase with
          | error e => simp [hg] at h
          | ok copt =>
              have hc := hcap n copt hg
              subst hc
              simp only [hg] at h
              cases hr : getCfgDictE n renv (ms'.map eraseP) with
              | error e => simp [hr] at h
              | ok ropt =>
                  have := ih ms' cs' hrest ropt hr
                  subst this
                  simp only [hr] at h
                  cases h
                  rfl

theorem notCap_prim (renv : REnv) (p : Prim) : NotCap renv (.prim p) := by
  intro fuel r h
  rw [Val.erase_prim] at h
  match fuel with
  | 0 => exact absurd h (by simp [getCfgE])
  | n + 1 =>
      rw [show getCfgE (n + 1) renv (.prim p) = .ok none from rfl] at h
      cases h
      rfl

theorem mergePositional_nil (ks : List String) :
    mergePositional ks [] = .ok [] := by
  cases ks <;> rfl

theorem newInit_red (n : Nat) (renv : REnv) (rc : RClass) (args : List Val)
    (kwargs : List (String × Val)) (σ : Nat) :
    newInit (n + 1) renv rc args kwargs σ
      = (match mergePositional rc.rd.argNames args with
         | .error e => .error e
         | .ok kw0 =>
             match replaceDefaults n renv rc
                 (kwargs.foldl (fun acc p => updateE acc p.1 p.2) kw0) (σ + 1) with
             | .error e => .error e
             | .ok (kw2, σ2) =>
                 match oldInit rc.cd.params kw2
                     (kw2.foldl (fun acc p =>
                        if hasK acc p.1 then acc else acc ++ [(p.1, p.2)]) []) with
                 | .error e => .error e
                 | .ok attrs1 =>
                     .ok (.obj σ rc.cd.name
                       (kw2.foldl (fun acc p =>
                          if hasK acc p.1 then acc else updateE acc p.1 p.2) attrs1),
                       σ2)) := rfl

theorem newInit_char (fuel : Nat) (renv : REnv) (rc : RClass)
    (kw : List (String × Val)) (σ : Nat) (o : Val) (σ2 : Nat)
    (hkeys : kw.map Prod.fst = rc.rd.argNames)
    (hparams : rc.cd.params.map Prod.fst = rc.rd.argNames)
    (hnd : rc.rd.argNames.Nodup)
    (hrepl : ∀ p ∈ kw, ∃ d, lookupE rc.rd.argsDefaultValue p.1 = some d
      ∧ (p.2.pyIs d = false ∨ lookupO rc.rd.argsDefaultConfig p.1 = some none))
    (h : newInit fuel renv rc [] kw σ = .ok (o, σ2)) :
    o = .obj σ rc.cd.name kw ∧ σ2 = σ + 1 := by
  have hndk : (kw.map Prod.fst).Nodup := hkeys ▸ hnd
  match fuel with
  | 0 => exact absurd h (by simp [newInit])
  | n + 1 =>
      rw [newInit_red] at h
      simp only [mergePositional_nil] at h
      rw [foldl_updateE_append kw [] (fun p _ => rfl) hndk] at h
      simp only [List.nil_append] at h
      cases hr : replaceDefaults n renv rc kw (σ + 1) with
      | error e => simp [hr] at h
      | ok q =>
          obtain ⟨kw2, σ3⟩ := q
          obtain ⟨hkw2, hσ3⟩ := replaceDefaults_noop kw n renv rc (σ + 1) kw2 σ3
            hrepl hr
          simp only [hr] at h
          rw [hkw2, hσ3] at h
          rw [foldl_consK_append kw [] hndk (fun p _ => rfl)] at h
          simp only [List.nil_append] at h
          have hall : kw.all (fun p => (rc.cd.params.map Prod.fst).contains p.1)
              = true := by
            rw [List.all_eq_true]
            intro p hp
            have hm : p.1 ∈ rc.cd.params.map Prod.fst := by
              rw [hparams, ← hkeys]
              exact List.mem_map_of_mem Prod.fst hp
            exact List.elem_iff.mpr hm
          have hbind : bindParams rc.cd.params kw kw = .ok kw := by
            apply bindParams_noop
            intro p hp
            have hm : p.1 ∈ kw.map Prod.fst := by
              rw [hkeys, ← hparams]
              exact List.mem_map_of_mem Prod.fst hp
            obtain ⟨v, hv⟩ := lookupE_of_mem_keys kw p.1 hm
            exact ⟨v, hv, hv⟩
          have holdinit : oldInit rc.cd.params kw kw = .ok kw := by
            unfold oldInit
            rw [if_pos hall]
            exact hbind
          simp only [holdinit] at h
          rw [foldl_hasK_noop kw kw (fun p hp => (hasK_iff_mem kw p.1).mpr
            (List.mem_map_of_mem Prod.fst hp))] at h
          cases h
          exact ⟨rfl, rfl⟩

theorem forall2_mem_right {α β : Type _} (R : α → β → Prop) :
    ∀ (a : List α) (b : List β), List.Forall₂ R a b →
    ∀ y ∈ b, ∃ x ∈ a, R x y := by
  intro a
  induction a with
  | nil =>
      intro b hf y hy
      cases hf
      simp at hy
  | cons p t ih =>
      intro b hf y hy
      cases hf with
      | cons hR hrest =>
          rcases List.mem_cons.mp hy with hy | hy
          · exact ⟨p, List.mem_cons_self _ _, hy ▸ hR⟩
          · obtain ⟨x, hx, hRx⟩ := ih _ hrest y hy
            exact ⟨x, List.mem_cons_of_mem _ hx, hRx⟩

/-- `copy.deepcopy` preserves well-formedness of configuration trees and gives
identity-carrying copies fresh identities (at or above the environment bound),
provided the copy starts from a counter at or above that bound. -/
theorem wfcfg_deepcopy (renv : REnv) (N : Nat) (hst : EnvStable renv N) :
    ∀ fuel : Nat,
    (∀ v σ v2 σ2, N ≤ σ → deepcopyF fuel v σ = .ok (v2, σ2) →
      σ ≤ σ2 ∧ CopyGood renv N v v2)
    ∧ (∀ vs σ vs2 σ2, N ≤ σ → deepcopyListF fuel vs σ = .ok (vs2, σ2) →
      σ ≤ σ2 ∧ List.Forall₂ (CopyGood renv N) vs vs2)
    ∧ (∀ es σ es2 σ2, N ≤ σ → deepcopyEntriesF fuel es σ = .ok (es2, σ2) →
      σ ≤ σ2 ∧ List.Forall₂ (fun p p2 => p.1 = p2.1 ∧ CopyGood renv N p.2 p2.2)
        es es2) := by
  intro fuel
  induction fuel with
  | zero =>
      refine ⟨?_, ?_, ?_⟩
      · intro v σ v2 σ2 _ h
        exact absurd h (by simp [deepcopyF])
      · intro vs σ vs2 σ2 _ h
        exact absurd h (by simp [deepcopyListF])
      · intro es σ es2 σ2 _ h
        exact absurd h (by simp [deepcopyEntriesF])
  | succ n ih =>
      obtain ⟨ih1, ih2, ih3⟩ := ih
      refine ⟨?_, ?_, ?_⟩
      · intro v σ v2 σ2 hσ h
        have herase := (deepcopy_erase (n + 1)).1 v σ v2 σ2 h
        cases v with
        | prim p =>
            cases h
            exact ⟨le_refl σ, herase, fun hid => by simp [isIdShape] at hid,
              fun _ => rfl, fun hw => hw⟩
        | pycls c =>
            cases h
            exact ⟨le_refl σ, herase, fun hid => by simp [isIdShape] at hid,
              fun _ => rfl, fun hw => hw⟩
        | obj i c attrs =>
            rw [deepcopyF_obj_red] at h
            cases hd : deepcopyEntriesF n attrs (σ + 1) with
            | error e => simp [hd] at h
            | ok p =>
                obtain ⟨attrs2, σ3⟩ := p
                simp only [hd] at h
                cases h
                obtain ⟨hm, _⟩ := ih3 attrs (σ + 1) attrs2 _ (by omega) hd
                refine ⟨by omega, herase, fun _ => hσ, ?_, ?_⟩
                · intro hpair
                  obtain ⟨h1, _⟩ := hpair
                  simp [isIdShape] at h1
                · intro hw
                  cases hw
        | node i cls fr fs =>
            rw [deepcopyF_node_red] at h
            cases hc : deepcopyF n cls (σ + 1) with
            | error e => simp [hc] at h
            | ok p =>
                obtain ⟨cls2, σ3⟩ := p
                simp only [hc] at h
                cases hd : deepcopyEntriesF n fs σ3 with
                | error e => simp [hd] at h
                | ok q =>
                    obtain ⟨fs2, σ4⟩ := q
                    simp only [hd] at h
                    cases h
                    obtain ⟨hm1, cg1⟩ := ih1 cls (σ + 1) cls2 σ3 (by omega) hc
                    obtain ⟨hm2, hforall⟩ := ih3 fs σ3 fs2 _ (by omega) hd
                    refine ⟨by omega, herase,
                      fun hid => by simp [isIdShape] at hid, ?_, ?_⟩
                    · intro hpair
                      obtain ⟨_, h2⟩ := hpair
                      simp [Val.isConfig] at h2
                    · intro hw
                      cases hw with
                      | node _ c _ rc hrc hkeys hwf hraw =>
                          obtain ⟨_, _, hex1, _⟩ := cg1
                          have hcls2 : cls2 = .pycls c := hex1 ⟨rfl, rfl⟩
                          subst hcls2
                          refine WfCfg.node σ c fs2 rc hrc ?_ ?_ ?_
                          · rw [← forall2_keys _ fs fs2 hforall
                              (fun p q hpq => hpq.1)]
                            exact hkeys
                          · intro k w hmem hcfg
                            obtain ⟨pp, hp, hrel⟩ := forall2_mem_right _ fs fs2
                              hforall (k, w) hmem
                            obtain ⟨p1, p2⟩ := pp
                            obtain ⟨hp1, her, _, _, hwfp⟩ := hrel
                            simp only at hp1
                            subst hp1
                            have hcfgp : p2.isConfig = true := by
                              rw [← isConfig_erase p2, ← her, isConfig_erase]
                              exact hcfg
                            exact hwfp (hwf p1 p2 hp hcfgp)
                          · intro k w hmem hcfg
                            obtain ⟨pp, hp, hrel⟩ := forall2_mem_right _ fs fs2
                              hforall (k, w) hmem
                            obtain ⟨p1, p2⟩ := pp
                            obtain ⟨hp1, her, hfr2, hex2, _⟩ := hrel
                            simp only at hp1
                            subst hp1
                            have hcfgp : p2.isConfig = false := by
                              rw [← isConfig_erase p2, ← her, isConfig_erase]
                              exact hcfg
                            obtain ⟨hnc, hsafe⟩ := hraw p1 p2 hp hcfgp
                            refine ⟨?_, ?_⟩
                            · intro f r hg
                              rw [her] at hg
                              exact hnc f r hg
                            · intro d c2 hdv hdc
                              by_cases hid : isIdShape p2 = true
                              · have hidw : isIdShape w = true := by
                                  rw [← isIdShape_erase w, her, isIdShape_erase]
                                  exact hid
                                have hfrw : N ≤ topId w := hfr2 hid
                                obtain ⟨_, _, _, _, _, _, hdvc, _, _⟩ :=
                                  hst c rc hrc
                                obtain ⟨htop, hshape⟩ := hdvc p1 d hdv
                                exact pyIs_false_of_idShape w d hidw
                                  (fun _ => by omega)
                              · have hwp : w = p2 := hex2
                                  ⟨by simpa using hid, hcfgp⟩
                                rw [hwp]
                                exact hsafe d c2 hdv hdc
        | clist i fr cs =>
            rw [deepcopyF_clist_red] at h
            cases hd : deepcopyListF n cs (σ + 1) with
            | error e => simp [hd] at h
            | ok p =>
                obtain ⟨cs2, σ3⟩ := p
                simp only [hd] at h
                cases h
                obtain ⟨hm, hforall⟩ := ih2 cs (σ + 1) cs2 _ (by omega) hd
                refine ⟨by omega, herase,
                  fun hid => by simp [isIdShape] at hid, ?_, ?_⟩
                · intro hpair
                  obtain ⟨_, h2⟩ := hpair
                  simp [Val.isConfig] at h2
                · intro hw
                  cases hw with
                  | clist _ _ hcfg hch =>
                      refine WfCfg.clist σ cs2 ?_ ?_
                      · intro c2 hmem
                        obtain ⟨c0, hc0, cg⟩ := forall2_mem_right _ cs cs2
                          hforall c2 hmem
                        obtain ⟨her, _, _, _⟩ := cg
                        rw [← isConfig_erase c2, her, isConfig_erase]
                        exact hcfg c0 hc0
                      · intro c2 hmem
                        obtain ⟨c0, hc0, cg⟩ := forall2_mem_right _ cs cs2
                          hforall c2 hmem
                        exact cg.2.2.2 (hch c0 hc0)
        | cdict i fr cs =>
            rw [deepcopyF_cdict_red] at h
            cases hd : deepcopyEntriesF n cs (σ + 1) with
            | error e => simp [hd] at h
            | ok p =>
                obtain ⟨cs2, σ3⟩ := p
                simp only [hd] at h
                cases h
                obtain ⟨hm, hforall⟩ := ih3 cs (σ + 1) cs2 _ (by omega) hd
                refine ⟨by omega, herase,
                  fun hid => by simp [isIdShape] at hid, ?_, ?_⟩
                · intro hpair
                  obtain ⟨_, h2⟩ := hpair
                  simp [Val.isConfig] at h2
                · intro hw
                  cases hw with
                  | cdict _ _ hcfg hch =>
                      refine WfCfg.cdict σ cs2 ?_ ?_
                      · intro p2 hmem
                        obtain ⟨p0, hp0, cg⟩ := forall2_mem_right _ cs cs2
                          hforall p2 hmem
                        obtain ⟨_, her, _, _, _⟩ := cg
                        rw [← isConfig_erase p2.2, her, isConfig_erase]
                        exact hcfg p0 hp0
                      · intro p2 hmem
                        obtain ⟨p0, hp0, cg⟩ := forall2_mem_right _ cs cs2
                          hforall p2 hmem
                        exact cg.2.2.2.2 (hch p0 hp0)
        | vlist i es =>
            rw [deepcopyF_vlist_red] at h
            cases hd : deepcopyListF n es (σ + 1) with
            | error e => simp [hd] at h
            | ok p =>
                obtain ⟨es2, σ3⟩ := p
                simp only [hd] at h
                cases h
                obtain ⟨hm, _⟩ := ih2 es (σ + 1) es2 _ (by omega) hd
                refine ⟨by omega, herase, fun _ => hσ, ?_, fun hw => by cases hw⟩
                intro hpair
                obtain ⟨h1, _⟩ := hpair
                simp [isIdShape] at h1
        | vdict i es =>
            rw [deepcopyF_vdict_red] at h
            cases hd : deepcopyEntriesF n es (σ + 1) with
            | error e => simp [hd] at h
            | ok p =>
                obtain ⟨es2, σ3⟩ := p
                simp only [hd] at h
                cases h
                obtain ⟨hm, _⟩ := ih3 es (σ + 1) es2 _ (by omega) hd
                refine ⟨by omega, herase, fun _ => hσ, ?_, fun hw => by cases hw⟩
                intro hpair
                obtain ⟨h1, _⟩ := hpair
                simp [isIdShape] at h1
        | mlist i es =>
            rw [deepcopyF_mlist_red] at h
            cases hd : deepcopyListF n es (σ + 1) with
            | error e => simp [hd] at h
            | ok p =>
                obtain ⟨es2, σ3⟩ := p
                simp only [hd] at h
                cases h
                obtain ⟨hm, _⟩ := ih2 es (σ + 1) es2 _ (by omega) hd
                refine ⟨by omega, herase, fun _ => hσ, ?_, fun hw => by cases hw⟩
                intro hpair
                obtain ⟨h1, _⟩ := hpair
                simp [isIdShape] at h1
        | mdict i es =>
            rw [deepcopyF_mdict_red] at h
            cases hd : deepcopyEntriesF n es (σ + 1) with
            | error e => simp [hd] at h
            | ok p =>
                obtain ⟨es2, σ3⟩ := p
                simp only [hd] at h
                cases h
                obtain ⟨hm, _⟩ := ih3 es (σ + 1) es2 _ (by omega) hd
                refine ⟨by omega, herase, fun _ => hσ, ?_, fun hw => by cases hw⟩
                intro hpair
                obtain ⟨h1, _⟩ := hpair
                simp [isIdShape] at h1
      · intro vs σ vs2 σ2 hσ h
        cases vs with
        | nil =>
            rw [deepcopyListF] at h
            cases h
            exact ⟨le_refl σ, List.Forall₂.nil⟩
        | cons a t =>
            rw [deepcopyListF] at h
            cases ha : deepcopyF n a σ with
            | error e => simp [ha] at h
            | ok p =>
                obtain ⟨a2, σ3⟩ := p
                simp only [ha] at h
                cases ht : deepcopyListF n t σ3 with
                | error e => simp [ht] at h
                | ok q =>
                    obtain ⟨t2, σ4⟩ := q
                    simp only [ht] at h
                    cases h
                    obtain ⟨hm1, cg⟩ := ih1 a σ a2 σ3 hσ ha
                    obtain ⟨hm2, hforall⟩ := ih2 t σ3 t2 _ (by omega) ht
                    exact ⟨by omega, List.Forall₂.cons cg hforall⟩
      · intro es σ es2 σ2 hσ h
        cases es with
        | nil =>
            rw [deepcopyEntriesF] at h
            cases h
            exact ⟨le_refl σ, List.Forall₂.nil⟩
        | cons a t =>
            obtain ⟨k, v⟩ := a
            rw [deepcopyEntriesF] at h
            cases ha : deepcopyF n v σ with
            | error e => simp [ha] at h
            | ok p =>
                obtain ⟨v2, σ3⟩ := p
                simp only [ha] at h
                cases ht : deepcopyEntriesF n t σ3 with
                | error e => simp [ht] at h
                | ok q =>
                    obtain ⟨t2, σ4⟩ := q
                    simp only [ht] at h
                    cases h
                    obtain ⟨hm1, cg⟩ := ih1 v σ v2 σ3 hσ ha
                    obtain ⟨hm2, hforall⟩ := ih3 t σ3 t2 _ (by omega) ht
                    exact ⟨by omega, List.Forall₂.cons ⟨rfl, cg⟩ hforall⟩

theorem erase_of_plain (v : Val) (h1 : isIdShape v = false)
    (h2 : v.isConfig = false) : v.erase = v := by
  cases v with
  | prim p => rw [Val.erase_prim]
  | pycls c => rw [Val.erase_pycls]
  | obj i c a => simp [isIdShape] at h1
  | node i c f fs => simp [Val.isConfig] at h2
  | clist i f cs => simp [Val.isConfig] at h2
  | cdict i f cs => simp [Val.isConfig] at h2
  | vlist i es => simp [isIdShape] at h1
  | vdict i es => simp [isIdShape] at h1
  | mlist i es => simp [isIdShape] at h1
  | mdict i es => simp [isIdShape] at h1

/-- The erased `default_config()` of a registered class with sane captured
data is the frozen node holding the erased `args_default_config_or_value`
entries. -/
theorem defaultCfgE_eq (rc : RClass)
    (hkeys : rc.rd.argsDefaultConfigOrValue.map Prod.fst = rc.rd.argNames)
    (hnames : ∀ k ∈ rc.rd.argNames, ¬ k = "cls" ∧ ¬ k = "isfrozen")
    (hnd : rc.rd.argNames.Nodup) :
    defaultCfgE rc [] = freezeCall (.node 0 (.pycls rc.cd.name) false
      (rc.rd.argsDefaultConfigOrValue.map eraseP)) := by
  have hk2 : (rc.rd.argsDefaultConfigOrValue.map eraseP).map Prod.fst
      = rc.rd.argNames := by
    rw [eraseP_keys]
    exact hkeys
  have hs := setattrsPy_unfrozen (rc.rd.argsDefaultConfigOrValue.map eraseP) 0
    (.pycls rc.cd.name) []
    (fun x hx => hnames x (by rw [← hk2]; exact hx))
  rw [foldl_updateE_append _ [] (fun p _ => rfl) (hk2 ▸ hnd)] at hs
  simp only [List.nil_append] at hs
  unfold defaultCfgE
  rw [show mkConfig (.pycls rc.cd.name) 0
    = .node 0 (.pycls rc.cd.name) false [] from rfl]
  simp only [hs]
  simp only [setattrsPy]

/-- `default_config()` of a registered class in a stable environment yields a
well-formed configuration tree (and advances the identity counter). -/
theorem wfcfg_defaultCfg (renv : REnv) (N : Nat) (hst : EnvStable renv N)
    (c : String) (rc : RClass) (hrc : lookupCls renv c = some rc)
    (fuel σ : Nat) (cfg : Val) (σ1 : Nat) (hσ : N ≤ σ)
    (h : defaultCfg fuel rc [] σ = .ok (cfg, σ1)) :
    σ ≤ σ1 ∧ WfCfg renv cfg := by
  obtain ⟨h1, h2, h3, h4, h5, h6, h7, h8, h9⟩ := hst c rc hrc
  unfold defaultCfg at h
  cases hd : deepcopyEntriesF fuel rc.rd.argsDefaultConfigOrValue (σ + 1) with
  | error e => simp [hd] at h
  | ok p =>
      obtain ⟨entries, σ3⟩ := p
      simp only [hd] at h
      have hek : entries.map Prod.fst = rc.rd.argNames := by
        rw [deepcopyEntriesF_keys _ fuel (σ + 1) entries σ3 hd]
        exact h4
      have hs := setattrsPy_unfrozen entries σ (.pycls rc.cd.name) []
        (fun x hx => by
          have := h6 x (by rw [← hek]; exact hx)
          exact ⟨this.1, this.2.1⟩)
      rw [foldl_updateE_append _ [] (fun p _ => rfl) (hek ▸ h5)] at hs
      simp only [List.nil_append] at hs
      rw [show mkConfig (.pycls rc.cd.name) σ
        = .node σ (.pycls rc.cd.name) false [] from rfl] at h
      simp only [hs] at h
      simp only [setattrsPy] at h
      cases hfz : hasK entries "freeze" with
      | true =>
          have hfc : freezeCall (.node σ (.pycls rc.cd.name) false entries)
              = .error .typeError := by
            rw [freezeCall_node_red, if_pos hfz]
          simp only [hfc] at h
          exact absurd h (by simp)
      | false =>
          have hfc : freezeCall (.node σ (.pycls rc.cd.name) false entries)
              = .ok (.node σ (.pycls rc.cd.name) true entries) := by
            rw [freezeCall_node_red, if_neg (by rw [hfz]; simp)]
          simp only [hfc] at h
          cases h
          obtain ⟨hm, hforall⟩ :=
            ((wfcfg_deepcopy renv N hst fuel).2.2)
              rc.rd.argsDefaultConfigOrValue (σ + 1) entries _ (by omega) hd
          refine ⟨by omega, ?_⟩
          have hrc2 : lookupCls renv rc.cd.name = some rc := by
            rw [lookupCls_name renv c rc hrc]
            exact hrc
          refine WfCfg.node σ rc.cd.name entries rc hrc2 hek ?_ ?_
          · intro k w hmem hcfg
            obtain ⟨pp, hp, hrel⟩ := forall2_mem_right _ _ entries hforall
              (k, w) hmem
            obtain ⟨p1, p2⟩ := pp
            obtain ⟨hp1, her, _, _, hwfp⟩ := hrel
            simp only at hp1
            subst hp1
            have hcfgp : p2.isConfig = true := by
              rw [← isConfig_erase p2, ← her, isConfig_erase]
              exact hcfg
            exact hwfp ((h9 (p1, p2) hp).1 hcfgp)
          · intro k w hmem hcfg
            obtain ⟨pp, hp, hrel⟩ := forall2_mem_right _ _ entries hforall
              (k, w) hmem
            obtain ⟨p1, p2⟩ := pp
            obtain ⟨hp1, her, hfr2, hex2, _⟩ := hrel
            simp only at hp1
            subst hp1
            have hcfgp : p2.isConfig = false := by
              rw [← isConfig_erase p2, ← her, isConfig_erase]
              exact hcfg
            obtain ⟨hnc, hsafe⟩ := (h9 (p1, p2) hp).2 hcfgp
            refine ⟨?_, ?_⟩
            · intro f r hg
              rw [her] at hg
              exact hnc f r hg
            · intro d c2 hdv hdc
              by_cases hid : isIdShape p2 = true
              · have hidw : isIdShape w = true := by
                  rw [← isIdShape_erase w, her, isIdShape_erase]
                  exact hid
                have hfrw : N ≤ topId w := hfr2 hid
                obtain ⟨htop, hshape⟩ := h7 p1 d hdv
                exact pyIs_false_of_idShape w d hidw (fun _ => by omega)
              · have hidF : isIdShape p2 = false := by simpa using hid
                have hwp : w = p2 := hex2 ⟨hidF, hcfgp⟩
                have hsf := hsafe hidF d c2 hdv hdc
                rw [erase_of_plain p2 hidF hcfgp] at hsf
                rw [hwp]
                exact hsf

theorem lookupE_none_of_not_mem (es : List (String × Val)) (k : String)
    (h : k ∉ es.map Prod.fst) : lookupE es k = none := by
  cases hl : lookupE es k with
  | none => rfl
  | some w =>
      exact absurd (List.mem_map_of_mem Prod.fst (lookupE_mem es k w hl)) h

/-- The erased overlay loop of `current_config`: when every scaffold field is
overwritten with the value recorded in `fsE` (captured configs via a
successful capture, raw values by fallback), the final node carries exactly
`fsE`. -/
theorem overlayE_exact (renv : REnv) (fsE attrsE : List (String × Val))
    (hndF : (fsE.map Prod.fst).Nodup) :
    ∀ (SF cur : List (String × Val)) (f : Nat) (cls : Val) (r : Val),
    cur.map Prod.fst = fsE.map Prod.fst →
    (∀ k, k ∈ SF.map Prod.fst → k ∈ fsE.map Prod.fst) →
    (∀ k, k ∈ fsE.map Prod.fst → k ∉ SF.map Prod.fst →
      lookupE cur k = lookupE fsE k) →
    (∀ k, k ∈ SF.map Prod.fst → ¬ k = "cls" ∧ ¬ k = "isfrozen") →
    (∀ k, k ∈ SF.map Prod.fst → ∃ m w, lookupE attrsE k = some m
      ∧ lookupE fsE k = some w
      ∧ ∀ f2 r2, getCfgE f2 renv m = .ok r2 → r2.getD m = w) →
    overlayFieldsE f renv attrsE SF (.node 0 cls true cur) = .ok r →
    r = .node 0 cls true fsE := by
  intro SF
  induction SF with
  | nil =>
      intro cur f cls r hck _ hinv _ _ h
      match f with
      | 0 => exact absurd h (by simp [overlayFieldsE])
      | n + 1 =>
          rw [show overlayFieldsE (n + 1) renv attrsE [] (.node 0 cls true cur)
            = .ok (.node 0 cls true cur) from rfl] at h
          cases h
          have hcur : cur = fsE := by
            apply assoc_ext cur fsE hck (by rw [hck]; exact hndF)
            intro k
            by_cases hk : k ∈ fsE.map Prod.fst
            · exact hinv k hk (by simp)
            · rw [lookupE_none_of_not_mem fsE k hk,
                lookupE_none_of_not_mem cur k (by rw [hck]; exact hk)]
          rw [hcur]
  | cons a rest ih =>
      intro cur f cls r hck hsub hinv hbuiltins hfield h
      obtain ⟨k0, w0⟩ := a
      match f with
      | 0 => exact absurd h (by simp [overlayFieldsE])
      | n + 1 =>
          obtain ⟨m, w, hm, hw, hcap⟩ := hfield k0 (by simp)
          rw [overlayFieldsE_cons_red] at h
          simp only [hm] at h
          cases hg : getCfgE n renv m with
          | error e => simp [hg] at h
          | ok copt =>
              simp only [hg] at h
              have hgd := hcap n copt hg
              simp only [hgd] at h
              have hk0f : k0 ∈ fsE.map Prod.fst := hsub k0 (by simp)
              have hhk : hasK cur k0 = true := (hasK_iff_mem cur k0).mpr
                (by rw [hck]; exact hk0f)
              have hbi := hbuiltins k0 (by simp)
              have hsa : setattrPy (.node 0 cls true cur) k0 w
                  = .ok (.node 0 cls true (updateE cur k0 w)) := by
                rw [setattrPy_node_red]
                rw [if_neg (by
                  intro hand
                  exact hand.2 (Or.inr (Or.inr (Or.inl hhk))))]
                rw [if_neg hbi.1, if_neg hbi.2]
              simp only [hsa] at h
              refine ih (updateE cur k0 w) n cls r ?_ ?_ ?_ ?_ ?_ h
              · rw [updateE_keys_of_hasK cur k0 w hhk]
                exact hck
              · intro k hk
                exact hsub k (List.mem_cons_of_mem _ hk)
              · intro k hkf hknr
                by_cases hkk : k = k0
                · subst hkk
                  rw [lookupE_updateE_self, hw]
                · rw [lookupE_updateE_other cur k0 k w hkk]
                  exact hinv k hkf (by
                    simp only [List.map_cons, List.mem_cons]
                    rintro (hc | hc)
                    · exact hkk hc
                    · exact hknr hc)
              · intro k hk
                exact hbuiltins k (List.mem_cons_of_mem _ hk)
              · intro k hk
                exact hfield k (List.mem_cons_of_mem _ hk)

theorem lookupO_of_mem_keys : ∀ (es : List (String × Option Val)) (k : String),
    k ∈ es.map Prod.fst → ∃ v, lookupO es k = some v := by
  intro es
  induction es with
  | nil => intro k h; simp at h
  | cons a t ih =>
      intro k h
      by_cases hk : a.1 = k
      · exact ⟨a.2, by simp [lookupO, hk]⟩
      · simp only [List.map_cons, List.mem_cons] at h
        rcases h with h | h
        · exact absurd h.symm hk
        · obtain ⟨v, hv⟩ := ih k h
          exact ⟨v, by simp [lookupO, hk, hv]⟩

/-- The round-trip induction over the reconstruction direction: in a stable
environment, building from a well-formed configuration produces objects whose
erased capture is exactly the erased configuration they were built from
(`create_object` / `from_config` / the children builders / `realize`d
fields). -/
theorem buildSnap (renv : REnv) (N : Nat) (hst : EnvStable renv N) :
    ∀ fuel : Nat,
    (∀ cfg σ v post σ2, WfCfg renv cfg → N ≤ σ →
      createObject fuel renv cfg σ = .ok (v, post, σ2) →
      σ ≤ σ2 ∧ isIdShape v = true ∧ σ ≤ topId v ∧ CapturesTo renv v cfg)
    ∧ (∀ cs σ ms posts σ2, (∀ c ∈ cs, WfCfg renv c) → N ≤ σ →
      buildChildren fuel renv cs σ = .ok (ms, posts, σ2) →
      σ ≤ σ2 ∧ List.Forall₂ (fun m c => isIdShape m = true ∧ σ ≤ topId m
        ∧ CapturesTo renv m c) ms cs)
    ∧ (∀ cs σ ms posts σ2, (∀ p ∈ cs, WfCfg renv p.2) → N ≤ σ →
      buildChildrenD fuel renv cs σ = .ok (ms, posts, σ2) →
      σ ≤ σ2 ∧ List.Forall₂ (fun p q => p.1 = q.1 ∧ isIdShape p.2 = true
        ∧ σ ≤ topId p.2 ∧ CapturesTo renv p.2 q.2) ms cs)
    ∧ (∀ rc cfg σ v post σ2, WfCfg renv cfg → N ≤ σ →
      lookupCls renv rc.cd.name = some rc →
      fromCfg fuel renv rc cfg σ = .ok (v, post, σ2) →
      σ ≤ σ2 ∧ isIdShape v = true ∧ σ ≤ topId v ∧ CapturesTo renv v cfg)
    ∧ (∀ fs σ kw ps σ2,
      (∀ p ∈ fs, p.2.isConfig = true → WfCfg renv p.2) → N ≤ σ →
      realizeFields fuel renv fs σ = .ok (kw, ps, σ2) →
      σ ≤ σ2 ∧ List.Forall₂ (fun p q => p.1 = q.1
        ∧ (q.2.isConfig = true → isIdShape p.2 = true ∧ σ ≤ topId p.2
            ∧ CapturesTo renv p.2 q.2)
        ∧ (q.2.isConfig = false → p.2 = q.2)) kw fs) := by
  intro fuel
  induction fuel with
  | zero =>
      refine ⟨?_, ?_, ?_, ?_, ?_⟩
      · intro cfg σ v post σ2 _ _ h
        exact absurd h (by simp [createObject])
      · intro cs σ ms posts σ2 _ _ h
        exact absurd h (by simp [buildChildren])
      · intro cs σ ms posts σ2 _ _ h
        exact absurd h (by simp [buildChildrenD])
      · intro rc cfg σ v post σ2 _ _ _ h
        exact absurd h (by simp [fromCfg])
      · intro fs σ kw ps σ2 _ _ h
        exact absurd h (by simp [realizeFields])
  | succ n ih =>
      obtain ⟨ih1, ih2, ih3, ih4, ih5⟩ := ih
      refine ⟨?_, ?_, ?_, ?_, ?_⟩
      · -- createObject
        intro cfg σ v post σ2 hw hσ h
        cases hw with
        | node i c fs rc hrc hkeys hwf hraw =>
            rw [createObject_node_cls] at h
            simp only [hrc] at h
            have hrc2 : lookupCls renv rc.cd.name = some rc := by
              rw [lookupCls_name renv c rc hrc]
              exact hrc
            exact ih4 rc _ σ v post σ2
              (WfCfg.node i c fs rc hrc hkeys hwf hraw) hσ hrc2 h
        | clist i cs hcfg hch =>
            rw [createObject_clist_red] at h
            cases hb : buildChildren n renv cs (σ + 1) with
            | error e => simp [hb] at h
            | ok p =>
                obtain ⟨ms, posts2, σ3⟩ := p
                simp only [hb] at h
                obtain ⟨hm, hforall⟩ := ih2 cs (σ + 1) ms posts2 σ3 hch
                  (by omega) hb
                have hcapl : ∀ f2 r2,
                    getCfgListE f2 renv (ms.map Val.erase) = .ok r2 →
                    r2 = some (cs.map Val.erase) :=
                  fun f2 r2 hg => capList renv f2 ms cs
                    (hforall.imp (fun a b hab => hab.2.2)) r2 hg
                have hall : (cs.map Val.erase).all Val.isConfig = true := by
                  rw [all_isConfig_map_erase, List.all_eq_true]
                  exact hcfg
                by_cases hcond : ms.all (isModuleV renv) = true ∧ 0 < cs.length
                · rw [if_pos hcond] at h
                  cases h
                  refine ⟨by omega, rfl, by simpa [topId] using (by omega :
                    σ ≤ σ3), ?_⟩
                  intro f r hr
                  rw [Val.erase_mlist] at hr
                  match f with
                  | 0 => exact absurd hr (by simp [getCfgE])
                  | f2 + 1 =>
                      rw [getCfgE_mlist_red] at hr
                      cases hg : getCfgListE f2 renv (ms.map Val.erase) with
                      | error e => simp [hg] at hr
                      | ok ropt =>
                          have := hcapl f2 ropt hg
                          subst this
                          simp only [hg] at hr
                          rw [if_pos hall] at hr
                          cases hr
                          rw [Val.erase_clist]
                · rw [if_neg hcond] at h
                  cases h
                  refine ⟨by omega, rfl, le_refl σ, ?_⟩
                  intro f r hr
                  rw [Val.erase_vlist] at hr
                  match f with
                  | 0 => exact absurd hr (by simp [getCfgE])
                  | f2 + 1 =>
                      rw [getCfgE_vlist_red] at hr
                      cases hg : getCfgListE f2 renv (ms.map Val.erase) with
                      | error e => simp [hg] at hr
                      | ok ropt =>
                          have := hcapl f2 ropt hg
                          subst this
                          simp only [hg] at hr
                          rw [if_pos hall] at hr
                          cases hr
                          rw [Val.erase_clist]
        | cdict i cs hcfg hch =>
            rw [createObject_cdict_red] at h
            cases hb : buildChildrenD n renv cs (σ + 1) with
            | error e => simp [hb] at h
            | ok p =>
                obtain ⟨ms, posts2, σ3⟩ := p
                simp only [hb] at h
                obtain ⟨hm, hforall⟩ := ih3 cs (σ + 1) ms posts2 σ3 hch
                  (by omega) hb
                have hcapd : ∀ f2 r2,
                    getCfgDictE f2 renv (ms.map eraseP) = .ok r2 →
                    r2 = some (cs.map eraseP) :=
                  fun f2 r2 hg => capDict renv f2 ms cs
                    (hforall.imp (fun a b hab => ⟨hab.1, hab.2.2.2⟩)) r2 hg
                have hall : ((cs.map eraseP).map Prod.snd).all Val.isConfig
                    = true := by
                  rw [all_isConfig_map_eraseP, List.all_eq_true]
                  intro x hx
                  obtain ⟨q, hq, hqe⟩ := List.mem_map.mp hx
                  exact hqe ▸ hcfg q hq
                by_cases hcond : (ms.map Prod.snd).all (isModuleV renv) = true
                    ∧ 0 < cs.length
                · rw [if_pos hcond] at h
                  cases h
                  refine ⟨by omega, rfl, by simpa [topId] using (by omega :
                    σ ≤ σ3), ?_⟩
                  intro f r hr
                  rw [Val.erase_mdict] at hr
                  match f with
                  | 0 => exact absurd hr (by simp [getCfgE])
                  | f2 + 1 =>
                      rw [getCfgE_mdict_red] at hr
                      cases hg : getCfgDictE f2 renv (ms.map eraseP) with
                      | error e => simp [hg] at hr
                      | ok ropt =>
                          have := hcapd f2 ropt hg
                          subst this
                          simp only [hg] at hr
                          rw [if_pos hall] at hr
                          cases hr
                          rw [Val.erase_cdict]
                · rw [if_neg hcond] at h
                  cases h
                  refine ⟨by omega, rfl, le_refl σ, ?_⟩
                  intro f r hr
                  rw [Val.erase_vdict] at hr
                  match f with
                  | 0 => exact absurd hr (by simp [getCfgE])
                  | f2 + 1 =>
                      rw [getCfgE_vdict_red] at hr
                      cases hg : getCfgDictE f2 renv (ms.map eraseP) with
                      | error e => simp [hg] at hr
                      | ok ropt =>
                          have := hcapd f2 ropt hg
                          subst this
                          simp only [hg] at hr
                          rw [if_pos hall] at hr
                          cases hr
                          rw [Val.erase_cdict]
      · -- buildChildren
        intro cs σ ms posts σ2 hch hσ h
        cases cs with
        | nil =>
            rw [show buildChildren (n + 1) renv [] σ = .ok ([], [], σ)
              from rfl] at h
            cases h
            exact ⟨le_refl σ, List.Forall₂.nil⟩
        | cons c rest =>
            rw [show buildChildren (n + 1) renv (c :: rest) σ
              = (match createObject n renv c σ with
                 | .error e => .error e
                 | .ok (m, post1, σ3) =>
                     match buildChildren n renv rest σ3 with
                     | .error e => .error e
                     | .ok (ms2, posts2, σ4) =>
                         .ok (m :: ms2, post1 :: posts2, σ4)) from rfl] at h
            cases ha : createObject n renv c σ with
            | error e => simp [ha] at h
            | ok p =>
                obtain ⟨m, post1, σ3⟩ := p
                simp only [ha] at h
                cases hb : buildChildren n renv rest σ3 with
                | error e => simp [hb] at h
                | ok q =>
                    obtain ⟨ms2, posts2, σ4⟩ := q
                    simp only [hb] at h
                    cases h
                    obtain ⟨hm1, hid1, htop1, hcap1⟩ := ih1 c σ m post1 σ3
                      (hch c (List.mem_cons_self _ _)) hσ ha
                    obtain ⟨hm2, hforall⟩ := ih2 rest σ3 ms2 posts2 _
                      (fun c2 hc2 => hch c2 (List.mem_cons_of_mem _ hc2))
                      (by omega) hb
                    exact ⟨by omega, List.Forall₂.cons ⟨hid1, htop1, hcap1⟩
                      (hforall.imp (fun a b hab =>
                        ⟨hab.1, le_trans hm1 hab.2.1, hab.2.2⟩))⟩
      · -- buildChildrenD
        intro cs σ ms posts σ2 hch hσ h
        cases cs with
        | nil =>
            rw [show buildChildrenD (n + 1) renv [] σ = .ok ([], [], σ)
              from rfl] at h
            cases h
            exact ⟨le_refl σ, List.Forall₂.nil⟩
        | cons a rest =>
            obtain ⟨k, c⟩ := a
            rw [show buildChildrenD (n + 1) renv ((k, c) :: rest) σ
              = (match createObject n renv c σ with
                 | .error e => .error e
                 | .ok (m, post1, σ3) =>
                     match buildChildrenD n renv rest σ3 with
                     | .error e => .error e
                     | .ok (ms2, posts2, σ4) =>
                         .ok ((k, m) :: ms2, (k, post1) :: posts2, σ4))
              from rfl] at h
            cases ha : createObject n renv c σ with
            | error e => simp [ha] at h
            | ok p =>
                obtain ⟨m, post1, σ3⟩ := p
                simp only [ha] at h
                cases hb : buildChildrenD n renv rest σ3 with
                | error e => simp [hb] at h
                | ok q =>
                    obtain ⟨ms2, posts2, σ4⟩ := q
                    simp only [hb] at h
                    cases h
                    obtain ⟨hm1, hid1, htop1, hcap1⟩ := ih1 c σ m post1 σ3
                      (hch (k, c) (List.mem_cons_self _ _)) hσ ha
                    obtain ⟨hm2, hforall⟩ := ih3 rest σ3 ms2 posts2 _
                      (fun p2 hp2 => hch p2 (List.mem_cons_of_mem _ hp2))
                      (by omega) hb
                    exact ⟨by omega, List.Forall₂.cons ⟨rfl, hid1, htop1, hcap1⟩
                      (hforall.imp (fun a b hab =>
                        ⟨hab.1, hab.2.1, le_trans hm1 hab.2.2.1, hab.2.2.2⟩))⟩
      · -- fromCfg
        intro rc cfg σ v post σ2 hw hσ hrcn h
        cases hw with
        | node i c fs rc0 hrc hkeys hwf hraw =>
            rw [fromCfg_node] at h
            by_cases hcn : c = rc.cd.name
            · subst hcn
              rw [hrcn] at hrc
              cases hrc
              have hpy : (Val.pyIs (.pycls rc.cd.name) (.pycls rc.cd.name))
                  = true := by simp [Val.pyIs]
              rw [if_pos hpy] at h
              cases hrf : realizeFields n renv fs σ with
              | error e => simp [hrf] at h
              | ok p =>
                  obtain ⟨kw, posts2, σ3⟩ := p
                  simp only [hrf] at h
                  obtain ⟨hm1, hforall⟩ := ih5 fs σ kw posts2 σ3
                    (fun p hp hc => hwf p.1 p.2
                      (by rw [Prod.mk.eta]; exact hp) hc) hσ hrf
                  cases hni : newInit n renv rc [] kw σ3 with
                  | error e => simp [hni] at h
                  | ok q =>
                      obtain ⟨o, σ4⟩ := q
                      simp only [hni] at h
                      cases h
                      obtain ⟨e1, e2, e3, e4, e5, e6, e7, e8, e9⟩ :=
                        hst rc.cd.name rc hrcn
                      have hkwkeys : kw.map Prod.fst = fs.map Prod.fst :=
                        forall2_keys _ kw fs hforall (fun p q hpq => hpq.1)
                      have hkwargs : kw.map Prod.fst = rc.rd.argNames := by
                        rw [hkwkeys]
                        exact hkeys
                      have hrepl : ∀ p ∈ kw,
                          ∃ d, lookupE rc.rd.argsDefaultValue p.1 = some d
                          ∧ (p.2.pyIs d = false
                             ∨ lookupO rc.rd.argsDefaultConfig p.1
                                = some none) := by
                        intro p hp
                        have hpk : p.1 ∈ rc.rd.argNames := by
                          rw [← hkwargs]
                          exact List.mem_map_of_mem Prod.fst hp
                        obtain ⟨d, hd⟩ := lookupE_of_mem_keys
                          rc.rd.argsDefaultValue p.1 (by rw [e2]; exact hpk)
                        refine ⟨d, hd, ?_⟩
                        obtain ⟨q, hq, hrel⟩ := forall2_mem_left _ kw fs
                          hforall p hp
                        obtain ⟨hq1, hcfgT, hcfgF⟩ := hrel
                        obtain ⟨ov, hov⟩ := lookupO_of_mem_keys
                          rc.rd.argsDefaultConfig p.1 (by rw [e3]; exact hpk)
                        cases ov with
                        | none => exact Or.inr hov
                        | some c2 =>
                            left
                            obtain ⟨htopd, hshaped⟩ := e7 p.1 d hd
                            by_cases hqc : q.2.isConfig = true
                            · obtain ⟨hids, htops, _⟩ := hcfgT hqc
                              exact pyIs_false_of_idShape p.2 d hids
                                (fun _ => by omega)
                            · have hpq : p.2 = q.2 := hcfgF (by simpa using hqc)
                              have hqmem : (q.1, q.2) ∈ fs := by
                                rw [Prod.mk.eta]
                                exact hq
                              obtain ⟨_, hsafe⟩ := hraw q.1 q.2 hqmem
                                (by simpa using hqc)
                              rw [hq1] at hd hov
                              rw [hpq]
                              exact hsafe d c2 hd hov
                      obtain ⟨ho, hσ4⟩ := newInit_char n renv rc kw σ3 v σ2
                        hkwargs (by rw [e1]) e5 hrepl hni
                      subst ho
                      subst hσ4
                      refine ⟨by omega, rfl, by simpa [topId] using (by omega :
                        σ ≤ σ3), ?_⟩
                      intro f r hr
                      rw [Val.erase_obj] at hr
                      match f with
                      | 0 => exact absurd hr (by simp [getCfgE])
                      | f2 + 1 =>
                          rw [getCfgE_obj_red] at hr
                          have hncc : hasK (kw.map eraseP) "current_config"
                              = false := by
                            rw [hasK_eraseP]
                            cases hK : hasK kw "current_config" with
                            | false => rfl
                            | true =>
                                have hmem := (hasK_iff_mem kw _).mp hK
                                rw [hkwargs] at hmem
                                exact absurd rfl (e6 _ hmem).2.2
                          rw [if_neg (by rw [hncc]; simp)] at hr
                          simp only [hrcn] at hr
                          cases hcc : currentCfgE f2 renv rc (kw.map eraseP)
                            with
                          | error e => simp [hcc] at hr
                          | ok s =>
                              simp only [hcc] at hr
                              cases hr
                              match f2 with
                              | 0 => exact absurd hcc (by simp [currentCfgE])
                              | f3 + 1 =>
                                  rw [currentCfgE_red] at hcc
                                  have hdce := defaultCfgE_eq rc e4
                                    (fun k hk =>
                                      ⟨(e6 k hk).1, (e6 k hk).2.1⟩) e5
                                  simp only [hdce] at hcc
                                  cases hfzE : hasK
                                      (rc.rd.argsDefaultConfigOrValue.map
                                        eraseP) "freeze" with
                                  | true =>
                                      have hfc : freezeCall (.node 0
                                          (.pycls rc.cd.name) false
                                          (rc.rd.argsDefaultConfigOrValue.map
                                            eraseP))
                                        = .error .typeError := by
                                        rw [freezeCall_node_red, if_pos hfzE]
                                      simp only [hfc] at hcc
                                      exact absurd hcc (by simp)
                                  | false =>
                                      have hfc : freezeCall (.node 0
                                          (.pycls rc.cd.name) false
                                          (rc.rd.argsDefaultConfigOrValue.map
                                            eraseP))
                                        = .ok (.node 0 (.pycls rc.cd.name)
                                            true
                                            (rc.rd.argsDefaultConfigOrValue.map
                                              eraseP)) := by
                                        rw [freezeCall_node_red,
                                          if_neg (by rw [hfzE]; simp)]
                                      simp only [hfc] at hcc
                                      have hndF : ((fs.map eraseP).map
                                          Prod.fst).Nodup := by
                                        rw [eraseP_keys, hkeys]
                                        exact e5
                                      have hseq := overlayE_exact renv
                                        (fs.map eraseP) (kw.map eraseP) hndF
                                        (rc.rd.argsDefaultConfigOrValue.map eraseP)
                                        (rc.rd.argsDefaultConfigOrValue.map eraseP)
                                        f3 (.pycls rc.cd.name) s
                                        (by rw [eraseP_keys, eraseP_keys, e4,
                                          hkeys])
                                        (by
                                          intro k hk
                                          rw [eraseP_keys, hkeys]
                                          rw [eraseP_keys, e4] at hk
                                          exact hk)
                                        (by
                                          intro k hkf hknS
                                          exfalso
                                          apply hknS
                                          rw [eraseP_keys, e4]
                                          rw [eraseP_keys, hkeys] at hkf
                                          exact hkf)
                                        (by
                                          intro k hk
                                          rw [eraseP_keys, e4] at hk
                                          exact ⟨(e6 k hk).1, (e6 k hk).2.1⟩)
                                        (by
                                          intro k hk
                                          rw [eraseP_keys, e4, ← hkeys] at hk
                                          obtain ⟨fv, hfv⟩ :=
                                            lookupE_of_mem_keys fs k hk
                                          obtain ⟨u, hu, hrel⟩ := forall2_lookup _
                                            kw fs hforall (fun p q hpq => hpq.1)
                                            k fv hfv
                                          obtain ⟨_, hcfgT, hcfgF⟩ := hrel
                                          refine ⟨u.erase, fv.erase, ?_, ?_, ?_⟩
                                          · rw [lookupE_eraseP, hu]
                                            rfl
                                          · rw [lookupE_eraseP, hfv]
                                            rfl
                                          · by_cases hvc : fv.isConfig = true
                                            · obtain ⟨_, _, hcapu⟩ := hcfgT hvc
                                              intro f4 r2 hg2
                                              rw [hcapu f4 r2 hg2]
                                              rfl
                                            · have hufv : u = fv :=
                                                hcfgF (by simpa using hvc)
                                              have hfvmem : (k, fv) ∈ fs :=
                                                lookupE_mem fs k fv hfv
                                              obtain ⟨hnc, _⟩ := hraw k fv hfvmem
                                                (by simpa using hvc)
                                              intro f4 r2 hg2
                                              rw [hufv] at hg2
                                              rw [hnc f4 r2 hg2, hufv]
                                              rfl)
                                        hcc
                                      rw [hseq, Val.erase_node, Val.erase_pycls]
            · have hpy : (Val.pyIs (.pycls c) (.pycls rc.cd.name)) = false := by
                simp [Val.pyIs]
                exact hcn
              rw [if_neg (by rw [hpy]; simp)] at h
              exact absurd h (by simp)
        | clist i cs hcfg hch =>
            rw [show fromCfg (n + 1) renv rc (.clist i true cs) σ
              = .error .targetMismatch from rfl] at h
            exact absurd h (by simp)
        | cdict i cs hcfg hch =>
            rw [show fromCfg (n + 1) renv rc (.cdict i true cs) σ
              = .error .targetMismatch from rfl] at h
            exact absurd h (by simp)
      · -- realizeFields
        intro fs σ kw ps σ2 hwfh hσ h
        cases fs with
        | nil =>
            rw [show realizeFields (n + 1) renv [] σ = .ok ([], [], σ)
              from rfl] at h
            cases h
            exact ⟨le_refl σ, List.Forall₂.nil⟩
        | cons a rest =>
            obtain ⟨k, fv⟩ := a
            rw [show realizeFields (n + 1) renv ((k, fv) :: rest) σ
              = (if fv.isConfig then
                   match createObject n renv fv σ with
                   | .error e => .error e
                   | .ok (r, post1, σ3) =>
                       match realizeFields n renv rest σ3 with
                       | .error e => .error e
                       | .ok (kw2, ps2, σ4) =>
                           .ok ((k, r) :: kw2, (k, post1) :: ps2, σ4)
                 else
                   match realizeFields n renv rest σ with
                   | .error e => .error e
                   | .ok (kw2, ps2, σ3) =>
                       .ok ((k, fv) :: kw2, (k, fv) :: ps2, σ3))
              from rfl] at h
            by_cases hvc : fv.isConfig = true
            · rw [if_pos hvc] at h
              cases ha : createObject n renv fv σ with
              | error e => simp [ha] at h
              | ok p =>
                  obtain ⟨r, post1, σ3⟩ := p
                  simp only [ha] at h
                  cases hb : realizeFields n renv rest σ3 with
                  | error e => simp [hb] at h
                  | ok q =>
                      obtain ⟨kw2, ps2, σ4⟩ := q
                      simp only [hb] at h
                      cases h
                      obtain ⟨hm1, hid1, htop1, hcap1⟩ := ih1 fv σ r post1 σ3
                        (hwfh (k, fv) (List.mem_cons_self _ _) hvc) hσ ha
                      obtain ⟨hm2, hforall⟩ := ih5 rest σ3 kw2 ps2 _
                        (fun p hp hc =>
                          hwfh p (List.mem_cons_of_mem _ hp) hc)
                        (by omega) hb
                      refine ⟨by omega, List.Forall₂.cons
                        ⟨rfl, fun _ => ⟨hid1, htop1, hcap1⟩,
                         fun hF => absurd hvc (by rw [hF]; simp)⟩
                        (hforall.imp (fun a b hab =>
                          ⟨hab.1, fun hT =>
                            ⟨(hab.2.1 hT).1,
                             le_trans hm1 (hab.2.1 hT).2.1,
                             (hab.2.1 hT).2.2⟩, hab.2.2⟩))⟩
            · rw [if_neg hvc] at h
              cases hb : realizeFields n renv rest σ with
              | error e => simp [hb] at h
              | ok q =>
                  obtain ⟨kw2, ps2, σ3⟩ := q
                  simp only [hb] at h
                  cases h
                  obtain ⟨hm2, hforall⟩ := ih5 rest σ kw2 ps2 _
                    (fun p hp hc => hwfh p (List.mem_cons_of_mem _ hp) hc)
                    hσ hb
                  exact ⟨hm2, List.Forall₂.cons
                    ⟨rfl, fun hT => absurd hT hvc, fun _ => rfl⟩ hforall⟩

theorem lookupCls_cons (rc0 : RClass) (rest : REnv) (c : String) :
    lookupCls (rc0 :: rest) c
      = if rc0.cd.name = c then some rc0 else lookupCls rest c := by
  by_cases hc : rc0.cd.name = c
  · rw [if_pos hc]
    exact List.find?_cons_of_pos _ (by simp [hc])
  · rw [if_neg hc]
    exact List.find?_cons_of_neg _ (by simp [hc])

/-- **C1 (counterexample).**  Registration-order dependence breaks the
round trip: class `A` is decorated while the class `B` of its declared
default instance is still plain, so the default is stored raw; `B` is then
decorated.  `A.from_config(A.default_config())` succeeds, but the
instance's `current_config()` captures the (now capturable) `B` instance
as a config node, while `A.default_config()` holds the raw instance — the
two are not field-for-field equal. -/
theorem c1_counterexample :
    defaultCfg 20 rcA [] 200
      = .ok (.node 200 (.pycls "A") true [("p", .obj 201 "B" [])], 202)
    ∧ fromCfg 20 envA rcA
        (.node 200 (.pycls "A") true [("p", .obj 201 "B" [])]) 202
      = .ok (.obj 202 "A" [("p", .obj 201 "B" [])],
             .node 200 (.pycls "A") true [("p", .obj 201 "B" [])], 203)
    ∧ getCfg 20 envA (.obj 202 "A" [("p", .obj 201 "B" [])]) 203
      = .ok (some (.node 203 (.pycls "A") true
          [("p", .node 205 (.pycls "B") true [])]), 206)
    ∧ (Val.node 203 (.pycls "A") true
        [("p", .node 205 (.pycls "B") true [])]).erase
      ≠ (Val.node 200 (.pycls "A") true [("p", .obj 201 "B" [])]).erase := by
  refine ⟨rfl, rfl, rfl, ?_⟩
  intro h
  simp only [Val.erase_node, Val.erase_obj, Val.erase_pycls, List.map_cons,
    List.map_nil, eraseP] at h
  simp at h

/-- **C1 (amended).**  For a registered class `C` in a *stable* registry —
every parameter default captured as a config is well-formed under the final
registry, and every default stored raw is still not capturable under the
final registry — whenever `C.default_config()`, `C.from_config(...)` on it,
and `current_config()` of the resulting instance all complete, the snapshot
is field-for-field equal to the default configuration up to object
identities (equal identity erasures).  The stability hypothesis is exactly
what the counterexample violates. -/
theorem c1_roundtrip (f1 f2 f3 : Nat) (renv : REnv) (N : Nat) (c : String)
    (rc : RClass) (σ σ1 σ2 σ3 : Nat) (cfg v post snap : Val)
    (hst : EnvStable renv N)
    (hrc : lookupCls renv c = some rc)
    (hσ : N ≤ σ)
    (hd : defaultCfg f1 rc [] σ = .ok (cfg, σ1))
    (hb : fromCfg f2 renv rc cfg σ1 = .ok (v, post, σ2))
    (hs : getCfg f3 renv v σ2 = .ok (some snap, σ3)) :
    snap.erase = cfg.erase := by
  obtain ⟨hm, hwf⟩ := wfcfg_defaultCfg renv N hst c rc hrc f1 σ cfg σ1 hσ hd
  have hrcn : lookupCls renv rc.cd.name = some rc := by
    rw [lookupCls_name renv c rc hrc]
    exact hrc
  obtain ⟨_, _, _, hcap⟩ := (buildSnap renv N hst f2).2.2.2.1 rc cfg σ1 v
    post σ2 hwf (by omega) hrcn hb
  have hsE := (snapCommute f3).1 renv v σ2 (some snap) σ3 hs
  have h2 := hcap f3 ((some snap).map Val.erase) hsE
  simp only [Option.map_some'] at h2
  exact Option.some.inj h2

/-- The concrete four-class registry of the witnesses is stable with all
pre-registration identities below `100`. -/
theorem envW_stable : EnvStable envW 100 := by
  intro c rc h
  have he : envW
      = [⟨⟨"Sub", false, [], []⟩, ⟨[], [], [], []⟩⟩,
         ⟨⟨"Layer", false,
           [("sub", some (.obj 7 "Sub" [])),
            ("width", some (.prim (.pint 10)))], []⟩,
          ⟨["sub", "width"],
           [("sub", .obj 7 "Sub" []), ("width", .prim (.pint 10))],
           [("sub", some (.node 100 (.pycls "Sub") true [])), ("width", none)],
           [("sub", .node 100 (.pycls "Sub") true []),
            ("width", .prim (.pint 10))]⟩⟩,
         ⟨⟨"MSub", true, [], []⟩, ⟨[], [], [], []⟩⟩,
         ⟨⟨"Needy", false, [("x", none)], []⟩,
          ⟨["x"], [("x", .prim .pnone)], [("x", none)],
           [("x", .prim .pnone)]⟩⟩] := rfl
  have hwfSub : ∀ i, WfCfg envW (.node i (.pycls "Sub") true []) := by
    intro i
    refine WfCfg.node i "Sub" []
      ⟨⟨"Sub", false, [], []⟩, ⟨[], [], [], []⟩⟩ rfl rfl ?_ ?_
    · intro k v hv
      simp at hv
    · intro k v hv
      simp at hv
  rw [he] at h
  rw [lookupCls_cons, lookupCls_cons, lookupCls_cons, lookupCls_cons] at h
  split_ifs at h with hc1 hc2 hc3 hc4
  · -- Sub
    cases h
    refine ⟨rfl, rfl, rfl, rfl, by decide, by decide, ?_, ?_, ?_⟩
    · intro k d hd
      simp [lookupE] at hd
    · intro k c2 hc2
      simp [lookupO] at hc2
    · intro p hp
      simp at hp
  · -- Layer
    cases h
    refine ⟨rfl, rfl, rfl, rfl, by decide, by decide, ?_, ?_, ?_⟩
    · intro k d hd
      simp only [lookupE] at hd
      split_ifs at hd with hk1 hk2
      · cases hd
        exact ⟨by decide, fun c2 _ => by decide⟩
      · cases hd
        subst hk2
        exact ⟨by decide, fun c2 hcc => by simp [lookupO] at hcc⟩
    · intro k c2 hk
      simp only [lookupO] at hk
      split_ifs at hk with hk1 hk2
      · cases hk
        exact hwfSub 100
      · simp at hk
    · intro p hp
      simp only [List.mem_cons, List.not_mem_nil, or_false] at hp
      rcases hp with rfl | rfl
      · refine ⟨fun _ => hwfSub 100, fun hF => absurd hF (by decide)⟩
      · refine ⟨fun hT => absurd hT (by decide), fun _ => ?_⟩
        refine ⟨notCap_prim envW (.pint 10), ?_⟩
        intro _ d c2 _ hc2
        simp [lookupO] at hc2
  · -- MSub
    cases h
    refine ⟨rfl, rfl, rfl, rfl, by decide, by decide, ?_, ?_, ?_⟩
    · intro k d hd
      simp [lookupE] at hd
    · intro k c2 hc2
      simp [lookupO] at hc2
    · intro p hp
      simp at hp
  · -- Needy
    cases h
    refine ⟨rfl, rfl, rfl, rfl, by decide, by decide, ?_, ?_, ?_⟩
    · intro k d hd
      simp only [lookupE] at hd
      split_ifs at hd with hk1
      · cases hd
        exact ⟨by decide, fun c2 hc2 => by simp [lookupO] at hc2⟩
    · intro k c2 hk
      simp only [lookupO] at hk
      split_ifs at hk with hk1
      · simp at hk
    · intro p hp
      simp only [List.mem_cons, List.not_mem_nil, or_false] at hp
      rcases hp with rfl
      refine ⟨fun hT => absurd hT (by decide), fun _ => ?_⟩
      refine ⟨notCap_prim envW .pnone, ?_⟩
      intro _ d c2 _ hc2
      simp [lookupO] at hc2
  · simp [lookupCls, List.find?] at h

/-- Witness for C1 (amended): the full concrete round trip for `Layer` in
the four-class registry — `default_config()`, `from_config`, and the
snapshot all succeed, and the snapshot's erasure equals the default
configuration's erasure. -/
theorem c1_roundtrip_witness :
    defaultCfg 20 rcLayer [] 300
      = .ok (.node 300 (.pycls "Layer") true
          [("sub", .node 301 (.pycls "Sub") true []),
           ("width", .prim (.pint 10))], 302)
    ∧ fromCfg 20 envW rcLayer
        (.node 300 (.pycls "Layer") true
          [("sub", .node 301 (.pycls "Sub") true []),
           ("width", .prim (.pint 10))]) 302
      = .ok (.obj 303 "Layer"
          [("sub", .obj 302 "Sub" []), ("width", .prim (.pint 10))],
          .node 300 (.pycls "Layer") true
            [("sub", .node 301 (.pycls "Sub") true []),
             ("width", .prim (.pint 10))], 304)
    ∧ getCfg 20 envW (.obj 303 "Layer"
          [("sub", .obj 302 "Sub" []), ("width", .prim (.pint 10))]) 304
      = .ok (some (.node 304 (.pycls "Layer") true
          [("sub", .node 306 (.pycls "Sub") true []),
           ("width", .prim (.pint 10))]), 307)
    ∧ (Val.node 304 (.pycls "Layer") true
        [("sub", .node 306 (.pycls "Sub") true []),
         ("width", .prim (.pint 10))]).erase
      = (Val.node 300 (.pycls "Layer") true
          [("sub", .node 301 (.pycls "Sub") true []),
           ("width", .prim (.pint 10))]).erase :=
  ⟨rfl, rfl, rfl,
   c1_roundtrip 20 20 20 envW 100 "Layer" rcLayer 300 302 304 307
     (.node 300 (.pycls "Layer") true
       [("sub", .node 301 (.pycls "Sub") true []),
        ("width", .prim (.pint 10))])
     (.obj 303 "Layer"
       [("sub", .obj 302 "Sub" []), ("width", .prim (.pint 10))])
     (.node 300 (.pycls "Layer") true
       [("sub", .node 301 (.pycls "Sub") true []),
        ("width", .prim (.pint 10))])
     (.node 304 (.pycls "Layer") true
       [("sub", .node 306 (.pycls "Sub") true []),
        ("width", .prim (.pint 10))])
     envW_stable rfl (by decide) rfl rfl rfl⟩

end PyConfig
